import Mathlib

/-!
# Power4 — the board-state engine of `src/game.go`

A shallow embedding of the Go engine (`NewGame`, `addPrefilledBlocks`,
`DropPiece`, `checkWin`, `countDirection`, `checkDraw`) followed by the
properties established about it.

Conventions of the embedding

* Go `int` fields are `Int`; the arithmetic steps that can leave the 64-bit
  range on a state with arbitrary fields (`g.TurnCount++`, and `g.Cols-1` in
  the text of the invalid-column error) are wrapped with `wrap64`.  Loop
  counters stay inside `[-1, Rows]` and `[-1, Cols]`.
* `g.Board` is a `[][]string`; an index expression `g.Board[r][c]` panics when
  an index is out of range.  Every function that indexes the board returns
  `Except Fault _`, where `Fault.panic` is a Go run-time panic.
* A Go loop without a syntactic bound is run with a fuel argument;
  `Fault.outOfFuel` means the loop was still running when the fuel was spent.
* `*Game` is mutated in place by the Go code; here the state is passed and
  returned explicitly.
* `math/rand` is a stream `rng : Nat → Nat` of raw draws read at a cursor;
  `rand.Intn(n)` is the next raw draw reduced modulo `n`, so that every value
  of `[0, n)` and no other can come out.
-/

namespace Power4

/-! ## Data model (game.go, lines 14-32) -/

/-- Move: a played cell (`type Move struct`). -/
structure Move where
  Row : Int
  Col : Int
deriving DecidableEq, Repr

/-- Board: `[][]string`, row-major; `""` is an empty cell. -/
abbrev Board := List (List String)

/-- Game: the complete state of a match (`type Game struct`). -/
structure Game where
  Rows : Int
  Cols : Int
  Board : Board
  CurrentPlayer : String
  Player1 : String
  Player2 : String
  GameOver : Bool
  Winner : String
  LastMove : Option Move
  TurnCount : Int
  InverseGravity : Bool
deriving DecidableEq, Repr

/-- Fault: the two ways a run yields no value. -/
inductive Fault where
  | panic
  | outOfFuel
deriving DecidableEq, Repr

/-- DropError: the three errors `DropPiece` returns.
* `gameOver` is `errors.New("la partie est terminée")`;
* `invalidColumn col maxCol` is
  `fmt.Errorf("colonne invalide: %d (doit être entre 0 et %d)", col, g.Cols-1)`;
* `columnFull` is `errors.New("colonne pleine")`. -/
inductive DropError where
  | gameOver
  | invalidColumn (col maxCol : Int)
  | columnFull
deriving DecidableEq, Repr

deriving instance DecidableEq for Except

/-- Two's-complement wrap-around of a 64-bit Go `int`. -/
def wrap64 (x : Int) : Int := (x + 2 ^ 63) % 2 ^ 64 - 2 ^ 63

/-! ## Board access -/

/-- Read `b[r][c]`; an index out of range panics. -/
def boardGet (b : Board) (r c : Int) : Except Fault String :=
  if r < 0 ∨ c < 0 then .error .panic
  else
    match b[r.toNat]? with
    | none => .error .panic
    | some cells =>
      match cells[c.toNat]? with
      | none => .error .panic
      | some s => .ok s

/-- Write `b[r][c] = v`; an index out of range panics. -/
def boardSet (b : Board) (r c : Int) (v : String) : Except Fault Board :=
  if r < 0 ∨ c < 0 then .error .panic
  else
    match b[r.toNat]? with
    | none => .error .panic
    | some cells =>
      if c.toNat < cells.length then .ok (b.set r.toNat (cells.set c.toNat v))
      else .error .panic

/-! ## Landing-row search (game.go, lines 140-147 and 189-209) -/

/-- The bottom-up search
`row := -1; for r := n - 1; r >= 0; r-- { if g.Board[r][col] == "" { row = r; break } }`
started with `n` rows still to visit. -/
def scanFromBottom (b : Board) (col : Int) : Nat → Except Fault Int
  | 0 => .ok (-1)
  | n + 1 =>
    match boardGet b (n : Int) col with
    | .error f => .error f
    | .ok s => if s = "" then .ok (n : Int) else scanFromBottom b col n

/-- The top-down search
`row := -1; for r := 0; r < g.Rows; r++ { if g.Board[r][col] == "" { row = r; break } }`
at loop counter `r` with `k` rows still to visit. -/
def scanFromTop (b : Board) (col : Int) (r : Nat) : Nat → Except Fault Int
  | 0 => .ok (-1)
  | k + 1 =>
    match boardGet b (r : Int) col with
    | .error f => .error f
    | .ok s => if s = "" then .ok (r : Int) else scanFromTop b col (r + 1) k

/-- The landing row of `DropPiece` (lines 189-209): `-1` when the column has no
empty cell. -/
def landingRow (g : Game) (col : Int) : Except Fault Int :=
  if g.InverseGravity then scanFromTop g.Board col 0 g.Rows.toNat
  else scanFromBottom g.Board col g.Rows.toNat

/-! ## Win detection (game.go, lines 270-332) -/

/-- The loop of `countDirection` (lines 324-329) at position `(r, c)` with
`count` cells counted so far. -/
def countLoop (g : Game) (dRow dCol : Int) (player : String) :
    Nat → Int → Int → Int → Except Fault Int
  | 0, r, c, count =>
    if 0 ≤ r ∧ r < g.Rows ∧ 0 ≤ c ∧ c < g.Cols then
      match boardGet g.Board r c with
      | .error f => .error f
      | .ok s => if s = player then .error .outOfFuel else .ok count
    else .ok count
  | fuel + 1, r, c, count =>
    if 0 ≤ r ∧ r < g.Rows ∧ 0 ≤ c ∧ c < g.Cols then
      match boardGet g.Board r c with
      | .error f => .error f
      | .ok s =>
        if s = player then countLoop g dRow dCol player fuel (r + dRow) (c + dCol) (count + 1)
        else .ok count
    else .ok count

/-- The fuel given to one `countDirection` scan: a scan that moves leaves the
board after at most this many cells. -/
def scanFuel (g : Game) : Nat := g.Rows.toNat + g.Cols.toNat

/-- countDirection (lines 318-332): the number of consecutive cells holding
`player`, starting next to `(row, col)` and walking along `(dRow, dCol)`. -/
def countDirection (g : Game) (row col dRow dCol : Int) (player : String) :
    Except Fault Int :=
  countLoop g dRow dCol player (scanFuel g) (row + dRow) (col + dCol) 0

/-- The four direction vectors of `checkWin` (lines 276-281). -/
def directions : List (Int × Int) := [(0, 1), (1, 0), (1, 1), (1, -1)]

/-- The `for _, dir := range directions` loop of `checkWin` (lines 284-300). -/
def checkWinLoop (g : Game) (row col : Int) (player : String) :
    List (Int × Int) → Except Fault Bool
  | [] => .ok false
  | dir :: rest =>
    match countDirection g row col dir.1 dir.2 player with
    | .error f => .error f
    | .ok a =>
      match countDirection g row col (-dir.1) (-dir.2) player with
      | .error f => .error f
      | .ok b => if 1 + a + b ≥ 4 then .ok true else checkWinLoop g row col player rest

/-- checkWin (lines 270-301). -/
def checkWin (g : Game) (row col : Int) : Except Fault Bool :=
  match boardGet g.Board row col with
  | .error f => .error f
  | .ok player => checkWinLoop g row col player directions

/-! ## Draw detection (game.go, lines 345-357) -/

/-- The inner loop `for col := 0; col < g.Cols; col++` of `checkDraw` at
counter `col` with `k` columns still to visit: `false` as soon as an empty cell
is met. -/
def checkDrawRow (b : Board) (row : Int) (col : Nat) : Nat → Except Fault Bool
  | 0 => .ok true
  | k + 1 =>
    match boardGet b row (col : Int) with
    | .error f => .error f
    | .ok s => if s = "" then .ok false else checkDrawRow b row (col + 1) k

/-- The outer loop `for row := 0; row < g.Rows; row++` of `checkDraw`. -/
def checkDrawRows (g : Game) (row : Nat) : Nat → Except Fault Bool
  | 0 => .ok true
  | k + 1 =>
    match checkDrawRow g.Board (row : Int) 0 g.Cols.toNat with
    | .error f => .error f
    | .ok false => .ok false
    | .ok true => checkDrawRows g (row + 1) k

/-- checkDraw (lines 345-357). -/
def checkDraw (g : Game) : Except Fault Bool :=
  checkDrawRows g 0 g.Rows.toNat

/-! ## Dropping a piece (game.go, lines 178-250) -/

/-- The state after lines 217-226 of `DropPiece`: the piece is in the board `b`,
`LastMove` is the landing cell, the turn counter is incremented and the gravity
is flipped when the new counter is a multiple of 5 (Go `%` truncates, as
`Int.tmod` does). -/
def afterPlacement (g : Game) (b : Board) (row col : Int) : Game :=
  let g1 : Game := { g with Board := b, LastMove := some { Row := row, Col := col } }
  let g2 : Game := { g1 with TurnCount := wrap64 (g1.TurnCount + 1) }
  if g2.TurnCount.tmod 5 = 0 then { g2 with InverseGravity := !g2.InverseGravity } else g2

/-- Lines 228-249 of `DropPiece`: the win check, the draw check, the change of
player. -/
def finishMove (g : Game) (row col : Int) : Except Fault Game :=
  match checkWin g row col with
  | .error f => .error f
  | .ok true => .ok { g with GameOver := true, Winner := g.CurrentPlayer }
  | .ok false =>
    match checkDraw g with
    | .error f => .error f
    | .ok true => .ok { g with GameOver := true, Winner := "draw" }
    | .ok false =>
      if g.CurrentPlayer = "player1" then .ok { g with CurrentPlayer := "player2" }
      else .ok { g with CurrentPlayer := "player1" }

/-- DropPiece (lines 178-250).  The result is the state after the call together
with the returned `error` (`none` is Go `nil`). -/
def DropPiece (g : Game) (col : Int) : Except Fault (Game × Option DropError) :=
  if g.GameOver then .ok (g, some .gameOver)
  else if col < 0 ∨ col ≥ g.Cols then
    .ok (g, some (.invalidColumn col (wrap64 (g.Cols - 1))))
  else
    match landingRow g col with
    | .error f => .error f
    | .ok row =>
      if row = -1 then .ok (g, some .columnFull)
      else
        match boardSet g.Board row col g.CurrentPlayer with
        | .error f => .error f
        | .ok b =>
          match finishMove (afterPlacement g b row col) row col with
          | .error f => .error f
          | .ok g' => .ok (g', none)

/-! ## Creating a game (game.go, lines 51-157) -/

/-- getPrefilledBlocksCount (lines 98-113). -/
def getPrefilledBlocksCount (rows cols : Int) : Int :=
  if rows = 6 ∧ cols = 7 then 3
  else if rows = 6 ∧ cols = 9 then 5
  else if rows = 7 ∧ cols = 8 then 7
  else 0

/-- The slice `players := []string{"player1", "player2"}` (line 132). -/
def players : List String := ["player1", "player2"]

/-- The loop `for placed < count` of `addPrefilledBlocks` (lines 136-156), with
the cursor `k` into the random stream.  `rand.Intn(g.Cols)` panics when
`g.Cols <= 0`. -/
def addPrefilledLoop (rng : Nat → Nat) (count : Int) :
    Nat → Nat → Game → Int → Except Fault Game
  | 0, _, g, placed => if placed < count then .error .outOfFuel else .ok g
  | fuel + 1, k, g, placed =>
    if placed < count then
      if g.Cols ≤ 0 then .error .panic
      else
        let col : Int := ((rng k % g.Cols.toNat : Nat) : Int)
        match scanFromBottom g.Board col g.Rows.toNat with
        | .error f => .error f
        | .ok row =>
          if row ≠ -1 then
            match players[rng (k + 1) % 2]? with
            | none => .error .panic
            | some p =>
              match boardSet g.Board row col p with
              | .error f => .error f
              | .ok b => addPrefilledLoop rng count fuel (k + 2) { g with Board := b } (placed + 1)
          else addPrefilledLoop rng count fuel (k + 1) g placed
    else .ok g

/-- addPrefilledBlocks (lines 122-157). -/
def addPrefilledBlocks (g : Game) (count : Int) (rng : Nat → Nat) (fuel : Nat) :
    Except Fault Game :=
  if count = 0 then .ok g
  else addPrefilledLoop rng count fuel 0 g 0

/-- NewGame (lines 51-82).  `make([][]string, rows)` panics for a negative
`rows`, and `make([]string, cols)`, run once per row, for a negative `cols`. -/
def NewGame (rows cols : Int) (player1 player2 : String) (rng : Nat → Nat) (fuel : Nat) :
    Except Fault Game :=
  if rows < 0 then .error .panic
  else if 0 < rows ∧ cols < 0 then .error .panic
  else
    let board : Board := List.replicate rows.toNat (List.replicate cols.toNat "")
    let game : Game :=
      { Rows := rows
        Cols := cols
        Board := board
        CurrentPlayer := "player1"
        Player1 := player1
        Player2 := player2
        GameOver := false
        Winner := ""
        LastMove := none
        TurnCount := 0
        InverseGravity := false }
    addPrefilledBlocks game (getPrefilledBlocksCount rows cols) rng fuel

/-! ## Sequences of calls -/

/-- The calls `DropPiece(c)` for `c` in `calls`, one after the other on the same
game: the final state and the error returned by each call, in order. -/
def playSeq (g : Game) : List Int → Except Fault (Game × List (Option DropError))
  | [] => .ok (g, [])
  | c :: rest =>
    match DropPiece g c with
    | .error f => .error f
    | .ok (g1, e) =>
      match playSeq g1 rest with
      | .error f => .error f
      | .ok (g2, es) => .ok (g2, e :: es)

end Power4

namespace Power4

/-! ## Specification vocabulary -/

/-- The board `b` is a `rows × cols` grid: `rows` slices of `cols` cells each. -/
def BoardShape (b : Board) (rows cols : Int) : Prop :=
  (b.length : Int) = rows ∧ ∀ cells ∈ b, (cells.length : Int) = cols

/-- The board of `g` is a `g.Rows × g.Cols` grid, as `NewGame` builds it. -/
def WellFormed (g : Game) : Prop := BoardShape g.Board g.Rows g.Cols

instance (b : Board) (rows cols : Int) : Decidable (BoardShape b rows cols) := by
  unfold BoardShape; infer_instance

instance (g : Game) : Decidable (WellFormed g) := by
  unfold WellFormed; infer_instance

/-- The cell `(r, c)` of `b` is within the grid and empty. -/
def IsEmptyAt (b : Board) (r c : Int) : Prop := boardGet b r c = .ok ""

instance (b : Board) (r c : Int) : Decidable (IsEmptyAt b r c) := by
  unfold IsEmptyAt; infer_instance

/-- The number of empty cells of a board. -/
def emptyCount (b : Board) : Nat := (b.map (fun cells => cells.count "")).sum

/-- The invariant of the counters of a running game: the board is a
`Rows × Cols` grid, the mover has a non-empty marker, the turn counter is
non-negative and cannot leave the 64-bit range before the board is full, and
the gravity is inverted exactly when `TurnCount / 5` is odd. -/
def TurnInv (g : Game) : Prop :=
  WellFormed g ∧ g.CurrentPlayer ≠ "" ∧ 0 ≤ g.TurnCount ∧
    g.TurnCount + (emptyCount g.Board : Int) < 2 ^ 63 ∧
    (g.InverseGravity = true ↔ (g.TurnCount / 5) % 2 = 1)

/-- The cell `(r, c)` of `b` is within the grid and holds a marker. -/
def IsFilledAt (b : Board) (r c : Int) : Prop := ∃ s, boardGet b r c = .ok s ∧ s ≠ ""

/-- Every cell of the `Rows × Cols` grid of `g` is non-empty. -/
def GridFull (g : Game) : Prop :=
  ∀ r c : Int, 0 ≤ r → r < g.Rows → 0 ≤ c → c < g.Cols → IsFilledAt g.Board r c

/-- The cell `(r, c)` lies within the `Rows × Cols` grid of `g` and holds `p`. -/
def HoldsAt (g : Game) (r c : Int) (p : String) : Prop :=
  0 ≤ r ∧ r < g.Rows ∧ 0 ≤ c ∧ c < g.Cols ∧ boardGet g.Board r c = .ok p

instance (g : Game) (r c : Int) (p : String) : Decidable (HoldsAt g r c p) := by
  unfold HoldsAt; infer_instance

/-- Four consecutive cells of the grid, the `k`-th of which is `(row, col)`,
all hold `p`; they follow one another along a row (step `(0, 1)`), a column
(step `(1, 0)`), the diagonal going down to the right (step `(1, 1)`) or the
diagonal going down to the left (step `(1, -1)`). -/
def FourThrough (g : Game) (row col : Int) (p : String) : Prop :=
  ∃ d : Int × Int, (d = (0, 1) ∨ d = (1, 0) ∨ d = (1, 1) ∨ d = (1, -1)) ∧
    ∃ k : Int, 0 ≤ k ∧ k ≤ 3 ∧
      ∀ j : Int, 0 ≤ j → j ≤ 3 → HoldsAt g (row + (j - k) * d.1) (col + (j - k) * d.2) p

/-- The invariant of the outcome of a game: the board is a `Rows × Cols` grid,
the mover is `"player1"` or `"player2"`, the game is over exactly when a
winner is recorded, and the recorded winner is a player or `"draw"`. -/
def OutcomeInv (g : Game) : Prop :=
  WellFormed g ∧ (g.CurrentPlayer = "player1" ∨ g.CurrentPlayer = "player2") ∧
    (g.GameOver = true ↔ g.Winner ≠ "") ∧
    (g.Winner = "" ∨ g.Winner = "player1" ∨ g.Winner = "player2" ∨ g.Winner = "draw")

/-- The invariant of the turn order: while the game is not over, `"player1"` is
to move exactly when `TurnCount` is even, and `"player2"` otherwise. -/
def ParityInv (g : Game) : Prop :=
  (g.CurrentPlayer = "player1" ∨ g.CurrentPlayer = "player2") ∧
    (g.GameOver = false → (g.CurrentPlayer = "player1" ↔ g.TurnCount % 2 = 0))

/-! ## Sample states

Concrete states of a 4 × 4 game between "Ann" and "Bob" (a size without
pre-fill), used to instantiate the properties below. -/

/-- The state returned by `NewGame(4, 4, "Ann", "Bob")`. -/
def sampleFresh : Game :=
  { Rows := 4
    Cols := 4
    Board := [["", "", "", ""], ["", "", "", ""], ["", "", "", ""], ["", "", "", ""]]
    CurrentPlayer := "player1"
    Player1 := "Ann"
    Player2 := "Bob"
    GameOver := false
    Winner := ""
    LastMove := none
    TurnCount := 0
    InverseGravity := false }

/-- The state after `DropPiece(0)` on `sampleFresh`. -/
def sampleAfterOne : Game :=
  { sampleFresh with
    Board := [["", "", "", ""], ["", "", "", ""], ["", "", "", ""], ["player1", "", "", ""]]
    CurrentPlayer := "player2"
    LastMove := some { Row := 3, Col := 0 }
    TurnCount := 1 }

/-- The state after four calls `DropPiece(0)` on `sampleFresh`: column 0 is full. -/
def sampleColumnFull : Game :=
  { sampleFresh with
    Board := [["player2", "", "", ""], ["player1", "", "", ""], ["player2", "", "", ""],
      ["player1", "", "", ""]]
    CurrentPlayer := "player1"
    LastMove := some { Row := 0, Col := 0 }
    TurnCount := 4 }

/-- The state after the calls 0, 1, 0, 1, 0, 1, 0 on `sampleFresh`: the seventh
piece, dropped under inverted gravity, completes column 0 for `"player1"`. -/
def sampleWon : Game :=
  { sampleFresh with
    Board := [["player1", "player2", "", ""], ["player1", "", "", ""],
      ["player1", "player2", "", ""], ["player1", "player2", "", ""]]
    CurrentPlayer := "player1"
    GameOver := true
    Winner := "player1"
    LastMove := some { Row := 0, Col := 0 }
    TurnCount := 7
    InverseGravity := true }

/-- The state after the calls 0, 1, 0, 1, 0, 1 on `sampleFresh`: `"player1"` is
about to complete column 0. -/
def sampleBeforeWin : Game :=
  { sampleFresh with
    Board := [["", "player2", "", ""], ["player1", "", "", ""],
      ["player1", "player2", "", ""], ["player1", "player2", "", ""]]
    CurrentPlayer := "player1"
    LastMove := some { Row := 0, Col := 1 }
    TurnCount := 6
    InverseGravity := true }

/-- The state after the calls 1, 3, 2, 3, 1, 3, 0, 2, 0 on `sampleFresh`: the
tenth move is about to be played by `"player2"`. -/
def sampleBeforeTenth : Game :=
  { sampleFresh with
    Board := [["player1", "", "player2", "player2"], ["player1", "", "", ""],
      ["", "player1", "", "player2"], ["", "player1", "player1", "player2"]]
    CurrentPlayer := "player2"
    LastMove := some { Row := 1, Col := 0 }
    TurnCount := 9
    InverseGravity := true }

/-- The state after `DropPiece(3)` on `sampleBeforeTenth`: the tenth move wins
for `"player2"` and flips the gravity back. -/
def sampleTenthWon : Game :=
  { sampleFresh with
    Board := [["player1", "", "player2", "player2"], ["player1", "", "", "player2"],
      ["", "player1", "", "player2"], ["", "player1", "player1", "player2"]]
    CurrentPlayer := "player2"
    GameOver := true
    Winner := "player2"
    LastMove := some { Row := 1, Col := 3 }
    TurnCount := 10
    InverseGravity := false }

/-- The state after the calls 2, 2, 0, 3, 3, 0, 1, 1 on `sampleFresh`: the eighth
move, at (1, 1), wins for `"player2"` along the diagonal (0, 0), (1, 1), (2, 2),
(3, 3) and along no other line. -/
def sampleDiagonalWon : Game :=
  { sampleFresh with
    Board := [["player2", "player1", "", ""], ["", "player2", "", ""],
      ["", "", "player2", "player1"], ["player1", "", "player1", "player2"]]
    CurrentPlayer := "player2"
    GameOver := true
    Winner := "player2"
    LastMove := some { Row := 1, Col := 1 }
    TurnCount := 8
    InverseGravity := true }

/-- The state after the calls 3, 0, 1, 1, 0, 3, 2, 2 on `sampleFresh`: the eighth
move, at (1, 2), wins for `"player2"` along the diagonal (0, 3), (1, 2), (2, 1),
(3, 0) and along no other line. -/
def sampleAntiDiagonalWon : Game :=
  { sampleFresh with
    Board := [["", "", "player1", "player2"], ["", "", "player2", ""],
      ["player1", "player2", "", ""], ["player2", "player1", "", "player1"]]
    CurrentPlayer := "player2"
    GameOver := true
    Winner := "player2"
    LastMove := some { Row := 1, Col := 2 }
    TurnCount := 8
    InverseGravity := true }

/-- The state after the calls 0, 2, 0, 3, 0, 1, 1, 0, 2, 3, 3, 2, 3, 2, 1 on
`sampleFresh`: one empty cell is left. -/
def sampleBeforeDraw : Game :=
  { sampleFresh with
    Board := [["player2", "player2", "player1", "player2"],
      ["player1", "player1", "player2", "player1"],
      ["player1", "", "player2", "player1"],
      ["player1", "player1", "player2", "player2"]]
    CurrentPlayer := "player2"
    LastMove := some { Row := 3, Col := 1 }
    TurnCount := 15
    InverseGravity := true }

/-- The state after `DropPiece(1)` on `sampleBeforeDraw`: the board is full and
nobody has won. -/
def sampleDraw : Game :=
  { sampleFresh with
    Board := [["player2", "player2", "player1", "player2"],
      ["player1", "player1", "player2", "player1"],
      ["player1", "player2", "player2", "player1"],
      ["player1", "player1", "player2", "player2"]]
    CurrentPlayer := "player2"
    GameOver := true
    Winner := "draw"
    LastMove := some { Row := 2, Col := 1 }
    TurnCount := 16
    InverseGravity := true }

/-- The state returned by `NewGame(6, 7, "Ann", "Bob")` when the random draws
are 0, 1, 3, 4, 6, 7: three pre-filled pieces in the bottom row. -/
def samplePrefilled : Game :=
  { Rows := 6
    Cols := 7
    Board := [["", "", "", "", "", "", ""], ["", "", "", "", "", "", ""],
      ["", "", "", "", "", "", ""], ["", "", "", "", "", "", ""],
      ["", "", "", "", "", "", ""],
      ["player2", "", "", "player1", "", "", "player2"]]
    CurrentPlayer := "player1"
    Player1 := "Ann"
    Player2 := "Bob"
    GameOver := false
    Winner := ""
    LastMove := none
    TurnCount := 0
    InverseGravity := false }

/-- The state returned by `NewGame(6, 8, "Ann", "Bob")`, a size without
pre-fill. -/
def sampleWide : Game :=
  { Rows := 6
    Cols := 8
    Board := List.replicate 6 (List.replicate 8 "")
    CurrentPlayer := "player1"
    Player1 := "Ann"
    Player2 := "Bob"
    GameOver := false
    Winner := ""
    LastMove := none
    TurnCount := 0
    InverseGravity := false }

/-- The state after the calls 0, 1, 2, 3, 4 on `sampleWide`: five pieces in the
bottom row, gravity inverted. -/
def sampleWideFive : Game :=
  { sampleWide with
    Board := List.replicate 5 (List.replicate 8 "") ++
      [["player1", "player2", "player1", "player2", "player1", "", "", ""]]
    CurrentPlayer := "player2"
    LastMove := some { Row := 5, Col := 4 }
    TurnCount := 5
    InverseGravity := true }

/-- The number of non-empty cells of a board. -/
def filledCount (b : Board) : Nat :=
  (b.map (fun cells => cells.countP (fun s => decide (s ≠ "")))).sum

/-- The pieces of `g` are stacked from the bottom: every non-empty cell holds
`"player1"` or `"player2"` and every cell below it in its column (larger row
index) is non-empty. -/
def StackedFromBottom (g : Game) : Prop :=
  ∀ (r c : Int) (s : String), boardGet g.Board r c = .ok s → s ≠ "" →
    (s = "player1" ∨ s = "player2") ∧ ∀ i : Int, r < i → i < g.Rows → IsFilledAt g.Board i c

/-- The game `g` with the display names of the players replaced. -/
def withNames (g : Game) (a b : String) : Game := { g with Player1 := a, Player2 := b }

/-- The state `NewGame` builds before the seeding (lines 63-75): an empty
`rows × cols` board, `"player1"` to move. -/
def emptyGame (rows cols : Int) (player1 player2 : String) : Game :=
  { Rows := rows
    Cols := cols
    Board := List.replicate rows.toNat (List.replicate cols.toNat "")
    CurrentPlayer := "player1"
    Player1 := player1
    Player2 := player2
    GameOver := false
    Winner := ""
    LastMove := none
    TurnCount := 0
    InverseGravity := false }

/-- The state after the calls `DropPiece(c)` for `c` in `calls`, one after the
other (the state itself when a call faults). -/
def stateAfter (g : Game) (calls : List Int) : Game :=
  match playSeq g calls with
  | .ok (g', _) => g'
  | .error _ => g

/-- A stream of random draws for `NewGame(6, 9, ...)`: columns 0, 1, 2, 3 with
`"player1"`, then column 4 with `"player2"`. -/
def seedFour (k : Nat) : Nat := [0, 0, 1, 0, 2, 0, 3, 0, 4, 1].getD k 0

/-- The state returned by `NewGame(6, 9, "Ann", "Bob")` on the draws `seedFour`:
the five pre-filled pieces are in the bottom row, four of them aligned for
`"player1"`. -/
def samplePrefilledFour : Game :=
  { Rows := 6
    Cols := 9
    Board := [["", "", "", "", "", "", "", "", ""],
      ["", "", "", "", "", "", "", "", ""],
      ["", "", "", "", "", "", "", "", ""],
      ["", "", "", "", "", "", "", "", ""],
      ["", "", "", "", "", "", "", "", ""],
      ["player1", "player1", "player1", "player1", "player2", "", "", "", ""]]
    CurrentPlayer := "player1"
    Player1 := "Ann"
    Player2 := "Bob"
    GameOver := false
    Winner := ""
    LastMove := none
    TurnCount := 0
    InverseGravity := false }

/-- A sequence of 49 calls that fills the board of `samplePrefilledFour`. -/
def drawCalls : List Int :=
  [1, 5, 8, 7, 4, 8, 7, 7, 8, 7, 6, 1, 3, 6, 3, 4, 1, 8, 7, 2, 8, 4, 1, 8, 0,
    4, 6, 2, 4, 1, 5, 2, 7, 2, 2, 0, 3, 0, 5, 0, 0, 6, 5, 6, 6, 5, 3, 3, 5]

/-- The state after the calls `drawCalls` on `samplePrefilledFour`: the board is
full, the draw is recorded, and the bottom row still holds four aligned
`"player1"` markers. -/
def sampleDrawWithFour : Game :=
  { samplePrefilledFour with
    Board := [["player2", "player1", "player2", "player1", "player2",
        "player1", "player1", "player1", "player2"],
      ["player2", "player2", "player2", "player1", "player2",
        "player2", "player1", "player2", "player1"],
      ["player2", "player1", "player1", "player2", "player1",
        "player1", "player2", "player2", "player2"],
      ["player1", "player2", "player2", "player1", "player2",
        "player1", "player2", "player1", "player2"],
      ["player1", "player1", "player2", "player1", "player1",
        "player1", "player2", "player1", "player1"],
      ["player1", "player1", "player1", "player1", "player2",
        "player2", "player1", "player2", "player1"]]
    CurrentPlayer := "player1"
    GameOver := true
    Winner := "draw"
    LastMove := some { Row := 2, Col := 5 }
    TurnCount := 49
    InverseGravity := true }

/-- The state after four calls `DropPiece(0)` on `sampleWide`: rows 0 and 1 of
column 0 are still empty. -/
def sampleWideFourSame : Game :=
  { sampleWide with
    Board := [["", "", "", "", "", "", "", ""],
      ["", "", "", "", "", "", "", ""],
      ["player2", "", "", "", "", "", "", ""],
      ["player1", "", "", "", "", "", "", ""],
      ["player2", "", "", "", "", "", "", ""],
      ["player1", "", "", "", "", "", "", ""]]
    CurrentPlayer := "player1"
    GameOver := false
    Winner := ""
    LastMove := some { Row := 2, Col := 0 }
    TurnCount := 4
    InverseGravity := false }

/-- The state after five calls `DropPiece(0)` on `sampleWide`. -/
def sampleWideFiveSame : Game :=
  { sampleWide with
    Board := [["", "", "", "", "", "", "", ""],
      ["player1", "", "", "", "", "", "", ""],
      ["player2", "", "", "", "", "", "", ""],
      ["player1", "", "", "", "", "", "", ""],
      ["player2", "", "", "", "", "", "", ""],
      ["player1", "", "", "", "", "", "", ""]]
    CurrentPlayer := "player2"
    GameOver := false
    Winner := ""
    LastMove := some { Row := 1, Col := 0 }
    TurnCount := 5
    InverseGravity := true }

/-- The state after the calls 0, 1, 1, 2, 2, 3, 3 on `sampleWide`: the last two
pieces, dropped under inverted gravity, are at the top of column 3. -/
def sampleWideSeven : Game :=
  { sampleWide with
    Board := [["", "", "", "player2", "", "", "", ""],
      ["", "", "", "player1", "", "", "", ""],
      ["", "", "", "", "", "", "", ""],
      ["", "", "", "", "", "", "", ""],
      ["", "player1", "player1", "", "", "", "", ""],
      ["player1", "player2", "player2", "", "", "", "", ""]]
    CurrentPlayer := "player2"
    GameOver := false
    Winner := ""
    LastMove := some { Row := 1, Col := 3 }
    TurnCount := 7
    InverseGravity := true }

/-- The `len` cells `(r0 + j * d.1, c0 + j * d.2)`, `0 ≤ j < len`, are a maximal
contiguous run of the marker `p` along `d`: each of them is a cell of the grid
holding `p`, and neither the position before the first nor the position after
the last is a cell of the grid holding `p`. -/
def MaximalRun (g : Game) (p : String) (d : Int × Int) (r0 c0 len : Int) : Prop :=
  (∀ j : Int, 0 ≤ j → j < len → HoldsAt g (r0 + j * d.1) (c0 + j * d.2) p) ∧
    ¬ HoldsAt g (r0 - d.1) (c0 - d.2) p ∧
    ¬ HoldsAt g (r0 + len * d.1) (c0 + len * d.2) p

/-- The direction vectors of `checkWin`, each replaced by its opposite. -/
def oppositeDirections : List (Int × Int) := directions.map (fun d => (-d.1, -d.2))

/-- The four cells `(r + j * d.1, c + j * d.2)`, `0 ≤ j ≤ 3`, are cells of the
grid that all hold `q`. -/
def FourLine (g : Game) (r c : Int) (d : Int × Int) (q : String) : Prop :=
  ∀ j : Int, 0 ≤ j → j ≤ 3 → HoldsAt g (r + j * d.1) (c + j * d.2) q

/-- The board holds no four contiguous cells with the same non-empty marker
along a row (step `(0, 1)`), a column (step `(1, 0)`) or one of the two
diagonals (steps `(1, 1)` and `(1, -1)`). -/
def NoFour (g : Game) : Prop :=
  ∀ (r c : Int) (d : Int × Int), (d = (0, 1) ∨ d = (1, 0) ∨ d = (1, 1) ∨ d = (1, -1)) →
    ∀ q : String, q ≠ "" → ¬ FourLine g r c d q

/-- The invariant of win detection: besides `OutcomeInv`, a game that is not
over has no four aligned markers on its board, and a game won by a player has
four aligned markers of that player through `LastMove`. -/
def WinInv (g : Game) : Prop :=
  OutcomeInv g ∧ (g.GameOver = false → NoFour g) ∧
    ((g.Winner = "player1" ∨ g.Winner = "player2") →
      ∃ row col : Int, g.LastMove = some { Row := row, Col := col } ∧
        FourThrough g row col g.Winner)

/-- In every column of `b` the empty cells form one contiguous range of rows:
a cell between two empty cells of a column is empty. -/
def EmptiesContiguous (b : Board) : Prop :=
  ∀ c i j k : Int, i ≤ j → j ≤ k → IsEmptyAt b i c → IsEmptyAt b k c → IsEmptyAt b j c

/-! ## The fixed-size variant (game/game.go) -/

namespace Easy

/-- The Go type `[6][7]int` of `GameEasy.Board`: six rows of seven cells. -/
abbrev Grid : Type := Fin 6 → Fin 7 → Int

/-- GameEasy (game/game.go, lines 9-16). -/
structure GameEasy where
  Board : Grid
  Turn : Int
  Winner : Int
  GameOver : Bool
  Message : String
  IsDraw : Bool

/-- The read `g.Board[row][col]`: an index outside the array is a run-time
panic. -/
def cellAt (b : Grid) (row col : Int) : Except Fault Int :=
  if h : 0 ≤ row ∧ row < 6 ∧ 0 ≤ col ∧ col < 7 then
    .ok (b ⟨row.toNat, by omega⟩ ⟨col.toNat, by omega⟩)
  else .error .panic

/-- The write `g.Board[row][col] = v`. -/
def cellPut (b : Grid) (row col v : Int) : Except Fault Grid :=
  if 0 ≤ row ∧ row < 6 ∧ 0 ≤ col ∧ col < 7 then
    .ok (fun i j => if (i.val : Int) = row ∧ (j.val : Int) = col then v else b i j)
  else .error .panic

/-- NewGame (lines 19-25): the zero board, player 1 to move. -/
def NewGame : GameEasy :=
  { Board := fun _ _ => 0
    Turn := 1
    Winner := 0
    GameOver := false
    Message := "Joueur 1 (=4), à vous de jouer"
    IsDraw := false }

/-- switchTurn (lines 72-80). -/
def switchTurn (g : GameEasy) : GameEasy :=
  if g.Turn = 1 then { g with Turn := 2, Message := "Joueur 2 (=á), à vous de jouer" }
  else { g with Turn := 1, Message := "Joueur 1 (=4), à vous de jouer" }

/-- The `for` loop of `countDirection` (lines 105-117) with the current position
`(row, col)` and `count` cells counted so far; `.outOfFuel` when the loop is
still running after `fuel` iterations. -/
def countLoop (g : GameEasy) (dr dc player : Int) : Nat → Int → Int → Int → Except Fault Int
  | 0, _, _, _ => .error .outOfFuel
  | fuel + 1, row, col, count =>
    if row + dr < 0 ∨ row + dr ≥ 6 ∨ col + dc < 0 ∨ col + dc ≥ 7 then .ok count
    else
      match cellAt g.Board (row + dr) (col + dc) with
      | .error f => .error f
      | .ok v =>
        if v = player then countLoop g dr dc player fuel (row + dr) (col + dc) (count + 1)
        else .ok count

/-- countDirection (lines 103-119). A scan that moves visits at most seven
cells before it leaves the board, so eight iterations are enough for it. -/
def countDirection (g : GameEasy) (row col dr dc player : Int) : Except Fault Int :=
  countLoop g dr dc player 8 row col 0

/-- The direction vectors of `checkWinner` (lines 85-90). -/
def directions : List (Int × Int) := [(0, 1), (1, 0), (1, 1), (1, -1)]

/-- The `for _, d := range directions` loop of `checkWinner` (lines 92-99). -/
def checkWinnerLoop (g : GameEasy) (row col player : Int) :
    List (Int × Int) → Except Fault Bool
  | [] => .ok false
  | d :: rest =>
    match countDirection g row col d.1 d.2 player with
    | .error f => .error f
    | .ok a =>
      match countDirection g row col (-d.1) (-d.2) player with
      | .error f => .error f
      | .ok c =>
        if 1 + a + c ≥ 4 then .ok true else checkWinnerLoop g row col player rest

/-- checkWinner (lines 83-101). -/
def checkWinner (g : GameEasy) (row col : Int) : Except Fault Bool :=
  match cellAt g.Board row col with
  | .error f => .error f
  | .ok player => checkWinnerLoop g row col player directions

/-- The loop of `checkDraw` (lines 123-127) at column `col` with `n` columns
left to inspect. -/
def checkDrawLoop (g : GameEasy) : Nat → Int → Except Fault Bool
  | 0, _ => .ok true
  | n + 1, col =>
    match cellAt g.Board 0 col with
    | .error f => .error f
    | .ok v => if v = 0 then .ok false else checkDrawLoop g n (col + 1)

/-- checkDraw (lines 122-129): only the top row is inspected. -/
def checkDraw (g : GameEasy) : Except Fault Bool := checkDrawLoop g 7 0

/-- The body of the `if g.Board[row][column] == 0` branch of `DropPiece`
(lines 40-66), on the game `g` in which the piece has been placed. -/
def settle (g : GameEasy) (row column : Int) : Except Fault GameEasy :=
  match checkWinner g row column with
  | .error f => .error f
  | .ok true =>
    .ok { g with
      GameOver := true
      Winner := g.Turn
      Message :=
        if g.Turn = 1 then "<‰ Joueur 1 (=4) a gagné !" else "<‰ Joueur 2 (=á) a gagné !" }
  | .ok false =>
    match checkDraw g with
    | .error f => .error f
    | .ok true =>
      .ok { g with
        GameOver := true
        IsDraw := true
        Message := ">\x1d Match nul ! La grille est pleine." }
    | .ok false => .ok (switchTurn g)

/-- The loop `for row := 5; row >= 0; row--` of `DropPiece` (lines 38-67) with
the rows `n - 1`, ..., `0` still to visit; the Boolean is the value returned. -/
def dropLoop (g : GameEasy) (column : Int) : Nat → Except Fault (GameEasy × Bool)
  | 0 => .ok (g, false)
  | n + 1 =>
    match cellAt g.Board (n : Int) column with
    | .error f => .error f
    | .ok v =>
      if v = 0 then
        match cellPut g.Board (n : Int) column g.Turn with
        | .error f => .error f
        | .ok b =>
          match settle { g with Board := b } (n : Int) column with
          | .error f => .error f
          | .ok g' => .ok (g', true)
      else dropLoop g column n

/-- DropPiece (lines 28-70): the new state and the Boolean returned. -/
def DropPiece (g : GameEasy) (column : Int) : Except Fault (GameEasy × Bool) :=
  if g.GameOver then .ok (g, false)
  else if column < 0 ∨ column ≥ 7 then .ok (g, false)
  else dropLoop g column 6

/-- The calls `DropPiece(c)` for `c` in `calls`, one after the other on the same
game: the final state and the Boolean returned by each call, in order. -/
def playSeq (g : GameEasy) : List Int → Except Fault (GameEasy × List Bool)
  | [] => .ok (g, [])
  | c :: rest =>
    match DropPiece g c with
    | .error f => .error f
    | .ok (g1, r) =>
      match playSeq g1 rest with
      | .error f => .error f
      | .ok (g2, rs) => .ok (g2, r :: rs)

/-- Every non-zero cell has only non-zero cells below it (larger row index) in
its column. -/
def Stacked (b : Grid) : Prop :=
  ∀ (i i' : Fin 6) (j : Fin 7), b i j ≠ 0 → i < i' → b i' j ≠ 0

/-- All 42 cells of the board are non-zero. -/
def BoardFull (b : Grid) : Prop := ∀ (i : Fin 6) (j : Fin 7), b i j ≠ 0

/-- The invariant of the fixed-size game: the player to move is 1 or 2 and the
pieces are stacked from the bottom. -/
def EasyInv (g : GameEasy) : Prop := (g.Turn = 1 ∨ g.Turn = 2) ∧ Stacked g.Board

/-- A board that no game reaches: the top row is taken, the rest is empty. -/
def topRowOnly : GameEasy :=
  { NewGame with Board := fun i _ => if i = 0 then 1 else 0 }

/-- The 42 calls of a game that fills the board without a win. -/
def easyDrawCalls : List Int :=
  [6, 3, 5, 2, 2, 5, 5, 2, 6, 3, 6, 2, 4, 6, 3, 0, 5, 5, 3, 4, 6, 6, 2, 5, 2, 4, 0, 4, 1, 3,
    1, 0, 4, 1, 1, 1, 0, 1, 0, 3, 4, 0]

/-- What a run of `DropPiece` calls on a new game leaves behind: `GameOver`,
`IsDraw`, `Winner`, the result of `checkDraw`, and the Booleans returned. -/
def outcomeOf (calls : List Int) : Option (Bool × Bool × Int × Except Fault Bool × List Bool) :=
  match playSeq NewGame calls with
  | .error _ => none
  | .ok (g, rs) => some (g.GameOver, g.IsDraw, g.Winner, checkDraw g, rs)

end Easy

end Power4

/-! # Properties -/

namespace Power4

/-! ## Board access -/

theorem boardGet_eq_ok_iff (b : Board) (r c : Int) (s : String) :
    boardGet b r c = .ok s ↔
      0 ≤ r ∧ 0 ≤ c ∧ ∃ cells, b[r.toNat]? = some cells ∧ cells[c.toNat]? = some s := by
  unfold boardGet
  by_cases h : r < 0 ∨ c < 0
  · simp only [h, if_true]
    constructor
    · intro h'; cases h'
    · rintro ⟨h1, h2, -⟩; omega
  · simp only [h, if_false]
    have h1 : 0 ≤ r := by omega
    have h2 : 0 ≤ c := by omega
    cases hb : b[r.toNat]? with
    | none => simp
    | some cells =>
      cases hl : cells[c.toNat]? with
      | none => simp [hl]
      | some t =>
        simp only [Except.ok.injEq, h1, h2, true_and, Option.some.injEq, exists_eq_left', hl]

theorem boardGet_ok_of_shape {b : Board} {rows cols : Int} (h : BoardShape b rows cols)
    {r c : Int} (hr0 : 0 ≤ r) (hr : r < rows) (hc0 : 0 ≤ c) (hc : c < cols) :
    ∃ s, boardGet b r c = .ok s := by
  obtain ⟨hlen, hlines⟩ := h
  have hr' : r.toNat < b.length := by omega
  have hline := hlines b[r.toNat] (List.getElem_mem _)
  have hc' : c.toNat < (b[r.toNat]).length := by omega
  refine ⟨(b[r.toNat])[c.toNat], ?_⟩
  rw [boardGet_eq_ok_iff]
  exact ⟨hr0, hc0, _, List.getElem?_eq_getElem hr', List.getElem?_eq_getElem hc'⟩

theorem boardSet_eq_ok_iff (b : Board) (r c : Int) (v : String) (b' : Board) :
    boardSet b r c v = .ok b' ↔
      0 ≤ r ∧ 0 ≤ c ∧ ∃ cells, b[r.toNat]? = some cells ∧ c.toNat < cells.length ∧
        b' = b.set r.toNat (cells.set c.toNat v) := by
  unfold boardSet
  by_cases h : r < 0 ∨ c < 0
  · simp only [h, if_true]
    constructor
    · intro h'; cases h'
    · rintro ⟨h1, h2, -⟩; omega
  · simp only [h, if_false]
    have h1 : 0 ≤ r := by omega
    have h2 : 0 ≤ c := by omega
    cases hb : b[r.toNat]? with
    | none => simp
    | some cells =>
      by_cases hc : c.toNat < cells.length
      · simp only [hc, if_true, Except.ok.injEq, h1, h2, true_and, Option.some.injEq,
          exists_eq_left']
        exact eq_comm
      · simp [hc]

theorem boardSet_ok_of_get {b : Board} {r c : Int} {s : String} (h : boardGet b r c = .ok s)
    (v : String) : ∃ b', boardSet b r c v = .ok b' := by
  obtain ⟨h1, h2, cells, hb, hl⟩ := (boardGet_eq_ok_iff b r c s).1 h
  refine ⟨b.set r.toNat (cells.set c.toNat v), ?_⟩
  rw [boardSet_eq_ok_iff]
  refine ⟨h1, h2, cells, hb, ?_, rfl⟩
  exact (List.getElem?_eq_some_iff.1 hl).1

theorem boardGet_ok_of_set {b b' : Board} {r c : Int} {v : String}
    (h : boardSet b r c v = .ok b') : ∃ s, boardGet b r c = .ok s := by
  obtain ⟨h1, h2, cells, hb, hl, -⟩ := (boardSet_eq_ok_iff b r c v b').1 h
  refine ⟨cells[c.toNat], ?_⟩
  rw [boardGet_eq_ok_iff]
  exact ⟨h1, h2, cells, hb, List.getElem?_eq_getElem hl⟩

theorem boardGet_set_same {b b' : Board} {r c : Int} {v : String}
    (h : boardSet b r c v = .ok b') : boardGet b' r c = .ok v := by
  obtain ⟨h1, h2, cells, hb, hl, rfl⟩ := (boardSet_eq_ok_iff b r c v b').1 h
  rw [boardGet_eq_ok_iff]
  have hr : r.toNat < b.length := (List.getElem?_eq_some_iff.1 hb).1
  refine ⟨h1, h2, cells.set c.toNat v, ?_, ?_⟩
  · simp [List.getElem?_set, hr]
  · simp [List.getElem?_set, hl]

theorem boardGet_set_other {b b' : Board} {r c : Int} {v : String}
    (h : boardSet b r c v = .ok b') (r' c' : Int) (hne : r' ≠ r ∨ c' ≠ c) :
    boardGet b' r' c' = boardGet b r' c' := by
  obtain ⟨h1, h2, cells, hb, hl, rfl⟩ := (boardSet_eq_ok_iff b r c v b').1 h
  unfold boardGet
  by_cases hneg : r' < 0 ∨ c' < 0
  · simp only [hneg, if_true]
  · simp only [hneg, if_false]
    by_cases hr : r' = r
    · subst hr
      have hc : c.toNat ≠ c'.toNat := by
        rcases hne with hne | hne
        · exact absurd rfl hne
        · omega
      have hr : r'.toNat < b.length := (List.getElem?_eq_some_iff.1 hb).1
      simp [List.getElem?_set, hr, hb, hc]
    · have hr' : r.toNat ≠ r'.toNat := by omega
      simp [List.getElem?_set, hr']

theorem boardSet_lengths {b b' : Board} {r c : Int} {v : String}
    (h : boardSet b r c v = .ok b') : b'.map List.length = b.map List.length := by
  obtain ⟨-, -, cells, hb, -, rfl⟩ := (boardSet_eq_ok_iff b r c v b').1 h
  apply List.ext_getElem?
  intro i
  by_cases hi : r.toNat = i
  · subst hi
    obtain ⟨hr, hcells⟩ := List.getElem?_eq_some_iff.1 hb
    simp [List.getElem?_map, List.getElem?_set, hr, hb, ← hcells]
  · simp [List.getElem?_map, List.getElem?_set, hi]

theorem boardShape_iff_lengths (b : Board) (rows cols : Int) :
    BoardShape b rows cols ↔
      (b.length : Int) = rows ∧ ∀ n ∈ b.map List.length, (n : Int) = cols := by
  simp [BoardShape]

theorem boardSet_shape {b b' : Board} {r c : Int} {v : String} {rows cols : Int}
    (h : boardSet b r c v = .ok b') (hs : BoardShape b rows cols) :
    BoardShape b' rows cols := by
  have hl := boardSet_lengths h
  rw [boardShape_iff_lengths] at hs ⊢
  rw [hl]
  have : b'.length = b.length := by
    have := congrArg List.length hl
    simpa using this
  rw [this]
  exact hs

/-! ## The landing-row searches -/

theorem scanFromBottom_spec (b : Board) (col : Int) :
    ∀ (n : Nat) (row : Int), scanFromBottom b col n = .ok row →
      -1 ≤ row ∧ row < n ∧ (0 ≤ row → boardGet b row col = .ok "") ∧
        ∀ i : Int, row < i → i < n → 0 ≤ i → boardGet b i col ≠ .ok ""
  | 0, row, h => by
    simp only [scanFromBottom, Except.ok.injEq] at h
    subst h
    refine ⟨le_refl _, by simp, fun h0 => absurd h0 (by decide), fun i h1 h2 h3 => ?_⟩
    simp at h2
    omega
  | n + 1, row, h => by
    rw [scanFromBottom] at h
    cases hg : boardGet b (n : Int) col with
    | error f => rw [hg] at h; cases h
    | ok s =>
      rw [hg] at h
      by_cases hs : s = ""
      · simp only [hs, if_true, Except.ok.injEq] at h
        subst h
        subst hs
        refine ⟨by omega, by push_cast; omega, fun _ => hg, fun i h1 h2 _ => ?_⟩
        push_cast at h2
        omega
      · simp only [hs, if_false] at h
        obtain ⟨h1, h2, h3, h4⟩ := scanFromBottom_spec b col n row h
        refine ⟨h1, by push_cast; omega, h3, fun i hi1 hi2 hi3 => ?_⟩
        push_cast at hi2
        by_cases hin : i = n
        · subst hin
          rw [hg]
          intro hc
          exact hs (Except.ok.inj hc)
        · exact h4 i hi1 (by omega) hi3

theorem scanFromBottom_total (b : Board) (col : Int) :
    ∀ n : Nat, (∀ i : Int, 0 ≤ i → i < n → ∃ s, boardGet b i col = .ok s) →
      ∃ row, scanFromBottom b col n = .ok row
  | 0, _ => ⟨-1, rfl⟩
  | n + 1, h => by
    obtain ⟨s, hs⟩ := h n (by omega) (by push_cast; omega)
    rw [scanFromBottom, hs]
    by_cases he : s = ""
    · exact ⟨n, by simp [he]⟩
    · simp only [he, if_false]
      exact scanFromBottom_total b col n (fun i h0 h1 => h i h0 (by push_cast; omega))

theorem scanFromTop_spec (b : Board) (col : Int) :
    ∀ (k r : Nat) (row : Int), scanFromTop b col r k = .ok row →
      (row = -1 ∨ ((r : Int) ≤ row ∧ row < r + k ∧ boardGet b row col = .ok "")) ∧
        ∀ i : Int, (r : Int) ≤ i → i < r + k → (row = -1 ∨ i < row) →
          boardGet b i col ≠ .ok ""
  | 0, r, row, h => by
    simp only [scanFromTop, Except.ok.injEq] at h
    subst h
    refine ⟨Or.inl rfl, fun i h1 h2 _ => ?_⟩
    simp at h2
    omega
  | k + 1, r, row, h => by
    rw [scanFromTop] at h
    cases hg : boardGet b (r : Int) col with
    | error f => rw [hg] at h; cases h
    | ok s =>
      rw [hg] at h
      by_cases hs : s = ""
      · simp only [hs, if_true, Except.ok.injEq] at h
        subst h
        subst hs
        refine ⟨Or.inr ⟨le_refl _, by push_cast; omega, hg⟩, fun i h1 _ h3 => ?_⟩
        omega
      · simp only [hs, if_false] at h
        obtain ⟨h1, h2⟩ := scanFromTop_spec b col k (r + 1) row h
        push_cast at h1 h2
        refine ⟨?_, fun i hi1 hi2 hi3 => ?_⟩
        · rcases h1 with h1 | ⟨h1, h1', h1''⟩
          · exact Or.inl h1
          · exact Or.inr ⟨by omega, by push_cast; omega, h1''⟩
        · push_cast at hi2
          by_cases hin : i = r
          · subst hin
            rw [hg]
            intro hc
            exact hs (Except.ok.inj hc)
          · exact h2 i (by omega) (by omega) hi3

theorem scanFromTop_total (b : Board) (col : Int) :
    ∀ k r : Nat, (∀ i : Int, (r : Int) ≤ i → i < r + k → ∃ s, boardGet b i col = .ok s) →
      ∃ row, scanFromTop b col r k = .ok row
  | 0, _, _ => ⟨-1, rfl⟩
  | k + 1, r, h => by
    obtain ⟨s, hs⟩ := h r (le_refl _) (by push_cast; omega)
    rw [scanFromTop, hs]
    by_cases he : s = ""
    · exact ⟨r, by simp [he]⟩
    · simp only [he, if_false]
      exact scanFromTop_total b col k (r + 1)
        (fun i h0 h1 => h i (by push_cast at h0; omega) (by push_cast at h1 ⊢; omega))

theorem landingRow_spec {g : Game} {col row : Int} (h : landingRow g col = .ok row) :
    -1 ≤ row ∧ row < g.Rows.toNat ∧ (row ≠ -1 → 0 ≤ row ∧ boardGet g.Board row col = .ok "") ∧
      (g.InverseGravity = false →
        ∀ i : Int, row < i → i < g.Rows → 0 ≤ i → boardGet g.Board i col ≠ .ok "") ∧
      (g.InverseGravity = true →
        ∀ i : Int, 0 ≤ i → i < g.Rows → (row = -1 ∨ i < row) → boardGet g.Board i col ≠ .ok "") := by
  unfold landingRow at h
  cases hinv : g.InverseGravity with
  | false =>
    simp only [hinv, Bool.false_eq_true, if_false] at h
    obtain ⟨h1, h2, h3, h4⟩ := scanFromBottom_spec g.Board col _ row h
    refine ⟨h1, h2, fun hne => ⟨by omega, h3 (by omega)⟩, fun _ i hi1 hi2 hi3 => ?_, fun hc => ?_⟩
    · exact h4 i hi1 (by omega) hi3
    · cases hc
  | true =>
    simp only [hinv, if_true] at h
    obtain ⟨h1, h2⟩ := scanFromTop_spec g.Board col _ 0 row h
    simp only [Nat.cast_zero, zero_add] at h1 h2
    refine ⟨?_, ?_, fun hne => ?_, fun hc => ?_, fun _ i hi1 hi2 hi3 => ?_⟩
    · rcases h1 with h1 | h1 <;> omega
    · rcases h1 with h1 | h1 <;> omega
    · rcases h1 with h1 | h1
      · exact absurd h1 hne
      · exact ⟨h1.1, h1.2.2⟩
    · cases hc
    · exact h2 i hi1 (by omega) hi3

theorem landingRow_total {g : Game} (hwf : WellFormed g) {col : Int} (h0 : 0 ≤ col)
    (h1 : col < g.Cols) : ∃ row, landingRow g col = .ok row := by
  unfold landingRow
  split
  · apply scanFromTop_total
    intro i hi1 hi2
    exact boardGet_ok_of_shape hwf (by omega) (by omega) h0 h1
  · apply scanFromBottom_total
    intro i hi1 hi2
    exact boardGet_ok_of_shape hwf hi1 (by omega) h0 h1

/-! ## The scans of `countDirection` end within their fuel -/

theorem countLoop_total {g : Game} (hwf : WellFormed g) (dRow dCol : Int) (player : String)
    (m : Int → Int → Int)
    (hm : ∀ r c : Int, 0 ≤ r → r < g.Rows → 0 ≤ c → c < g.Cols →
      0 < m r c ∧ m (r + dRow) (c + dCol) < m r c) :
    ∀ (fuel : Nat) (r c count : Int),
      (0 ≤ r → r < g.Rows → 0 ≤ c → c < g.Cols → m r c ≤ fuel) →
      ∃ n, countLoop g dRow dCol player fuel r c count = .ok n
  | 0, r, c, count, hf => by
    rw [countLoop]
    by_cases hin : 0 ≤ r ∧ r < g.Rows ∧ 0 ≤ c ∧ c < g.Cols
    · obtain ⟨a1, a2, a3, a4⟩ := hin
      have := hf a1 a2 a3 a4
      have := (hm r c a1 a2 a3 a4).1
      simp at *
      omega
    · simp only [hin, if_false]
      exact ⟨count, rfl⟩
  | fuel + 1, r, c, count, hf => by
    rw [countLoop]
    by_cases hin : 0 ≤ r ∧ r < g.Rows ∧ 0 ≤ c ∧ c < g.Cols
    · simp only [hin, and_self, if_true]
      obtain ⟨a1, a2, a3, a4⟩ := hin
      obtain ⟨s, hs⟩ := boardGet_ok_of_shape hwf a1 a2 a3 a4
      rw [hs]
      by_cases hp : s = player
      · simp only [hp, if_true]
        apply countLoop_total hwf dRow dCol player m hm fuel
        intro _ _ _ _
        have h1 := hf a1 a2 a3 a4
        have h2 := (hm r c a1 a2 a3 a4).2
        push_cast at h1
        omega
      · simp only [hp, if_false]
        exact ⟨count, rfl⟩
    · simp only [hin, if_false]
      exact ⟨count, rfl⟩

theorem countLoop_fuel_mono (g : Game) (dRow dCol : Int) (player : String) :
    ∀ (fuel : Nat) (r c count n : Int),
      countLoop g dRow dCol player fuel r c count = .ok n →
      ∀ k : Nat, countLoop g dRow dCol player (fuel + k) r c count = .ok n
  | 0, r, c, count, n, h, k => by
    cases k with
    | zero => exact h
    | succ k =>
      rw [countLoop] at h
      rw [Nat.zero_add, countLoop]
      by_cases hin : 0 ≤ r ∧ r < g.Rows ∧ 0 ≤ c ∧ c < g.Cols
      · simp only [hin, and_self, if_true] at h ⊢
        cases hg : boardGet g.Board r c with
        | error f => rw [hg] at h; cases h
        | ok s =>
          rw [hg] at h
          by_cases hp : s = player
          · simp only [hp, if_true] at h
            cases h
          · simpa only [hp, if_false] using h
      · simpa only [hin, if_false] using h
  | fuel + 1, r, c, count, n, h, k => by
    rw [countLoop] at h
    rw [show fuel + 1 + k = (fuel + k) + 1 by omega, countLoop]
    by_cases hin : 0 ≤ r ∧ r < g.Rows ∧ 0 ≤ c ∧ c < g.Cols
    · simp only [hin, and_self, if_true] at h ⊢
      cases hg : boardGet g.Board r c with
      | error f => rw [hg] at h; cases h
      | ok s =>
        rw [hg] at h
        by_cases hp : s = player
        · simp only [hp, if_true] at h ⊢
          exact countLoop_fuel_mono g dRow dCol player fuel _ _ _ n h k
        · simpa only [hp, if_false] using h
    · simpa only [hin, if_false] using h

theorem countDirection_total {g : Game} (hwf : WellFormed g) (row col dRow dCol : Int)
    (player : String) (hd : dRow ≠ 0 ∨ dCol ≠ 0) :
    ∃ n, countDirection g row col dRow dCol player = .ok n := by
  unfold countDirection scanFuel
  rcases lt_trichotomy dRow 0 with h | h | h
  · apply countLoop_total hwf dRow dCol player (fun r _ => r + 1)
    · intro r c a1 a2 a3 a4; constructor <;> omega
    · intro a1 a2 a3 a4; push_cast; omega
  · rcases lt_trichotomy dCol 0 with h' | h' | h'
    · apply countLoop_total hwf dRow dCol player (fun _ c => c + 1)
      · intro r c a1 a2 a3 a4; constructor <;> omega
      · intro a1 a2 a3 a4; push_cast; omega
    · omega
    · apply countLoop_total hwf dRow dCol player (fun _ c => g.Cols - c)
      · intro r c a1 a2 a3 a4; constructor <;> omega
      · intro a1 a2 a3 a4; push_cast; omega
  · apply countLoop_total hwf dRow dCol player (fun r _ => g.Rows - r)
    · intro r c a1 a2 a3 a4; constructor <;> omega
    · intro a1 a2 a3 a4; push_cast; omega

theorem checkWinLoop_total {g : Game} (hwf : WellFormed g) (row col : Int) (player : String) :
    ∀ dirs : List (Int × Int), (∀ d ∈ dirs, d.1 ≠ 0 ∨ d.2 ≠ 0) →
      ∃ w, checkWinLoop g row col player dirs = .ok w
  | [], _ => ⟨false, rfl⟩
  | d :: rest, hd => by
    have hd1 := hd d (List.mem_cons_self _ _)
    obtain ⟨a, ha⟩ := countDirection_total hwf row col d.1 d.2 player hd1
    obtain ⟨b, hb⟩ := countDirection_total hwf row col (-d.1) (-d.2) player (by omega)
    rw [checkWinLoop, ha, hb]
    by_cases hc : 1 + a + b ≥ 4
    · exact ⟨true, by simp only [hc, if_true]⟩
    · simp only [hc, if_false]
      exact checkWinLoop_total hwf row col player rest
        (fun d' hd' => hd d' (List.mem_cons_of_mem _ hd'))

theorem directions_nonzero : ∀ d ∈ directions, d.1 ≠ 0 ∨ d.2 ≠ 0 := by
  decide

theorem checkWin_total {g : Game} (hwf : WellFormed g) {row col : Int} (hr0 : 0 ≤ row)
    (hr : row < g.Rows) (hc0 : 0 ≤ col) (hc : col < g.Cols) :
    ∃ w, checkWin g row col = .ok w := by
  obtain ⟨p, hp⟩ := boardGet_ok_of_shape hwf hr0 hr hc0 hc
  rw [checkWin, hp]
  exact checkWinLoop_total hwf row col p directions directions_nonzero

/-! ## The draw check -/

theorem checkDrawRow_true (b : Board) (row : Int) :
    ∀ (k col : Nat), checkDrawRow b row col k = .ok true →
      ∀ j : Int, (col : Int) ≤ j → j < col + k → boardGet b row j ≠ .ok ""
  | 0, col, _, j, h1, h2 => by simp at h2; omega
  | k + 1, col, h, j, h1, h2 => by
    rw [checkDrawRow] at h
    cases hg : boardGet b row (col : Int) with
    | error f => rw [hg] at h; cases h
    | ok s =>
      rw [hg] at h
      by_cases hs : s = ""
      · simp [hs] at h
      · simp only [hs, if_false] at h
        by_cases hj : j = col
        · subst hj
          rw [hg]
          intro hc
          exact hs (Except.ok.inj hc)
        · exact checkDrawRow_true b row k (col + 1) h j (by push_cast; omega)
            (by push_cast at h2 ⊢; omega)

theorem checkDrawRow_false (b : Board) (row : Int) :
    ∀ (k col : Nat), checkDrawRow b row col k = .ok false →
      ∃ j : Int, (col : Int) ≤ j ∧ j < col + k ∧ boardGet b row j = .ok ""
  | 0, col, h => by simp [checkDrawRow] at h
  | k + 1, col, h => by
    rw [checkDrawRow] at h
    cases hg : boardGet b row (col : Int) with
    | error f => rw [hg] at h; cases h
    | ok s =>
      rw [hg] at h
      by_cases hs : s = ""
      · subst hs
        exact ⟨col, le_refl _, by push_cast; omega, hg⟩
      · simp only [hs, if_false] at h
        obtain ⟨j, h1, h2, h3⟩ := checkDrawRow_false b row k (col + 1) h
        exact ⟨j, by push_cast at h1; omega, by push_cast at h2 ⊢; omega, h3⟩

theorem checkDrawRow_total (b : Board) (row : Int) :
    ∀ (k col : Nat), (∀ j : Int, (col : Int) ≤ j → j < col + k → ∃ s, boardGet b row j = .ok s) →
      ∃ d, checkDrawRow b row col k = .ok d
  | 0, _, _ => ⟨true, rfl⟩
  | k + 1, col, h => by
    obtain ⟨s, hs⟩ := h col (le_refl _) (by push_cast; omega)
    rw [checkDrawRow, hs]
    by_cases he : s = ""
    · exact ⟨false, by simp [he]⟩
    · simp only [he, if_false]
      exact checkDrawRow_total b row k (col + 1)
        (fun j h0 h1 => h j (by push_cast at h0; omega) (by push_cast at h1 ⊢; omega))

theorem checkDrawRows_true (g : Game) :
    ∀ (k row : Nat), checkDrawRows g row k = .ok true →
      ∀ i j : Int, (row : Int) ≤ i → i < row + k → 0 ≤ j → j < g.Cols →
        boardGet g.Board i j ≠ .ok ""
  | 0, row, _, i, j, h1, h2, _, _ => by simp at h2; omega
  | k + 1, row, h, i, j, h1, h2, h3, h4 => by
    rw [checkDrawRows] at h
    cases hg : checkDrawRow g.Board (row : Int) 0 g.Cols.toNat with
    | error f => rw [hg] at h; cases h
    | ok d =>
      rw [hg] at h
      cases d with
      | false => simp at h
      | true =>
        simp only at h
        by_cases hi : i = row
        · subst hi
          exact checkDrawRow_true g.Board _ _ 0 hg j (by simpa using h3) (by push_cast; omega)
        · exact checkDrawRows_true g k (row + 1) h i j (by push_cast; omega)
            (by push_cast at h2 ⊢; omega) h3 h4

theorem checkDrawRows_false (g : Game) :
    ∀ (k row : Nat), checkDrawRows g row k = .ok false →
      ∃ i j : Int, (row : Int) ≤ i ∧ i < row + k ∧ 0 ≤ j ∧ j < g.Cols ∧
        boardGet g.Board i j = .ok ""
  | 0, row, h => by simp [checkDrawRows] at h
  | k + 1, row, h => by
    rw [checkDrawRows] at h
    cases hg : checkDrawRow g.Board (row : Int) 0 g.Cols.toNat with
    | error f => rw [hg] at h; cases h
    | ok d =>
      rw [hg] at h
      cases d with
      | false =>
        obtain ⟨j, h1, h2, h3⟩ := checkDrawRow_false g.Board _ _ 0 hg
        exact ⟨row, j, le_refl _, by push_cast; omega, by simpa using h1,
          by push_cast at h2; omega, h3⟩
      | true =>
        simp only at h
        obtain ⟨i, j, h1, h2, h3⟩ := checkDrawRows_false g k (row + 1) h
        exact ⟨i, j, by push_cast at h1; omega, by push_cast at h2 ⊢; omega, h3⟩

theorem checkDrawRows_total {g : Game} (hwf : WellFormed g) :
    ∀ (k row : Nat), (row : Int) + k ≤ g.Rows → ∃ d, checkDrawRows g row k = .ok d
  | 0, _, _ => ⟨true, rfl⟩
  | k + 1, row, h => by
    push_cast at h
    obtain ⟨d, hd⟩ := checkDrawRow_total g.Board (row : Int) g.Cols.toNat 0
      (fun j h0 h1 => boardGet_ok_of_shape hwf (by omega) (by omega) (by simpa using h0)
        (by push_cast at h1; omega))
    rw [checkDrawRows, hd]
    cases d with
    | false => exact ⟨false, rfl⟩
    | true => exact checkDrawRows_total hwf k (row + 1) (by push_cast; omega)

theorem checkDraw_total {g : Game} (hwf : WellFormed g) : ∃ d, checkDraw g = .ok d := by
  unfold checkDraw
  apply checkDrawRows_total hwf
  have := hwf.1
  omega

theorem checkDraw_true {g : Game} (h : checkDraw g = .ok true) (i j : Int) (hi0 : 0 ≤ i)
    (hi : i < g.Rows) (hj0 : 0 ≤ j) (hj : j < g.Cols) : boardGet g.Board i j ≠ .ok "" :=
  checkDrawRows_true g _ 0 h i j (by simpa using hi0) (by push_cast; omega) hj0 hj

theorem checkDraw_false {g : Game} (h : checkDraw g = .ok false) :
    ∃ i j : Int, 0 ≤ i ∧ i < g.Rows ∧ 0 ≤ j ∧ j < g.Cols ∧ boardGet g.Board i j = .ok "" := by
  obtain ⟨i, j, h1, h2, h3⟩ := checkDrawRows_false g _ 0 h
  exact ⟨i, j, by simpa using h1, by push_cast at h2; omega, h3⟩

/-! ## Anatomy of `DropPiece` -/

theorem finishMove_cases {g g' : Game} {row col : Int} (h : finishMove g row col = .ok g') :
    (checkWin g row col = .ok true ∧
        g' = { g with GameOver := true, Winner := g.CurrentPlayer }) ∨
      (checkWin g row col = .ok false ∧ checkDraw g = .ok true ∧
        g' = { g with GameOver := true, Winner := "draw" }) ∨
      (checkWin g row col = .ok false ∧ checkDraw g = .ok false ∧
        g' = { g with CurrentPlayer :=
          if g.CurrentPlayer = "player1" then "player2" else "player1" }) := by
  unfold finishMove at h
  cases hw : checkWin g row col with
  | error f => rw [hw] at h; cases h
  | ok w =>
    rw [hw] at h
    cases w with
    | true =>
      simp only [Except.ok.injEq] at h
      exact Or.inl ⟨rfl, h.symm⟩
    | false =>
      simp only at h
      cases hd : checkDraw g with
      | error f => rw [hd] at h; cases h
      | ok d =>
        rw [hd] at h
        cases d with
        | true =>
          simp only [Except.ok.injEq] at h
          exact Or.inr (Or.inl ⟨rfl, rfl, h.symm⟩)
        | false =>
          simp only at h
          refine Or.inr (Or.inr ⟨rfl, rfl, ?_⟩)
          by_cases hp : g.CurrentPlayer = "player1"
          · simp only [hp, if_true, Except.ok.injEq] at h ⊢
            rw [← h]
          · simp only [hp, if_false, Except.ok.injEq] at h ⊢
            rw [← h]

theorem finishMove_total {g : Game} (hwf : WellFormed g) {row col : Int} (hr0 : 0 ≤ row)
    (hr : row < g.Rows) (hc0 : 0 ≤ col) (hc : col < g.Cols) :
    ∃ g', finishMove g row col = .ok g' := by
  obtain ⟨w, hw⟩ := checkWin_total hwf hr0 hr hc0 hc
  obtain ⟨d, hd⟩ := checkDraw_total hwf
  unfold finishMove
  rw [hw, hd]
  cases w with
  | true => exact ⟨_, rfl⟩
  | false =>
    cases d with
    | true => exact ⟨_, rfl⟩
    | false =>
      simp only
      split <;> exact ⟨_, rfl⟩

theorem afterPlacement_fields (g : Game) (b : Board) (row col : Int) :
    (afterPlacement g b row col).Rows = g.Rows ∧
    (afterPlacement g b row col).Cols = g.Cols ∧
    (afterPlacement g b row col).Board = b ∧
    (afterPlacement g b row col).CurrentPlayer = g.CurrentPlayer ∧
    (afterPlacement g b row col).Player1 = g.Player1 ∧
    (afterPlacement g b row col).Player2 = g.Player2 ∧
    (afterPlacement g b row col).GameOver = g.GameOver ∧
    (afterPlacement g b row col).Winner = g.Winner ∧
    (afterPlacement g b row col).LastMove = some { Row := row, Col := col } ∧
    (afterPlacement g b row col).TurnCount = wrap64 (g.TurnCount + 1) ∧
    (afterPlacement g b row col).InverseGravity =
      (if (wrap64 (g.TurnCount + 1)).tmod 5 = 0 then !g.InverseGravity
        else g.InverseGravity) := by
  unfold afterPlacement
  by_cases h : (wrap64 (g.TurnCount + 1)).tmod 5 = 0 <;> simp [h]

theorem finishMove_fields {g g' : Game} {row col : Int} (h : finishMove g row col = .ok g') :
    g'.Rows = g.Rows ∧ g'.Cols = g.Cols ∧ g'.Board = g.Board ∧ g'.Player1 = g.Player1 ∧
      g'.Player2 = g.Player2 ∧ g'.LastMove = g.LastMove ∧ g'.TurnCount = g.TurnCount ∧
      g'.InverseGravity = g.InverseGravity := by
  rcases finishMove_cases h with ⟨-, rfl⟩ | ⟨-, -, rfl⟩ | ⟨-, -, rfl⟩ <;> simp

theorem DropPiece_gameOver {g : Game} (h : g.GameOver = true) (col : Int) :
    DropPiece g col = .ok (g, some .gameOver) := by
  simp [DropPiece, h]

theorem DropPiece_invalid {g : Game} (h : g.GameOver = false) {col : Int}
    (hc : col < 0 ∨ col ≥ g.Cols) :
    DropPiece g col = .ok (g, some (.invalidColumn col (wrap64 (g.Cols - 1)))) := by
  simp [DropPiece, h, hc]

theorem DropPiece_search {g : Game} (h : g.GameOver = false) {col : Int} (hc0 : 0 ≤ col)
    (hc : col < g.Cols) :
    DropPiece g col =
      match landingRow g col with
      | .error f => .error f
      | .ok row =>
        if row = -1 then .ok (g, some .columnFull)
        else
          match boardSet g.Board row col g.CurrentPlayer with
          | .error f => .error f
          | .ok b =>
            match finishMove (afterPlacement g b row col) row col with
            | .error f => .error f
            | .ok g' => .ok (g', none) := by
  have hc' : ¬ (col < 0 ∨ col ≥ g.Cols) := by omega
  simp only [DropPiece, h, Bool.false_eq_true, if_false, hc']

theorem DropPiece_success {g g' : Game} {col : Int} (h : DropPiece g col = .ok (g', none)) :
    g.GameOver = false ∧ 0 ≤ col ∧ col < g.Cols ∧
      ∃ row b, landingRow g col = .ok row ∧ row ≠ -1 ∧
        boardSet g.Board row col g.CurrentPlayer = .ok b ∧
        finishMove (afterPlacement g b row col) row col = .ok g' := by
  cases hgo : g.GameOver with
  | true => rw [DropPiece_gameOver hgo] at h; cases h
  | false =>
    by_cases hc : col < 0 ∨ col ≥ g.Cols
    · rw [DropPiece_invalid hgo hc] at h; cases h
    · have hc0 : 0 ≤ col := by omega
      have hc1 : col < g.Cols := by omega
      rw [DropPiece_search hgo hc0 hc1] at h
      refine ⟨rfl, hc0, hc1, ?_⟩
      cases hl : landingRow g col with
      | error f => rw [hl] at h; cases h
      | ok row =>
        rw [hl] at h
        by_cases hrow : row = -1
        · simp [hrow] at h
        · simp only [hrow, if_false] at h
          cases hb : boardSet g.Board row col g.CurrentPlayer with
          | error f => rw [hb] at h; cases h
          | ok b =>
            rw [hb] at h
            dsimp only at h
            cases hf : finishMove (afterPlacement g b row col) row col with
            | error f => rw [hf] at h; cases h
            | ok g1 =>
              rw [hf] at h
              simp only [Except.ok.injEq, Prod.mk.injEq, and_true] at h
              subst h
              exact ⟨row, b, rfl, hrow, hb, hf⟩

theorem DropPiece_failure {g g' : Game} {col : Int} {e : DropError}
    (h : DropPiece g col = .ok (g', some e)) :
    g' = g ∧
      ((e = .gameOver ∧ g.GameOver = true) ∨
       (e = .invalidColumn col (wrap64 (g.Cols - 1)) ∧ g.GameOver = false ∧
          (col < 0 ∨ col ≥ g.Cols)) ∨
       (e = .columnFull ∧ g.GameOver = false ∧ 0 ≤ col ∧ col < g.Cols ∧
          landingRow g col = .ok (-1))) := by
  cases hgo : g.GameOver with
  | true =>
    rw [DropPiece_gameOver hgo] at h
    simp only [Except.ok.injEq, Prod.mk.injEq, Option.some.injEq] at h
    exact ⟨h.1.symm, Or.inl ⟨h.2.symm, rfl⟩⟩
  | false =>
    by_cases hc : col < 0 ∨ col ≥ g.Cols
    · rw [DropPiece_invalid hgo hc] at h
      simp only [Except.ok.injEq, Prod.mk.injEq, Option.some.injEq] at h
      exact ⟨h.1.symm, Or.inr (Or.inl ⟨h.2.symm, rfl, hc⟩)⟩
    · have hc0 : 0 ≤ col := by omega
      have hc1 : col < g.Cols := by omega
      rw [DropPiece_search hgo hc0 hc1] at h
      cases hl : landingRow g col with
      | error f => rw [hl] at h; cases h
      | ok row =>
        rw [hl] at h
        by_cases hrow : row = -1
        · simp only [hrow, if_true, Except.ok.injEq, Prod.mk.injEq, Option.some.injEq] at h
          subst hrow
          exact ⟨h.1.symm, Or.inr (Or.inr ⟨h.2.symm, rfl, hc0, hc1, rfl⟩)⟩
        · simp only [hrow, if_false] at h
          cases hb : boardSet g.Board row col g.CurrentPlayer with
          | error f => rw [hb] at h; cases h
          | ok b =>
            rw [hb] at h
            dsimp only at h
            cases hf : finishMove (afterPlacement g b row col) row col with
            | error f => rw [hf] at h; cases h
            | ok g1 =>
              rw [hf] at h
              simp at h

theorem afterPlacement_wellFormed {g : Game} (hwf : WellFormed g) {b : Board} {row col : Int}
    {v : String} (hb : boardSet g.Board row col v = .ok b) :
    WellFormed (afterPlacement g b row col) := by
  obtain ⟨h1, h2, h3, -⟩ := afterPlacement_fields g b row col
  unfold WellFormed
  rw [h1, h2, h3]
  exact boardSet_shape hb hwf

theorem DropPiece_total {g : Game} (hwf : WellFormed g) (col : Int) :
    ∃ g' e, DropPiece g col = .ok (g', e) := by
  cases hgo : g.GameOver with
  | true => exact ⟨_, _, DropPiece_gameOver hgo col⟩
  | false =>
    by_cases hc : col < 0 ∨ col ≥ g.Cols
    · exact ⟨_, _, DropPiece_invalid hgo hc⟩
    · have hc0 : 0 ≤ col := by omega
      have hc1 : col < g.Cols := by omega
      rw [DropPiece_search hgo hc0 hc1]
      obtain ⟨row, hl⟩ := landingRow_total hwf hc0 hc1
      rw [hl]
      by_cases hrow : row = -1
      · exact ⟨g, some .columnFull, by simp [hrow]⟩
      · simp only [hrow, if_false]
        obtain ⟨-, h2, h3, -⟩ := landingRow_spec hl
        obtain ⟨h3a, h3b⟩ := h3 hrow
        obtain ⟨b, hb⟩ := boardSet_ok_of_get h3b g.CurrentPlayer
        rw [hb]
        dsimp only
        have hwf' := afterPlacement_wellFormed hwf hb
        obtain ⟨f1, f2, -⟩ := afterPlacement_fields g b row col
        obtain ⟨g1, hg1⟩ := @finishMove_total _ hwf' row col h3a
          (by rw [f1]; omega) hc0 (by rw [f2]; exact hc1)
        rw [hg1]
        exact ⟨_, _, rfl⟩

theorem DropPiece_wellFormed {g g' : Game} {col : Int} {e : Option DropError}
    (hwf : WellFormed g) (h : DropPiece g col = .ok (g', e)) : WellFormed g' := by
  cases e with
  | some e => rw [(DropPiece_failure h).1]; exact hwf
  | none =>
    obtain ⟨-, -, -, row, b, -, -, hb, hf⟩ := DropPiece_success h
    have hwf' : WellFormed (afterPlacement g b row col) := afterPlacement_wellFormed hwf hb
    obtain ⟨f1, f2, f3, -⟩ := finishMove_fields hf
    unfold WellFormed at hwf' ⊢
    rw [f1, f2, f3]
    exact hwf'

/-! ## The sample states are states of the engine -/

theorem sampleFresh_new (rng : Nat → Nat) (fuel : Nat) :
    NewGame 4 4 "Ann" "Bob" rng fuel = .ok sampleFresh := rfl

theorem sampleAfterOne_reached : DropPiece sampleFresh 0 = .ok (sampleAfterOne, none) := by
  decide

theorem sampleColumnFull_reached :
    playSeq sampleFresh [0, 0, 0, 0] = .ok (sampleColumnFull, [none, none, none, none]) := by
  decide

theorem sampleWon_reached :
    playSeq sampleFresh [0, 1, 0, 1, 0, 1, 0] =
      .ok (sampleWon, [none, none, none, none, none, none, none]) := by
  decide

/-! ## Rejected calls -/

/-- C1: on a state whose `GameOver` is true, `DropPiece` returns the game-over
error for every column argument, valid or not, and the state it leaves is the
state it was given, field for field. -/
theorem C1_game_over_rejects (g : Game) (col : Int) (h : g.GameOver = true) :
    DropPiece g col = .ok (g, some DropError.gameOver) :=
  DropPiece_gameOver h col

theorem C1_game_over_rejects_witness :
    sampleWon.GameOver = true ∧
      DropPiece sampleWon 2 = .ok (sampleWon, some DropError.gameOver) :=
  ⟨rfl, C1_game_over_rejects sampleWon 2 rfl⟩

/-- C2: on a game that is not over, `DropPiece` returns the invalid-column error
for every column `col < 0` or `col ≥ Cols`, in particular for `-1` and for
`Cols`, and leaves the whole state unchanged. -/
theorem C2_invalid_column_rejects (g : Game) (h : g.GameOver = false) :
    (∀ col : Int, col < 0 ∨ col ≥ g.Cols →
        DropPiece g col =
          .ok (g, some (DropError.invalidColumn col (wrap64 (g.Cols - 1))))) ∧
      DropPiece g (-1) = .ok (g, some (DropError.invalidColumn (-1) (wrap64 (g.Cols - 1)))) ∧
      DropPiece g g.Cols =
        .ok (g, some (DropError.invalidColumn g.Cols (wrap64 (g.Cols - 1)))) :=
  ⟨fun _ hc => DropPiece_invalid h hc, DropPiece_invalid h (Or.inl (by decide)),
    DropPiece_invalid h (Or.inr (le_refl _))⟩

theorem C2_invalid_column_rejects_witness :
    sampleFresh.GameOver = false ∧
      DropPiece sampleFresh (-1) = .ok (sampleFresh, some (DropError.invalidColumn (-1) 3)) ∧
      DropPiece sampleFresh 4 = .ok (sampleFresh, some (DropError.invalidColumn 4 3)) :=
  ⟨rfl, (C2_invalid_column_rejects sampleFresh rfl).2.1,
    (C2_invalid_column_rejects sampleFresh rfl).2.2⟩

/-- C3: on a well-formed game that is not over and for a column `col` of
`[0, Cols)`, `DropPiece` returns the column-full error exactly when no cell of
column `col` is empty, under either gravity direction; and when it returns that
error the whole state is unchanged. -/
theorem C3_column_full_iff (g : Game) (hwf : WellFormed g) (hgo : g.GameOver = false)
    (col : Int) (hc0 : 0 ≤ col) (hc : col < g.Cols) :
    ((∃ g', DropPiece g col = .ok (g', some DropError.columnFull)) ↔
        ∀ r : Int, 0 ≤ r → r < g.Rows → ¬ IsEmptyAt g.Board r col) ∧
      ∀ g', DropPiece g col = .ok (g', some DropError.columnFull) → g' = g := by
  refine ⟨⟨?_, ?_⟩, fun g' h => (DropPiece_failure h).1⟩
  · rintro ⟨g', h⟩ r hr0 hr
    rcases (DropPiece_failure h).2 with ⟨he, -⟩ | ⟨he, -⟩ | ⟨-, -, -, -, hl⟩
    · cases he
    · cases he
    · obtain ⟨-, -, -, h4, h5⟩ := landingRow_spec hl
      cases hinv : g.InverseGravity with
      | false => exact h4 hinv r (by omega) hr hr0
      | true => exact h5 hinv r hr0 hr (Or.inl rfl)
  · intro hfull
    obtain ⟨row, hl⟩ := landingRow_total hwf hc0 hc
    have hrow : row = -1 := by
      by_contra hne
      obtain ⟨-, h2, h3, -⟩ := landingRow_spec hl
      exact hfull row (h3 hne).1 (by omega) (h3 hne).2
    refine ⟨g, ?_⟩
    rw [DropPiece_search hgo hc0 hc, hl]
    simp [hrow]

theorem C3_column_full_iff_witness :
    WellFormed sampleColumnFull ∧ sampleColumnFull.GameOver = false ∧
      (0 : Int) < sampleColumnFull.Cols ∧
      DropPiece sampleColumnFull 0 = .ok (sampleColumnFull, some DropError.columnFull) ∧
      ∀ r : Int, 0 ≤ r → r < sampleColumnFull.Rows → ¬ IsEmptyAt sampleColumnFull.Board r 0 := by
  have h := C3_column_full_iff sampleColumnFull (by decide) rfl 0 (by decide) (by decide)
  have hd : DropPiece sampleColumnFull 0 =
      .ok (sampleColumnFull, some DropError.columnFull) := by decide
  exact ⟨by decide, rfl, by decide, hd, h.1.1 ⟨_, hd⟩⟩

/-! ## The landing cell -/

/-- C4: a successful `DropPiece(col)` writes the marker of the player who was
`CurrentPlayer` before the call at `(row, col)`, where `row` is the largest row
index of an empty cell of column `col` when `InverseGravity` was false before
the call and the smallest one when it was true; `LastMove` is that
`(row, col)`. -/
theorem C4_landing_cell (g g' : Game) (col : Int) (h : DropPiece g col = .ok (g', none)) :
    ∃ row : Int, 0 ≤ row ∧ row < g.Rows ∧ IsEmptyAt g.Board row col ∧
      boardGet g'.Board row col = .ok g.CurrentPlayer ∧
      g'.LastMove = some { Row := row, Col := col } ∧
      (g.InverseGravity = false →
        ∀ i : Int, row < i → i < g.Rows → ¬ IsEmptyAt g.Board i col) ∧
      (g.InverseGravity = true →
        ∀ i : Int, 0 ≤ i → i < row → ¬ IsEmptyAt g.Board i col) := by
  obtain ⟨-, -, -, row, b, hl, hrow, hb, hf⟩ := DropPiece_success h
  obtain ⟨-, h2, h3, h4, h5⟩ := landingRow_spec hl
  obtain ⟨h3a, h3b⟩ := h3 hrow
  obtain ⟨-, -, f3, -, -, -, -, -, f9, -⟩ := afterPlacement_fields g b row col
  obtain ⟨-, -, e3, -, -, e6, -⟩ := finishMove_fields hf
  refine ⟨row, h3a, by omega, h3b, ?_, by rw [e6, f9], ?_, ?_⟩
  · rw [e3, f3]
    exact boardGet_set_same hb
  · intro hinv i hi1 hi2
    exact h4 hinv i hi1 hi2 (by omega)
  · intro hinv i hi1 hi2
    exact h5 hinv i hi1 (by omega) (Or.inr hi2)

theorem C4_landing_cell_witness :
    ∃ row : Int, 0 ≤ row ∧ row < sampleFresh.Rows ∧ IsEmptyAt sampleFresh.Board row 0 ∧
      boardGet sampleAfterOne.Board row 0 = .ok sampleFresh.CurrentPlayer ∧
      sampleAfterOne.LastMove = some { Row := row, Col := 0 } ∧
      (sampleFresh.InverseGravity = false →
        ∀ i : Int, row < i → i < sampleFresh.Rows → ¬ IsEmptyAt sampleFresh.Board i 0) ∧
      (sampleFresh.InverseGravity = true →
        ∀ i : Int, 0 ≤ i → i < row → ¬ IsEmptyAt sampleFresh.Board i 0) :=
  C4_landing_cell sampleFresh sampleAfterOne 0 (by decide)

/-! ## What a call leaves untouched -/

/-- C5: every call of `DropPiece` on a well-formed game returns, and leaves
`Rows`, `Cols`, `Player1`, `Player2` and the shape of the board unchanged; every
cell that was non-empty before the call holds the same marker after it; a failed
call leaves the board as it was, and a successful call writes exactly one cell,
which was empty and now holds the marker of the mover (so it did change, the
marker being non-empty), every other cell being as before. -/
theorem C5_frame (g : Game) (hwf : WellFormed g) (col : Int) :
    ∃ g' e, DropPiece g col = .ok (g', e) ∧
      g'.Rows = g.Rows ∧ g'.Cols = g.Cols ∧ g'.Player1 = g.Player1 ∧ g'.Player2 = g.Player2 ∧
      g'.Board.map List.length = g.Board.map List.length ∧
      (∀ (r c : Int) (s : String), boardGet g.Board r c = .ok s → s ≠ "" →
        boardGet g'.Board r c = .ok s) ∧
      (e ≠ none → g'.Board = g.Board) ∧
      (e = none → ∃ row : Int, IsEmptyAt g.Board row col ∧
        boardGet g'.Board row col = .ok g.CurrentPlayer ∧
        (g.CurrentPlayer ≠ "" → boardGet g'.Board row col ≠ boardGet g.Board row col) ∧
        ∀ r c : Int, r ≠ row ∨ c ≠ col → boardGet g'.Board r c = boardGet g.Board r c) := by
  obtain ⟨g', e, h⟩ := DropPiece_total hwf col
  refine ⟨g', e, h, ?_⟩
  cases e with
  | some e =>
    obtain ⟨rfl, -⟩ := DropPiece_failure h
    exact ⟨rfl, rfl, rfl, rfl, rfl, fun _ _ _ hs _ => hs, fun _ => rfl, fun hc => Option.noConfusion hc⟩
  | none =>
    obtain ⟨-, -, -, row, b, hl, hrow, hb, hf⟩ := DropPiece_success h
    obtain ⟨-, -, h3, -⟩ := landingRow_spec hl
    obtain ⟨-, h3b⟩ := h3 hrow
    obtain ⟨f1, f2, f3, -, f5, f6, -⟩ := afterPlacement_fields g b row col
    obtain ⟨e1, e2, e3, e4, e5, -⟩ := finishMove_fields hf
    have hboard : g'.Board = b := by rw [e3, f3]
    refine ⟨by rw [e1, f1], by rw [e2, f2], by rw [e4, f5], by rw [e5, f6], ?_, ?_,
      fun hc => absurd rfl hc, fun _ => ⟨row, h3b, ?_, ?_, ?_⟩⟩
    · rw [hboard]
      exact boardSet_lengths hb
    · intro r c s hs hne
      rw [hboard, boardGet_set_other hb r c, hs]
      by_contra hc
      have hrc : r = row ∧ c = col := by omega
      rw [hrc.1, hrc.2, h3b] at hs
      exact hne (Except.ok.inj hs).symm
    · rw [hboard]
      exact boardGet_set_same hb
    · intro hp hc
      rw [hboard, boardGet_set_same hb, h3b] at hc
      exact hp (Except.ok.inj hc)
    · intro r c hrc
      rw [hboard]
      exact boardGet_set_other hb r c hrc

theorem C5_frame_witness :
    WellFormed sampleFresh ∧
      ∃ g' e, DropPiece sampleFresh 0 = .ok (g', e) ∧
        g'.Rows = sampleFresh.Rows ∧ g'.Cols = sampleFresh.Cols ∧
        g'.Player1 = sampleFresh.Player1 ∧ g'.Player2 = sampleFresh.Player2 ∧
        g'.Board.map List.length = sampleFresh.Board.map List.length ∧
        (∀ (r c : Int) (s : String), boardGet sampleFresh.Board r c = .ok s → s ≠ "" →
          boardGet g'.Board r c = .ok s) ∧
        (e ≠ none → g'.Board = sampleFresh.Board) ∧
        (e = none → ∃ row : Int, IsEmptyAt sampleFresh.Board row 0 ∧
          boardGet g'.Board row 0 = .ok sampleFresh.CurrentPlayer ∧
          (sampleFresh.CurrentPlayer ≠ "" →
            boardGet g'.Board row 0 ≠ boardGet sampleFresh.Board row 0) ∧
          ∀ r c : Int, r ≠ row ∨ c ≠ 0 →
            boardGet g'.Board r c = boardGet sampleFresh.Board r c) :=
  ⟨by decide, C5_frame sampleFresh (by decide) 0⟩

/-! ## Counting empty cells -/

theorem wrap64_eq {x : Int} (h0 : -2 ^ 63 ≤ x) (h1 : x < 2 ^ 63) : wrap64 x = x := by
  unfold wrap64
  norm_num at h0 h1 ⊢
  omega

theorem count_empty_set : ∀ (cells : List String) (c : Nat) (v : String),
    cells[c]? = some "" → v ≠ "" → (cells.set c v).count "" + 1 = cells.count ""
  | [], c, v, h, _ => by simp at h
  | x :: xs, 0, v, h, hv => by
    simp only [List.getElem?_cons_zero, Option.some.injEq] at h
    subst h
    simp [List.count_cons, hv]
  | x :: xs, c + 1, v, h, hv => by
    simp only [List.getElem?_cons_succ] at h
    have ih := count_empty_set xs c v h hv
    simp only [List.set_cons_succ, List.count_cons]
    omega

theorem emptyCount_set_row : ∀ (b : Board) (r : Nat) (cells cells' : List String),
    b[r]? = some cells → cells'.count "" + 1 = cells.count "" →
      emptyCount (b.set r cells') + 1 = emptyCount b
  | [], r, _, _, h, _ => by simp at h
  | x :: xs, 0, cells, cells', h, hc => by
    simp only [List.getElem?_cons_zero, Option.some.injEq] at h
    subst h
    simp only [emptyCount, List.set_cons_zero, List.map_cons, List.sum_cons]
    omega
  | x :: xs, r + 1, cells, cells', h, hc => by
    simp only [List.getElem?_cons_succ] at h
    have ih := emptyCount_set_row xs r cells cells' h hc
    simp only [emptyCount, List.set_cons_succ, List.map_cons, List.sum_cons] at ih ⊢
    omega

theorem emptyCount_boardSet {b b' : Board} {r c : Int} {v : String}
    (hg : boardGet b r c = .ok "") (hs : boardSet b r c v = .ok b') (hv : v ≠ "") :
    emptyCount b' + 1 = emptyCount b := by
  obtain ⟨-, -, cells, hb, -, rfl⟩ := (boardSet_eq_ok_iff b r c v b').1 hs
  obtain ⟨-, -, cells', hb', hc⟩ := (boardGet_eq_ok_iff b r c "").1 hg
  rw [hb] at hb'
  cases hb'
  exact emptyCount_set_row b r.toNat cells _ hb (count_empty_set cells c.toNat v hc hv)

theorem emptyCount_le_of_lengths (n : Nat) : ∀ b : Board, (∀ cells ∈ b, cells.length = n) →
    emptyCount b ≤ b.length * n
  | [], _ => by simp [emptyCount]
  | x :: xs, h => by
    have ih := emptyCount_le_of_lengths n xs (fun cells hc => h cells (List.mem_cons_of_mem _ hc))
    have hx := h x (List.mem_cons_self _ _)
    have hcount : x.count "" ≤ x.length := List.count_le_length _ _
    simp only [emptyCount, List.map_cons, List.sum_cons, List.length_cons] at ih ⊢
    rw [Nat.add_mul, Nat.one_mul]
    omega

theorem emptyCount_le_of_shape {b : Board} {rows cols : Int} (h : BoardShape b rows cols) :
    (emptyCount b : Int) ≤ rows * cols := by
  obtain ⟨hlen, hlines⟩ := h
  cases b with
  | nil =>
    simp only [List.length_nil, Nat.cast_zero] at hlen
    simp [emptyCount, ← hlen]
  | cons x xs =>
    have hx := hlines x (List.mem_cons_self _ _)
    have hle := emptyCount_le_of_lengths x.length (x :: xs) (fun cells hc => by
      have := hlines cells hc
      omega)
    rw [← hlen, ← hx]
    exact_mod_cast hle

/-! ## The state returned by `NewGame` -/

theorem addPrefilledLoop_shape (rng : Nat → Nat) (count : Int) :
    ∀ (fuel k : Nat) (g : Game) (placed : Int) (g' : Game), WellFormed g →
      addPrefilledLoop rng count fuel k g placed = .ok g' →
      ∃ b, g' = { g with Board := b } ∧ BoardShape b g.Rows g.Cols
  | 0, k, g, placed, g', hwf, h => by
    rw [addPrefilledLoop] at h
    split at h
    · cases h
    · cases h
      exact ⟨g.Board, rfl, hwf⟩
  | fuel + 1, k, g, placed, g', hwf, h => by
    rw [addPrefilledLoop] at h
    split at h
    · split at h
      · cases h
      · dsimp only at h
        split at h
        · cases h
        · split at h
          · split at h
            · cases h
            · split at h
              · cases h
              · rename_i b hb
                have hwf' : WellFormed { g with Board := b } := boardSet_shape hb hwf
                have hrec := addPrefilledLoop_shape rng count fuel _ { g with Board := b } _ g' hwf' h
                exact hrec
          · exact addPrefilledLoop_shape rng count fuel _ _ _ g' hwf h
    · cases h
      exact ⟨g.Board, rfl, hwf⟩

theorem replicate_shape {rows cols : Int} (hr : 0 ≤ rows) (hc : 0 < rows → 0 ≤ cols) :
    BoardShape (List.replicate rows.toNat (List.replicate cols.toNat "")) rows cols := by
  constructor
  · simp only [List.length_replicate]
    omega
  · intro cells hmem
    obtain ⟨hne, rfl⟩ := List.mem_replicate.1 hmem
    simp only [List.length_replicate]
    omega

theorem NewGame_state {rows cols : Int} {player1 player2 : String} {rng : Nat → Nat}
    {fuel : Nat} {g : Game} (h : NewGame rows cols player1 player2 rng fuel = .ok g) :
    ∃ b, BoardShape b rows cols ∧
      g = { Rows := rows, Cols := cols, Board := b, CurrentPlayer := "player1",
            Player1 := player1, Player2 := player2, GameOver := false, Winner := "",
            LastMove := none, TurnCount := 0, InverseGravity := false } := by
  unfold NewGame at h
  split at h
  · cases h
  · split at h
    · cases h
    · rename_i h1 h2
      have hshape := @replicate_shape rows cols (by omega) (by omega)
      dsimp only at h
      unfold addPrefilledBlocks at h
      split at h
      · cases h
        exact ⟨_, hshape, rfl⟩
      · have hrec := addPrefilledLoop_shape rng _ fuel 0 _ 0 g (by exact hshape) h
        obtain ⟨b, hg, hb⟩ := hrec
        exact ⟨b, hb, hg⟩

theorem NewGame_turnInv {rows cols : Int} {player1 player2 : String} {rng : Nat → Nat}
    {fuel : Nat} {g : Game} (h : NewGame rows cols player1 player2 rng fuel = .ok g)
    (hsize : rows * cols < 2 ^ 63) : TurnInv g := by
  obtain ⟨b, hb, rfl⟩ := NewGame_state h
  refine ⟨hb, by simp, le_refl _, ?_, by simp⟩
  have := emptyCount_le_of_shape hb
  simp only [zero_add]
  omega

/-! ## One call on a running game -/

theorem TurnInv_step {g g' : Game} {col : Int} {e : Option DropError} (hinv : TurnInv g)
    (h : DropPiece g col = .ok (g', e)) :
    TurnInv g' ∧ (e = none → g'.TurnCount = g.TurnCount + 1) ∧ (e ≠ none → g' = g) := by
  cases e with
  | some e =>
    obtain ⟨rfl, -⟩ := DropPiece_failure h
    exact ⟨hinv, fun hc => Option.noConfusion hc, fun _ => rfl⟩
  | none =>
    have hwf' := DropPiece_wellFormed hinv.1 h
    obtain ⟨hwf, hp, ht0, ht1, hgrav⟩ := hinv
    obtain ⟨-, -, -, row, b, hl, hrow, hb, hf⟩ := DropPiece_success h
    obtain ⟨-, -, h3, -⟩ := landingRow_spec hl
    obtain ⟨-, h3b⟩ := h3 hrow
    have hcount := emptyCount_boardSet h3b hb hp
    obtain ⟨-, -, f3, f4, -, -, -, -, -, f10, f11⟩ := afterPlacement_fields g b row col
    obtain ⟨-, -, e3, -, -, -, e7, e8⟩ := finishMove_fields hf
    have hw : wrap64 (g.TurnCount + 1) = g.TurnCount + 1 := by
      apply wrap64_eq
      · norm_num
        omega
      · omega
    have ht : g'.TurnCount = g.TurnCount + 1 := by rw [e7, f10, hw]
    have hcur : g'.CurrentPlayer ≠ "" := by
      rcases finishMove_cases hf with ⟨-, rfl⟩ | ⟨-, -, rfl⟩ | ⟨-, -, rfl⟩
      · simpa only [f4] using hp
      · simpa only [f4] using hp
      · dsimp only
        split <;> decide
    refine ⟨⟨hwf', hcur, by omega, ?_, ?_⟩, fun _ => ht, fun hc => absurd rfl hc⟩
    · rw [ht, e3, f3]
      omega
    · rw [e8, f11, hw, ht]
      have htm : (g.TurnCount + 1).tmod 5 = (g.TurnCount + 1) % 5 :=
        Int.tmod_eq_emod (by omega) (by decide)
      rw [htm]
      by_cases h5 : (g.TurnCount + 1) % 5 = 0
      · simp only [h5, if_true]
        cases hg : g.InverseGravity with
        | false =>
          have := hgrav.not.1 (by simp [hg])
          simp only [Bool.not_false, true_iff]
          omega
        | true =>
          have := hgrav.1 hg
          simp only [Bool.not_true, Bool.false_eq_true, false_iff]
          omega
      · simp only [h5, if_false]
        rw [hgrav]
        constructor <;> intro <;> omega

theorem TurnInv_playSeq : ∀ (calls : List Int) (g0 : Game), TurnInv g0 →
    ∃ g es, playSeq g0 calls = .ok (g, es) ∧ TurnInv g ∧ es.length = calls.length ∧
      g.TurnCount = g0.TurnCount + (es.countP Option.isNone : Nat)
  | [], g0, h => ⟨g0, [], rfl, h, rfl, by simp⟩
  | c :: rest, g0, h => by
    obtain ⟨g1, e, h1⟩ := DropPiece_total h.1 c
    obtain ⟨hinv1, hs, hf⟩ := TurnInv_step h h1
    obtain ⟨g, es, h2, hinv, hlen, ht⟩ := TurnInv_playSeq rest g1 hinv1
    refine ⟨g, e :: es, ?_, hinv, by simp [hlen], ?_⟩
    · rw [playSeq, h1]
      dsimp only
      rw [h2]
    · cases e with
      | none =>
        rw [ht, hs rfl]
        simp only [List.countP_cons_of_pos, Option.isNone_none]
        push_cast
        omega
      | some e =>
        rw [ht, hf (by simp)]
        simp

theorem sampleBeforeWin_reached :
    playSeq sampleFresh [0, 1, 0, 1, 0, 1] =
      .ok (sampleBeforeWin, [none, none, none, none, none, none]) := by
  decide

theorem sampleBeforeTenth_reached :
    playSeq sampleFresh [1, 3, 2, 3, 1, 3, 0, 2, 0] =
      .ok (sampleBeforeTenth, [none, none, none, none, none, none, none, none, none]) := by
  decide

theorem sampleBeforeDraw_reached :
    playSeq sampleFresh [0, 2, 0, 3, 0, 1, 1, 0, 2, 3, 3, 2, 3, 2, 1] =
      .ok (sampleBeforeDraw, List.replicate 15 none) := by
  decide

theorem samplePrefilled_new :
    NewGame 6 7 "Ann" "Bob" (fun n => n / 2 + n) 3 = .ok samplePrefilled := by
  decide

/-! ## The win check reads the dimensions and the board only -/

theorem countLoop_congr {g1 g2 : Game} (hR : g1.Rows = g2.Rows) (hC : g1.Cols = g2.Cols)
    (hB : g1.Board = g2.Board) (dRow dCol : Int) (player : String) :
    ∀ (fuel : Nat) (r c count : Int),
      countLoop g1 dRow dCol player fuel r c count =
        countLoop g2 dRow dCol player fuel r c count
  | 0, r, c, count => by rw [countLoop, countLoop, hR, hC, hB]
  | fuel + 1, r, c, count => by
    rw [countLoop, countLoop, hR, hC, hB]
    simp only [countLoop_congr hR hC hB dRow dCol player fuel]

theorem checkWinLoop_congr {g1 g2 : Game} (hR : g1.Rows = g2.Rows) (hC : g1.Cols = g2.Cols)
    (hB : g1.Board = g2.Board) (row col : Int) (player : String) :
    ∀ dirs : List (Int × Int),
      checkWinLoop g1 row col player dirs = checkWinLoop g2 row col player dirs
  | [] => rfl
  | d :: rest => by
    have hfuel : scanFuel g1 = scanFuel g2 := by unfold scanFuel; rw [hR, hC]
    rw [checkWinLoop, checkWinLoop]
    simp only [countDirection, hfuel, countLoop_congr hR hC hB,
      checkWinLoop_congr hR hC hB row col player rest]

theorem checkWin_congr {g1 g2 : Game} (hR : g1.Rows = g2.Rows) (hC : g1.Cols = g2.Cols)
    (hB : g1.Board = g2.Board) (row col : Int) : checkWin g1 row col = checkWin g2 row col := by
  unfold checkWin
  rw [hB]
  simp only [checkWinLoop_congr hR hC hB]

theorem checkWin_finishMove {g g' : Game} {row col : Int} (h : finishMove g row col = .ok g')
    (r c : Int) : checkWin g' r c = checkWin g r c := by
  obtain ⟨e1, e2, e3, -⟩ := finishMove_fields h
  exact checkWin_congr e1 e2 e3 r c

theorem tmod_five_eq_zero_iff (x : Int) : x.tmod 5 = 0 ↔ x % 5 = 0 := by
  rw [← Int.dvd_iff_tmod_eq_zero, Int.dvd_iff_emod_eq_zero]

/-! ## The turn counter -/

/-- C6: for a game created by `NewGame` (on a board of fewer than `2 ^ 63` cells,
as every board in memory is) and every sequence of `DropPiece` calls,
`TurnCount` is the number of calls of the sequence that returned no error: it
starts at 0, and from every state so reached a further call returns and either
succeeds and increases `TurnCount` by exactly 1, whatever the outcome of the
move, or fails and leaves it unchanged. -/
theorem C6_turn_count (rows cols : Int) (player1 player2 : String) (rng : Nat → Nat)
    (fuel : Nat) (g0 : Game) (hnew : NewGame rows cols player1 player2 rng fuel = .ok g0)
    (hsize : rows * cols < 2 ^ 63) :
    g0.TurnCount = 0 ∧
      ∀ calls : List Int, ∃ g es, playSeq g0 calls = .ok (g, es) ∧
        es.length = calls.length ∧
        g.TurnCount = (es.countP Option.isNone : Nat) ∧
        ∀ col : Int, ∃ g' e, DropPiece g col = .ok (g', e) ∧
          (e = none → g'.TurnCount = g.TurnCount + 1) ∧
          (e ≠ none → g'.TurnCount = g.TurnCount) := by
  have hinv0 := NewGame_turnInv hnew hsize
  have ht0 : g0.TurnCount = 0 := by
    obtain ⟨b, -, rfl⟩ := NewGame_state hnew
    rfl
  refine ⟨ht0, fun calls => ?_⟩
  obtain ⟨g, es, hplay, hinv, hlen, ht⟩ := TurnInv_playSeq calls g0 hinv0
  refine ⟨g, es, hplay, hlen, by rw [ht, ht0, zero_add], fun col => ?_⟩
  obtain ⟨g', e, hdrop⟩ := DropPiece_total hinv.1 col
  obtain ⟨-, hs, hf⟩ := TurnInv_step hinv hdrop
  exact ⟨g', e, hdrop, hs, fun he => by rw [hf he]⟩

theorem C6_turn_count_witness :
    NewGame 6 7 "Ann" "Bob" (fun n => n / 2 + n) 3 = .ok samplePrefilled ∧
      (6 : Int) * 7 < 2 ^ 63 ∧
      samplePrefilled.TurnCount = 0 ∧
      ∀ calls : List Int, ∃ g es, playSeq samplePrefilled calls = .ok (g, es) ∧
        es.length = calls.length ∧
        g.TurnCount = (es.countP Option.isNone : Nat) ∧
        ∀ col : Int, ∃ g' e, DropPiece g col = .ok (g', e) ∧
          (e = none → g'.TurnCount = g.TurnCount + 1) ∧
          (e ≠ none → g'.TurnCount = g.TurnCount) :=
  ⟨by decide, by decide,
    C6_turn_count 6 7 "Ann" "Bob" (fun n => n / 2 + n) 3 samplePrefilled (by decide)
      (by decide)⟩

/-! ## The gravity flip -/

/-- C7: after a successful `DropPiece` the turn counter is the incremented one
(a 64-bit increment), and `InverseGravity` is the negation of its value before
the call if the incremented counter is divisible by 5 and its value before the
call otherwise; nothing is assumed on the outcome of the move, so the flip is
recorded also when the move wins or draws. -/
theorem C7_gravity_flip (g g' : Game) (col : Int) (h : DropPiece g col = .ok (g', none)) :
    g'.TurnCount = wrap64 (g.TurnCount + 1) ∧
      (g'.TurnCount % 5 = 0 → g'.InverseGravity = !g.InverseGravity) ∧
      (g'.TurnCount % 5 ≠ 0 → g'.InverseGravity = g.InverseGravity) := by
  obtain ⟨-, -, -, row, b, -, -, -, hf⟩ := DropPiece_success h
  obtain ⟨-, -, -, -, -, -, -, -, -, f10, f11⟩ := afterPlacement_fields g b row col
  obtain ⟨-, -, -, -, -, -, e7, e8⟩ := finishMove_fields hf
  have ht : g'.TurnCount = wrap64 (g.TurnCount + 1) := by rw [e7, f10]
  rw [e8, f11, ← ht]
  refine ⟨rfl, fun h5 => ?_, fun h5 => ?_⟩
  · rw [if_pos ((tmod_five_eq_zero_iff _).2 h5)]
  · rw [if_neg (fun hc => h5 ((tmod_five_eq_zero_iff _).1 hc))]

theorem C7_gravity_flip_witness :
    DropPiece sampleBeforeTenth 3 = .ok (sampleTenthWon, none) ∧
      sampleTenthWon.GameOver = true ∧ sampleTenthWon.TurnCount % 5 = 0 ∧
      sampleTenthWon.InverseGravity = !sampleBeforeTenth.InverseGravity :=
  ⟨by decide, rfl, by decide,
    (C7_gravity_flip sampleBeforeTenth sampleTenthWon 3 (by decide)).2.1 (by decide)⟩

/-! ## The end of a game -/

/-- C9: when a successful `DropPiece` has placed its piece at `(row, col)` and
`checkWin(row, col)` is true on the resulting board, the resulting state has
`GameOver = true` and `Winner` equal to the marker of the mover, and
`CurrentPlayer` is still the mover. -/
theorem C9_win_recorded (g g' : Game) (col row : Int)
    (h : DropPiece g col = .ok (g', none))
    (hlast : g'.LastMove = some { Row := row, Col := col })
    (hwin : checkWin g' row col = .ok true) :
    g'.GameOver = true ∧ g'.Winner = g.CurrentPlayer ∧ g'.CurrentPlayer = g.CurrentPlayer := by
  obtain ⟨-, -, -, row', b, -, -, -, hf⟩ := DropPiece_success h
  obtain ⟨-, -, -, f4, -, -, -, -, f9, -⟩ := afterPlacement_fields g b row' col
  obtain ⟨-, -, -, -, -, e6, -⟩ := finishMove_fields hf
  have hrow : row' = row := by
    rw [e6, f9] at hlast
    simpa using hlast
  subst hrow
  rw [checkWin_finishMove hf] at hwin
  rcases finishMove_cases hf with ⟨-, rfl⟩ | ⟨hw, -⟩ | ⟨hw, -⟩
  · exact ⟨rfl, f4, f4⟩
  · rw [hw] at hwin; cases hwin
  · rw [hw] at hwin; cases hwin

theorem C9_win_recorded_witness :
    DropPiece sampleBeforeWin 0 = .ok (sampleWon, none) ∧
      sampleWon.LastMove = some { Row := 0, Col := 0 } ∧
      checkWin sampleWon 0 0 = .ok true ∧
      sampleWon.GameOver = true ∧ sampleWon.Winner = sampleBeforeWin.CurrentPlayer ∧
      sampleWon.CurrentPlayer = sampleBeforeWin.CurrentPlayer :=
  ⟨by decide, rfl, by decide,
    C9_win_recorded sampleBeforeWin sampleWon 0 0 (by decide) rfl (by decide)⟩

/-- C10: let a successful `DropPiece` place its piece at `(row, col)`.  If
`checkWin(row, col)` is false on the resulting board and that board has no
empty cell left, the resulting state has `GameOver = true` and
`Winner = "draw"`.  Conversely, when the move turns `Winner` into `"draw"` (it
was not `"draw"` before, and `"draw"` is not the marker of the mover),
`checkWin(row, col)` is false for that move and the resulting board has no empty
cell. -/
theorem C10_draw_recorded (g g' : Game) (col row : Int)
    (h : DropPiece g col = .ok (g', none))
    (hlast : g'.LastMove = some { Row := row, Col := col }) :
    (checkWin g' row col = .ok false →
        (∀ r c : Int, 0 ≤ r → r < g'.Rows → 0 ≤ c → c < g'.Cols → ¬ IsEmptyAt g'.Board r c) →
        g'.GameOver = true ∧ g'.Winner = "draw") ∧
      (g.Winner ≠ "draw" → g.CurrentPlayer ≠ "draw" → g'.Winner = "draw" →
        checkWin g' row col = .ok false ∧
        ∀ r c : Int, 0 ≤ r → r < g'.Rows → 0 ≤ c → c < g'.Cols → ¬ IsEmptyAt g'.Board r c) := by
  obtain ⟨-, -, -, row', b, -, -, -, hf⟩ := DropPiece_success h
  obtain ⟨-, -, -, f4, -, -, -, f8, f9, -⟩ := afterPlacement_fields g b row' col
  obtain ⟨e1, e2, e3, -, -, e6, -⟩ := finishMove_fields hf
  have hrow : row' = row := by
    rw [e6, f9] at hlast
    simpa using hlast
  subst hrow
  rw [checkWin_finishMove hf, e1, e2, e3]
  constructor
  · intro hwin hfull
    rcases finishMove_cases hf with ⟨hw, -⟩ | ⟨-, -, rfl⟩ | ⟨-, hd, -⟩
    · rw [hw] at hwin; cases hwin
    · exact ⟨rfl, rfl⟩
    · obtain ⟨i, j, h1, h2, h3, h4, h5⟩ := checkDraw_false hd
      exact absurd h5 (hfull i j h1 h2 h3 h4)
  · intro hw0 hp hdraw
    rcases finishMove_cases hf with ⟨-, rfl⟩ | ⟨hw, hd, -⟩ | ⟨-, -, rfl⟩
    · exact absurd (f4 ▸ hdraw) hp
    · exact ⟨hw, fun r c h1 h2 h3 h4 => checkDraw_true hd r c h1 h2 h3 h4⟩
    · exact absurd (f8 ▸ hdraw) hw0

theorem C10_draw_recorded_witness :
    DropPiece sampleBeforeDraw 1 = .ok (sampleDraw, none) ∧
      sampleDraw.LastMove = some { Row := 2, Col := 1 } ∧
      checkWin sampleDraw 2 1 = .ok false ∧
      sampleDraw.GameOver = true ∧ sampleDraw.Winner = "draw" ∧
      ∀ r c : Int, 0 ≤ r → r < sampleDraw.Rows → 0 ≤ c → c < sampleDraw.Cols →
        ¬ IsEmptyAt sampleDraw.Board r c :=
  ⟨by decide, rfl, by decide, rfl, rfl,
    ((C10_draw_recorded sampleBeforeDraw sampleDraw 1 2 (by decide) rfl).2 (by decide)
      (by decide) rfl).2⟩

/-! ## Gravity along a game -/

theorem playSeq_cons {g g' : Game} {c : Int} {rest : List Int} {es : List (Option DropError)}
    (h : playSeq g (c :: rest) = .ok (g', es)) :
    ∃ g1 e es', DropPiece g c = .ok (g1, e) ∧ playSeq g1 rest = .ok (g', es') ∧
      es = e :: es' := by
  rw [playSeq] at h
  cases hd : DropPiece g c with
  | error f => rw [hd] at h; cases h
  | ok p =>
    obtain ⟨g1, e⟩ := p
    rw [hd] at h
    dsimp only at h
    cases hp : playSeq g1 rest with
    | error f => rw [hp] at h; cases h
    | ok q =>
      obtain ⟨g2, es'⟩ := q
      rw [hp] at h
      simp only [Except.ok.injEq, Prod.mk.injEq] at h
      exact ⟨g1, e, es', rfl, by rw [hp, h.1], h.2.symm⟩

theorem boardGet_replicate_empty {n m : Nat} {r c : Int} {s : String}
    (h : boardGet (List.replicate n (List.replicate m "")) r c = .ok s) : s = "" := by
  obtain ⟨-, -, cells, h1, h2⟩ := (boardGet_eq_ok_iff _ r c s).1 h
  rw [List.getElem?_replicate] at h1
  split at h1
  · cases h1
    rw [List.getElem?_replicate] at h2
    split at h2
    · exact (Option.some.inj h2).symm
    · cases h2
  · cases h1

theorem NewGame_no_prefill {rows cols : Int} {player1 player2 : String} {rng : Nat → Nat}
    {fuel : Nat} {g : Game} (h : NewGame rows cols player1 player2 rng fuel = .ok g)
    (h0 : getPrefilledBlocksCount rows cols = 0) :
    g.Board = List.replicate rows.toNat (List.replicate cols.toNat "") := by
  unfold NewGame at h
  split at h
  · cases h
  · split at h
    · cases h
    · simp only [addPrefilledBlocks, h0, if_true, Except.ok.injEq] at h
      rw [← h]

theorem distinct_columns_bottom : ∀ (calls : List Int) (g g' : Game)
    (es : List (Option DropError)), TurnInv g → g.TurnCount + calls.length ≤ 5 →
    calls.Nodup →
    (∀ (r c : Int) (s : String), boardGet g.Board r c = .ok s → s ≠ "" →
      r = g.Rows - 1 ∧ c ∉ calls) →
    playSeq g calls = .ok (g', es) → (∀ e ∈ es, e = none) →
    g'.Rows = g.Rows ∧
      ∀ (r c : Int) (s : String), boardGet g'.Board r c = .ok s → s ≠ "" → r = g.Rows - 1
  | [], g, g', es, _, _, _, hfill, hplay, _ => by
    simp only [playSeq, Except.ok.injEq, Prod.mk.injEq] at hplay
    obtain ⟨rfl, -⟩ := hplay
    exact ⟨rfl, fun r c s h1 h2 => (hfill r c s h1 h2).1⟩
  | c :: rest, g, g', es, hinv, hlen, hnd, hfill, hplay, hall => by
    obtain ⟨g1, e, es', hd, hp, rfl⟩ := playSeq_cons hplay
    have he : e = none := hall e (List.mem_cons_self _ _)
    subst he
    obtain ⟨hinv1, hs, -⟩ := TurnInv_step hinv hd
    have ht1 := hs rfl
    obtain ⟨hwf, -, ht0, -, hgrav⟩ := hinv
    simp only [List.length_cons, Nat.cast_add, Nat.cast_one] at hlen
    have hnorm : g.InverseGravity = false := by
      cases hg : g.InverseGravity with
      | false => rfl
      | true =>
        have := hgrav.1 hg
        omega
    obtain ⟨-, hc0, hc1, row, b, hl, hrow, hb, hf⟩ := DropPiece_success hd
    obtain ⟨-, h2, h3, h4, -⟩ := landingRow_spec hl
    obtain ⟨h3a, -⟩ := h3 hrow
    obtain ⟨f1, -, f3, -⟩ := afterPlacement_fields g b row c
    obtain ⟨e1, -, e3, -⟩ := finishMove_fields hf
    have hrows : g1.Rows = g.Rows := by rw [e1, f1]
    have hboard : g1.Board = b := by rw [e3, f3]
    have hbottom : row = g.Rows - 1 := by
      by_contra hne
      have hlt : row < g.Rows - 1 := by omega
      obtain ⟨s, hs'⟩ := @boardGet_ok_of_shape _ _ _ hwf (g.Rows - 1) c (by omega)
        (by omega) hc0 hc1
      have hse : s ≠ "" := by
        intro hse
        subst hse
        exact h4 hnorm (g.Rows - 1) hlt (by omega) (by omega) hs'
      exact (hfill _ _ s hs' hse).2 (List.mem_cons_self _ _)
    have hfill1 : ∀ (r' c' : Int) (s : String), boardGet g1.Board r' c' = .ok s → s ≠ "" →
        r' = g1.Rows - 1 ∧ c' ∉ rest := by
      intro r' c' s hs' hse
      rw [hrows]
      by_cases hrc : r' = row ∧ c' = c
      · rw [hrc.1, hrc.2]
        exact ⟨hbottom, (List.nodup_cons.1 hnd).1⟩
      · rw [hboard, boardGet_set_other hb r' c' (by omega)] at hs'
        obtain ⟨k1, k2⟩ := hfill r' c' s hs' hse
        exact ⟨k1, fun hm => k2 (List.mem_cons_of_mem _ hm)⟩
    obtain ⟨r1, r2⟩ := distinct_columns_bottom rest g1 g' es' hinv1 (by omega)
      (List.nodup_cons.1 hnd).2 hfill1 hp
      (fun e he => hall e (List.mem_cons_of_mem _ he))
    rw [hrows] at r1 r2
    exact ⟨r1, r2⟩

/-- C8: for a game created by `NewGame` (on a board of fewer than `2 ^ 63`
cells) and every sequence of `DropPiece` calls, `InverseGravity` is true exactly
when `TurnCount / 5` is odd.  In particular it is false while fewer than five
moves have succeeded and true right after the fifth; the sixth successful move
lands in the empty cell of smallest row index of its column; and on a board
without pre-fill, after five successful moves into five distinct columns, that
cell is in row 0. -/
theorem C8_gravity_parity (rows cols : Int) (player1 player2 : String) (rng : Nat → Nat)
    (fuel : Nat) (g0 : Game) (hnew : NewGame rows cols player1 player2 rng fuel = .ok g0)
    (hsize : rows * cols < 2 ^ 63) (calls : List Int) :
    ∃ g es, playSeq g0 calls = .ok (g, es) ∧
      (g.InverseGravity = true ↔ (g.TurnCount / 5) % 2 = 1) ∧
      (g.TurnCount < 5 → g.InverseGravity = false) ∧
      (g.TurnCount = 5 → g.InverseGravity = true ∧
        ∀ (col : Int) (g' : Game), DropPiece g col = .ok (g', none) →
          ∃ row : Int, g'.LastMove = some { Row := row, Col := col } ∧
            IsEmptyAt g.Board row col ∧
            ∀ i : Int, 0 ≤ i → i < row → ¬ IsEmptyAt g.Board i col) ∧
      (getPrefilledBlocksCount rows cols = 0 → calls.length = 5 → calls.Nodup →
        (∀ e ∈ es, e = none) →
        ∀ (col : Int) (g' : Game), DropPiece g col = .ok (g', none) →
          g'.LastMove = some { Row := 0, Col := col }) := by
  have hinv0 := NewGame_turnInv hnew hsize
  have ht0 : g0.TurnCount = 0 := by
    obtain ⟨b, -, rfl⟩ := NewGame_state hnew
    rfl
  obtain ⟨g, es, hplay, hinv, hlen, ht⟩ := TurnInv_playSeq calls g0 hinv0
  have hgrav := hinv.2.2.2.2
  have hpos := hinv.2.2.1
  have hlanding : g.InverseGravity = true → ∀ (col : Int) (g' : Game),
      DropPiece g col = .ok (g', none) →
      ∃ row : Int, g'.LastMove = some { Row := row, Col := col } ∧ 0 ≤ row ∧ row < g.Rows ∧
        0 ≤ col ∧ col < g.Cols ∧ IsEmptyAt g.Board row col ∧
        ∀ i : Int, 0 ≤ i → i < row → ¬ IsEmptyAt g.Board i col := by
    intro hg col g' hd
    obtain ⟨-, hc0, hc1, row, b, hl, hrow, -, hf⟩ := DropPiece_success hd
    obtain ⟨-, h2, h3, -, h5⟩ := landingRow_spec hl
    obtain ⟨h3a, h3b⟩ := h3 hrow
    obtain ⟨-, -, -, -, -, -, -, -, f9, -⟩ := afterPlacement_fields g b row col
    obtain ⟨-, -, -, -, -, e6, -⟩ := finishMove_fields hf
    exact ⟨row, by rw [e6, f9], h3a, by omega, hc0, hc1, h3b,
      fun i hi0 hi1 => h5 hg i hi0 (by omega) (Or.inr hi1)⟩
  refine ⟨g, es, hplay, hgrav, fun hlt => ?_, fun h5 => ?_, fun hpre hlen5 hnd hall => ?_⟩
  · cases hg : g.InverseGravity with
    | false => rfl
    | true =>
      have := hgrav.1 hg
      omega
  · have hg : g.InverseGravity = true := hgrav.2 (by rw [h5]; decide)
    refine ⟨hg, fun col g' hd => ?_⟩
    obtain ⟨row, h1, -, -, -, -, h2, h3⟩ := hlanding hg col g' hd
    exact ⟨row, h1, h2, h3⟩
  · have hboard0 := NewGame_no_prefill hnew hpre
    obtain ⟨hrows, hfill⟩ := distinct_columns_bottom calls g0 g es hinv0
      (by rw [ht0, hlen5]; decide) hnd
      (fun r c s hs hse => by
        rw [hboard0] at hs
        exact absurd (boardGet_replicate_empty hs) hse)
      hplay hall
    have hcount : es.countP Option.isNone = es.length := by
      rw [List.countP_eq_length]
      intro e he
      rw [hall e he]
      rfl
    have ht5 : g.TurnCount = 5 := by
      rw [ht, ht0, hcount, hlen, hlen5]
      rfl
    have hg : g.InverseGravity = true := hgrav.2 (by rw [ht5]; decide)
    intro col g' hd
    obtain ⟨row, h1, h2, h3, hc0, hc1, -, h4⟩ := hlanding hg col g' hd
    have hrow0 : row = 0 := by
      by_contra hne
      obtain ⟨s, hs⟩ := @boardGet_ok_of_shape _ _ _ hinv.1 0 col (le_refl _) (by omega) hc0 hc1
      have hse : s ≠ "" := by
        intro hse
        subst hse
        exact h4 0 (le_refl _) (by omega) hs
      have := hfill 0 col s hs hse
      omega
    rw [h1, hrow0]

theorem C8_gravity_parity_witness :
    NewGame 6 8 "Ann" "Bob" (fun _ => 0) 0 = .ok sampleWide ∧ (6 : Int) * 8 < 2 ^ 63 ∧
      playSeq sampleWide [0, 1, 2, 3, 4] = .ok (sampleWideFive, List.replicate 5 none) ∧
      sampleWideFive.InverseGravity = true ∧
      ∀ (col : Int) (g' : Game), DropPiece sampleWideFive col = .ok (g', none) →
        g'.LastMove = some { Row := 0, Col := col } := by
  have hplay : playSeq sampleWide [0, 1, 2, 3, 4] =
      .ok (sampleWideFive, List.replicate 5 none) := by decide
  obtain ⟨g, es, h1, -, -, -, h2⟩ :=
    C8_gravity_parity 6 8 "Ann" "Bob" (fun _ => 0) 0 sampleWide (by decide) (by decide)
      [0, 1, 2, 3, 4]
  rw [hplay] at h1
  simp only [Except.ok.injEq, Prod.mk.injEq] at h1
  obtain ⟨rfl, rfl⟩ := h1
  exact ⟨by decide, by decide, hplay, rfl,
    h2 (by decide) rfl (by decide) (by decide)⟩

/-! ## Invariants along a sequence of calls -/

theorem playSeq_invariant (P : Game → Prop) (hwf : ∀ g, P g → WellFormed g)
    (hstep : ∀ (g g' : Game) (col : Int) (e : Option DropError), P g →
      DropPiece g col = .ok (g', e) → P g') :
    ∀ (calls : List Int) (g0 : Game), P g0 →
      ∃ g es, playSeq g0 calls = .ok (g, es) ∧ P g ∧ es.length = calls.length
  | [], g0, h => ⟨g0, [], rfl, h, rfl⟩
  | c :: rest, g0, h => by
    obtain ⟨g1, e, h1⟩ := DropPiece_total (hwf g0 h) c
    obtain ⟨g, es, h2, hP, hlen⟩ := playSeq_invariant P hwf hstep rest g1 (hstep g0 g1 c e h h1)
    refine ⟨g, e :: es, ?_, hP, by simp [hlen]⟩
    rw [playSeq, h1]
    dsimp only
    rw [h2]

theorem isFilledAt_iff_not_empty {g : Game} (hwf : WellFormed g) {r c : Int} (hr0 : 0 ≤ r)
    (hr : r < g.Rows) (hc0 : 0 ≤ c) (hc : c < g.Cols) :
    IsFilledAt g.Board r c ↔ ¬ IsEmptyAt g.Board r c := by
  obtain ⟨s, hs⟩ := boardGet_ok_of_shape hwf hr0 hr hc0 hc
  unfold IsFilledAt IsEmptyAt
  rw [hs]
  constructor
  · rintro ⟨t, ht, hne⟩ hc
    rw [← Except.ok.inj ht] at hne
    exact hne (Except.ok.inj hc)
  · intro hne
    exact ⟨s, rfl, fun hc => hne (by rw [hc])⟩

/-! ## The draw check decides fullness -/

/-- C14: on a board of `Rows × Cols` cells `checkDraw` returns, and it returns
true if and only if every cell of the grid is non-empty. -/
theorem C14_checkDraw_iff_full (g : Game) (hwf : WellFormed g) :
    ∃ d, checkDraw g = .ok d ∧ (d = true ↔ GridFull g) := by
  obtain ⟨d, hd⟩ := checkDraw_total hwf
  refine ⟨d, hd, ?_⟩
  cases d with
  | true =>
    simp only [true_iff]
    intro r c h1 h2 h3 h4
    exact (isFilledAt_iff_not_empty hwf h1 h2 h3 h4).2 (checkDraw_true hd r c h1 h2 h3 h4)
  | false =>
    simp only [Bool.false_eq_true, false_iff]
    intro hfull
    obtain ⟨i, j, h1, h2, h3, h4, h5⟩ := checkDraw_false hd
    exact (isFilledAt_iff_not_empty hwf h1 h2 h3 h4).1 (hfull i j h1 h2 h3 h4) h5

theorem C14_checkDraw_iff_full_witness :
    WellFormed sampleDraw ∧ checkDraw sampleDraw = .ok true ∧ GridFull sampleDraw ∧
      WellFormed sampleBeforeDraw ∧ checkDraw sampleBeforeDraw = .ok false ∧
      ¬ GridFull sampleBeforeDraw := by
  obtain ⟨d, hd, hiff⟩ := C14_checkDraw_iff_full sampleDraw (by decide)
  obtain ⟨d', hd', hiff'⟩ := C14_checkDraw_iff_full sampleBeforeDraw (by decide)
  have h1 : checkDraw sampleDraw = .ok true := by decide
  have h2 : checkDraw sampleBeforeDraw = .ok false := by decide
  rw [h1] at hd
  rw [h2] at hd'
  refine ⟨by decide, h1, hiff.1 (Except.ok.inj hd).symm, by decide, h2, fun hfull => ?_⟩
  have := hiff'.2 hfull
  rw [← Except.ok.inj hd'] at this
  cases this

/-! ## The recorded outcome -/

theorem NewGame_outcomeInv {rows cols : Int} {player1 player2 : String} {rng : Nat → Nat}
    {fuel : Nat} {g : Game} (h : NewGame rows cols player1 player2 rng fuel = .ok g) :
    OutcomeInv g := by
  obtain ⟨b, hb, rfl⟩ := NewGame_state h
  exact ⟨hb, Or.inl rfl, by simp, Or.inl rfl⟩

theorem OutcomeInv_step {g g' : Game} {col : Int} {e : Option DropError} (hinv : OutcomeInv g)
    (h : DropPiece g col = .ok (g', e)) :
    OutcomeInv g' ∧ (g.GameOver = true → g' = g) := by
  cases e with
  | some e =>
    obtain ⟨rfl, -⟩ := DropPiece_failure h
    exact ⟨hinv, fun _ => rfl⟩
  | none =>
    have hwf' := DropPiece_wellFormed hinv.1 h
    obtain ⟨-, hp, hiff, -⟩ := hinv
    obtain ⟨hgo, -, -, row, b, -, -, -, hf⟩ := DropPiece_success h
    obtain ⟨-, -, -, f4, -, -, f7, f8, -⟩ := afterPlacement_fields g b row col
    have hw : g.Winner = "" := by
      by_contra hne
      have := hiff.2 hne
      rw [hgo] at this
      cases this
    refine ⟨?_, fun hc => by rw [hgo] at hc; cases hc⟩
    rcases finishMove_cases hf with ⟨-, rfl⟩ | ⟨-, -, rfl⟩ | ⟨-, -, rfl⟩
    · refine ⟨hwf', by simpa only [f4] using hp, ?_, ?_⟩
      · dsimp only
        rw [f4]
        rcases hp with hp | hp <;> rw [hp] <;> decide
      · dsimp only
        rw [f4]
        rcases hp with hp | hp
        · exact Or.inr (Or.inl hp)
        · exact Or.inr (Or.inr (Or.inl hp))
    · exact ⟨hwf', by simpa only [f4] using hp, by simp, Or.inr (Or.inr (Or.inr rfl))⟩
    · refine ⟨hwf', ?_, ?_, ?_⟩
      · dsimp only
        split
        · exact Or.inr rfl
        · exact Or.inl rfl
      · dsimp only
        rw [f7, f8, hgo, hw]
        decide
      · dsimp only
        rw [f8]
        exact Or.inl hw

theorem playSeq_gameOver {g : Game} (h : g.GameOver = true) :
    ∀ later : List Int, playSeq g later = .ok (g, later.map (fun _ => some DropError.gameOver))
  | [] => rfl
  | c :: rest => by
    rw [playSeq, DropPiece_gameOver h c]
    dsimp only
    rw [playSeq_gameOver h rest]
    rfl

/-- C18: for a game created by `NewGame` and every sequence of `DropPiece`
calls, `GameOver` is true if and only if `Winner` is non-empty, and `Winner` is
empty, `"player1"`, `"player2"` or `"draw"`.  Once `GameOver` is true every
later call returns the game-over error and the same state, so `GameOver` and
`Winner` keep their values; a call changes `Winner` only when it was empty, so
it is set at most once and a win and a draw are never both recorded. -/
theorem C18_outcome_once (rows cols : Int) (player1 player2 : String) (rng : Nat → Nat)
    (fuel : Nat) (g0 : Game) (hnew : NewGame rows cols player1 player2 rng fuel = .ok g0)
    (calls : List Int) :
    ∃ g es, playSeq g0 calls = .ok (g, es) ∧
      (g.GameOver = true ↔ g.Winner ≠ "") ∧
      (g.Winner = "" ∨ g.Winner = "player1" ∨ g.Winner = "player2" ∨ g.Winner = "draw") ∧
      (g.GameOver = true → ∀ later : List Int,
        playSeq g later = .ok (g, later.map (fun _ => some DropError.gameOver))) ∧
      ∀ col : Int, ∃ g' e, DropPiece g col = .ok (g', e) ∧
        (g.Winner ≠ "" → g' = g ∧ e = some DropError.gameOver) := by
  obtain ⟨g, es, hplay, hinv, -⟩ := playSeq_invariant OutcomeInv (fun _ h => h.1)
    (fun _ _ _ _ hi hd => (OutcomeInv_step hi hd).1) calls g0 (NewGame_outcomeInv hnew)
  refine ⟨g, es, hplay, hinv.2.2.1, hinv.2.2.2, fun hgo later => playSeq_gameOver hgo later,
    fun col => ?_⟩
  obtain ⟨g', e, hd⟩ := DropPiece_total hinv.1 col
  refine ⟨g', e, hd, fun hw => ?_⟩
  have hgo := hinv.2.2.1.2 hw
  rw [DropPiece_gameOver hgo col] at hd
  simp only [Except.ok.injEq, Prod.mk.injEq] at hd
  exact ⟨hd.1.symm, hd.2.symm⟩

theorem C18_outcome_once_witness :
    NewGame 4 4 "Ann" "Bob" (fun _ => 0) 0 = .ok sampleFresh ∧
      playSeq sampleFresh [0, 1, 0, 1, 0, 1, 0] =
        .ok (sampleWon, [none, none, none, none, none, none, none]) ∧
      (sampleWon.GameOver = true ↔ sampleWon.Winner ≠ "") ∧
      playSeq sampleWon [2, 9] =
        .ok (sampleWon, [some DropError.gameOver, some DropError.gameOver]) := by
  have hplay : playSeq sampleFresh [0, 1, 0, 1, 0, 1, 0] =
      .ok (sampleWon, [none, none, none, none, none, none, none]) := by decide
  obtain ⟨g, es, h1, h2, -, h3, -⟩ :=
    C18_outcome_once 4 4 "Ann" "Bob" (fun _ => 0) 0 sampleFresh (by decide)
      [0, 1, 0, 1, 0, 1, 0]
  rw [hplay] at h1
  simp only [Except.ok.injEq, Prod.mk.injEq] at h1
  obtain ⟨rfl, rfl⟩ := h1
  exact ⟨by decide, hplay, h2, h3 rfl [2, 9]⟩

/-! ## The turn order -/

theorem NewGame_parityInv {rows cols : Int} {player1 player2 : String} {rng : Nat → Nat}
    {fuel : Nat} {g : Game} (h : NewGame rows cols player1 player2 rng fuel = .ok g) :
    ParityInv g := by
  obtain ⟨b, hb, rfl⟩ := NewGame_state h
  exact ⟨Or.inl rfl, fun _ => by simp⟩

theorem continue_step {g g' : Game} {col row : Int}
    (h : DropPiece g col = .ok (g', none))
    (hlast : g'.LastMove = some { Row := row, Col := col })
    (hnowin : checkWin g' row col = .ok false)
    (hroom : ∃ r c : Int, 0 ≤ r ∧ r < g'.Rows ∧ 0 ≤ c ∧ c < g'.Cols ∧ IsEmptyAt g'.Board r c) :
    g'.CurrentPlayer = (if g.CurrentPlayer = "player1" then "player2" else "player1") ∧
      g'.GameOver = false ∧ g'.Winner = g.Winner := by
  obtain ⟨hgo, -, -, row', b, -, -, -, hf⟩ := DropPiece_success h
  obtain ⟨-, -, -, f4, -, -, f7, f8, f9, -⟩ := afterPlacement_fields g b row' col
  obtain ⟨e1, e2, e3, -, -, e6, -⟩ := finishMove_fields hf
  have hrow : row' = row := by
    rw [e6, f9] at hlast
    simpa using hlast
  subst hrow
  rw [checkWin_finishMove hf] at hnowin
  rw [e1, e2, e3] at hroom
  rcases finishMove_cases hf with ⟨hw, -⟩ | ⟨-, hd, -⟩ | ⟨-, -, rfl⟩
  · rw [hw] at hnowin; cases hnowin
  · obtain ⟨r, c, h1, h2, h3, h4, h5⟩ := hroom
    exact absurd h5 (checkDraw_true hd r c h1 h2 h3 h4)
  · dsimp only
    rw [f4, f7, f8]
    exact ⟨rfl, hgo, rfl⟩

theorem ParityInv_step {g g' : Game} {col : Int} {e : Option DropError} (ht : TurnInv g)
    (hinv : ParityInv g) (h : DropPiece g col = .ok (g', e)) : ParityInv g' := by
  cases e with
  | some e =>
    obtain ⟨rfl, -⟩ := DropPiece_failure h
    exact hinv
  | none =>
    obtain ⟨-, hs, -⟩ := TurnInv_step ht h
    have ht' := hs rfl
    obtain ⟨hp, hpar⟩ := hinv
    obtain ⟨hgo, -, -, row, b, -, -, -, hf⟩ := DropPiece_success h
    obtain ⟨-, -, -, f4, -, -, f7, -, -, f10, -⟩ := afterPlacement_fields g b row col
    obtain ⟨-, -, -, -, -, -, e7, -⟩ := finishMove_fields hf
    have hpar' := hpar hgo
    rcases finishMove_cases hf with ⟨-, rfl⟩ | ⟨-, -, rfl⟩ | ⟨-, -, rfl⟩
    · exact ⟨by simpa only [f4] using hp, fun hc => by cases hc⟩
    · exact ⟨by simpa only [f4] using hp, fun hc => by cases hc⟩
    · dsimp only at ht' ⊢
      rw [f4]
      refine ⟨?_, fun _ => ?_⟩
      · split
        · exact Or.inr rfl
        · exact Or.inl rfl
      · rw [ht']
        rcases hp with hp | hp
        · have := hpar'.1 hp
          simp only [hp, if_true]
          constructor
          · intro hc; exact absurd hc (by decide)
          · intro hc; omega
        · have hne : g.CurrentPlayer ≠ "player1" := by rw [hp]; decide
          have hodd : ¬ g.TurnCount % 2 = 0 := fun hc => hne (hpar'.2 hc)
          simp only [hne, if_false, true_iff]
          omega

/-- C11: (1) for every game whose `CurrentPlayer` is `"player1"` or `"player2"`
and every successful `DropPiece` whose move neither wins (`checkWin` is false at
the landing cell) nor fills the board (an empty cell is left), the resulting
`CurrentPlayer` is the other player, `GameOver` is false and `Winner` is
unchanged; (2) consequently, in a game created by `NewGame` (on a board of fewer
than `2 ^ 63` cells), after every sequence of calls and as long as the game is
not over, `CurrentPlayer` is `"player1"` exactly when `TurnCount` is even and
`"player2"` exactly when it is odd. -/
theorem C11_turn_order :
    (∀ (g g' : Game) (col row : Int),
        (g.CurrentPlayer = "player1" ∨ g.CurrentPlayer = "player2") →
        DropPiece g col = .ok (g', none) →
        g'.LastMove = some { Row := row, Col := col } →
        checkWin g' row col = .ok false →
        (∃ r c : Int, 0 ≤ r ∧ r < g'.Rows ∧ 0 ≤ c ∧ c < g'.Cols ∧ IsEmptyAt g'.Board r c) →
        (g.CurrentPlayer = "player1" → g'.CurrentPlayer = "player2") ∧
          (g.CurrentPlayer = "player2" → g'.CurrentPlayer = "player1") ∧
          g'.GameOver = false ∧ g'.Winner = g.Winner) ∧
      (∀ (rows cols : Int) (player1 player2 : String) (rng : Nat → Nat) (fuel : Nat)
          (g0 : Game) (calls : List Int),
        NewGame rows cols player1 player2 rng fuel = .ok g0 → rows * cols < 2 ^ 63 →
        ∃ g es, playSeq g0 calls = .ok (g, es) ∧
          (g.GameOver = false →
            (g.CurrentPlayer = "player1" ↔ g.TurnCount % 2 = 0) ∧
            (g.CurrentPlayer = "player2" ↔ g.TurnCount % 2 = 1))) := by
  constructor
  · intro g g' col row _ h hlast hnowin hroom
    obtain ⟨h1, h2, h3⟩ := continue_step h hlast hnowin hroom
    refine ⟨fun hp => ?_, fun hp => ?_, h2, h3⟩
    · rw [h1, if_pos hp]
    · rw [h1, if_neg (by rw [hp]; decide)]
  · intro rows cols player1 player2 rng fuel g0 calls hnew hsize
    obtain ⟨g, es, hplay, ⟨-, hpar⟩, -⟩ :=
      playSeq_invariant (fun g => TurnInv g ∧ ParityInv g) (fun _ h => h.1.1)
        (fun _ _ _ _ hi hd => ⟨(TurnInv_step hi.1 hd).1, ParityInv_step hi.1 hi.2 hd⟩)
        calls g0 ⟨NewGame_turnInv hnew hsize, NewGame_parityInv hnew⟩
    refine ⟨g, es, hplay, fun hgo => ?_⟩
    obtain ⟨hp, hiff⟩ := hpar
    have hiff' := hiff hgo
    refine ⟨hiff', ?_⟩
    rcases hp with hp | hp
    · have := hiff'.1 hp
      rw [hp]
      constructor
      · intro hc; exact absurd hc (by decide)
      · intro hc; omega
    · have hne : g.CurrentPlayer ≠ "player1" := by rw [hp]; decide
      have hodd : ¬ g.TurnCount % 2 = 0 := fun hc => hne (hiff'.2 hc)
      simp only [hp, true_iff]
      omega

theorem C11_turn_order_witness :
    (sampleFresh.CurrentPlayer = "player1" ∧
        DropPiece sampleFresh 0 = .ok (sampleAfterOne, none) ∧
        sampleAfterOne.CurrentPlayer = "player2" ∧ sampleAfterOne.GameOver = false ∧
        sampleAfterOne.Winner = sampleFresh.Winner) ∧
      (NewGame 4 4 "Ann" "Bob" (fun _ => 0) 0 = .ok sampleFresh ∧
        playSeq sampleFresh [1, 3, 2, 3, 1, 3, 0, 2, 0] =
          .ok (sampleBeforeTenth, List.replicate 9 none) ∧
        sampleBeforeTenth.GameOver = false ∧
        (sampleBeforeTenth.CurrentPlayer = "player2" ↔ sampleBeforeTenth.TurnCount % 2 = 1)) := by
  have hd : DropPiece sampleFresh 0 = .ok (sampleAfterOne, none) := by decide
  have hplay : playSeq sampleFresh [1, 3, 2, 3, 1, 3, 0, 2, 0] =
      .ok (sampleBeforeTenth, List.replicate 9 none) := by decide
  obtain ⟨h1, -, h2, h3⟩ := C11_turn_order.1 sampleFresh sampleAfterOne 0 3 (Or.inl rfl) hd
    rfl (by decide) ⟨0, 0, by decide⟩
  obtain ⟨g, es, h4, h5⟩ := C11_turn_order.2 4 4 "Ann" "Bob" (fun _ => 0) 0 sampleFresh
    [1, 3, 2, 3, 1, 3, 0, 2, 0] (by decide) (by decide)
  rw [hplay] at h4
  simp only [Except.ok.injEq, Prod.mk.injEq] at h4
  obtain ⟨rfl, rfl⟩ := h4
  exact ⟨⟨rfl, hd, h1 rfl, h2, h3⟩, by decide, hplay, rfl, (h5 rfl).2⟩

/-! ## What `countDirection` counts -/

theorem countLoop_run (g : Game) (dRow dCol : Int) (player : String) :
    ∀ (fuel : Nat) (r c count n : Int),
      countLoop g dRow dCol player fuel r c count = .ok n →
      ∃ m : Nat, n = count + m ∧
        (∀ j : Int, 0 ≤ j → j < m → HoldsAt g (r + j * dRow) (c + j * dCol) player) ∧
        ¬ HoldsAt g (r + m * dRow) (c + m * dCol) player
  | 0, r, c, count, n, h => by
    rw [countLoop] at h
    refine ⟨0, ?_, fun j h0 h1 => by simp at h1; omega, ?_⟩
    · by_cases hin : 0 ≤ r ∧ r < g.Rows ∧ 0 ≤ c ∧ c < g.Cols
      · simp only [hin, and_self, if_true] at h
        cases hg : boardGet g.Board r c with
        | error f => rw [hg] at h; cases h
        | ok s =>
          rw [hg] at h
          by_cases hp : s = player
          · simp only [hp, if_true] at h
            cases h
          · simp only [hp, if_false, Except.ok.injEq] at h
            simp [h]
      · simp only [hin, if_false, Except.ok.injEq] at h
        simp [h]
    · simp only [Nat.cast_zero, zero_mul, add_zero]
      rintro ⟨a1, a2, a3, a4, a5⟩
      simp only [a1, a2, a3, a4, and_self, if_true, a5] at h
      cases h
  | fuel + 1, r, c, count, n, h => by
    rw [countLoop] at h
    by_cases hin : 0 ≤ r ∧ r < g.Rows ∧ 0 ≤ c ∧ c < g.Cols
    · simp only [hin, and_self, if_true] at h
      cases hg : boardGet g.Board r c with
      | error f => rw [hg] at h; cases h
      | ok s =>
        rw [hg] at h
        by_cases hp : s = player
        · simp only [hp, if_true] at h
          subst hp
          obtain ⟨m, h1, h2, h3⟩ := countLoop_run g dRow dCol s fuel _ _ _ n h
          refine ⟨m + 1, by push_cast; omega, fun j hj0 hj1 => ?_, ?_⟩
          · by_cases hj : j = 0
            · subst hj
              simp only [zero_mul, add_zero]
              exact ⟨hin.1, hin.2.1, hin.2.2.1, hin.2.2.2, hg⟩
            · have := h2 (j - 1) (by omega) (by push_cast at hj1; omega)
              have e1 : r + dRow + (j - 1) * dRow = r + j * dRow := by ring
              have e2 : c + dCol + (j - 1) * dCol = c + j * dCol := by ring
              rwa [e1, e2] at this
          · have e1 : r + dRow + (m : Int) * dRow = r + ((m + 1 : Nat) : Int) * dRow := by
              push_cast; ring
            have e2 : c + dCol + (m : Int) * dCol = c + ((m + 1 : Nat) : Int) * dCol := by
              push_cast; ring
            rwa [e1, e2] at h3
        · simp only [hp, if_false, Except.ok.injEq] at h
          refine ⟨0, by simp [h], fun j h0 h1 => by simp at h1; omega, ?_⟩
          simp only [Nat.cast_zero, zero_mul, add_zero]
          rintro ⟨-, -, -, -, a5⟩
          rw [hg] at a5
          exact hp (Except.ok.inj a5)
    · simp only [hin, if_false, Except.ok.injEq] at h
      refine ⟨0, by simp [h], fun j h0 h1 => by simp at h1; omega, ?_⟩
      simp only [Nat.cast_zero, zero_mul, add_zero]
      rintro ⟨a1, a2, a3, a4, -⟩
      exact hin ⟨a1, a2, a3, a4⟩

theorem window_iff (F : Int → Prop) (a b : Nat) (h0 : F 0)
    (ha : ∀ t : Int, 1 ≤ t → t ≤ a → F t) (hna : ¬ F (a + 1))
    (hb : ∀ t : Int, 1 ≤ t → t ≤ b → F (-t)) (hnb : ¬ F (-(b + 1))) :
    (1 + (a : Int) + b ≥ 4 ↔
      ∃ k : Int, 0 ≤ k ∧ k ≤ 3 ∧ ∀ j : Int, 0 ≤ j → j ≤ 3 → F (j - k)) := by
  constructor
  · intro h
    refine ⟨min (b : Int) 3, by omega, by omega, fun j hj0 hj3 => ?_⟩
    rcases lt_trichotomy (j - min (b : Int) 3) 0 with ht | ht | ht
    · have := hb (-(j - min (b : Int) 3)) (by omega) (by omega)
      simpa using this
    · rw [ht]; exact h0
    · exact ha _ (by omega) (by omega)
  · rintro ⟨k, hk0, hk3, hF⟩
    by_contra hlt
    by_cases h1 : (a : Int) + 1 + k ≤ 3
    · have := hF (a + 1 + k) (by omega) h1
      rw [show (a : Int) + 1 + k - k = a + 1 by ring] at this
      exact hna this
    · by_cases h2 : (b : Int) + 1 ≤ k
      · have := hF (k - (b + 1)) (by omega) (by omega)
        rw [show k - ((b : Int) + 1) - k = -(b + 1) by ring] at this
        exact hnb this
      · omega

theorem direction_iff {g : Game} (hwf : WellFormed g) {row col : Int} {p : String}
    (hcell : HoldsAt g row col p) (d : Int × Int) (hd : d.1 ≠ 0 ∨ d.2 ≠ 0) :
    ∃ a b : Int, countDirection g row col d.1 d.2 p = .ok a ∧
      countDirection g row col (-d.1) (-d.2) p = .ok b ∧
      (1 + a + b ≥ 4 ↔ ∃ k : Int, 0 ≤ k ∧ k ≤ 3 ∧ ∀ j : Int, 0 ≤ j → j ≤ 3 →
        HoldsAt g (row + (j - k) * d.1) (col + (j - k) * d.2) p) := by
  obtain ⟨a, ha⟩ := countDirection_total hwf row col d.1 d.2 p hd
  obtain ⟨b, hb⟩ := countDirection_total hwf row col (-d.1) (-d.2) p (by omega)
  refine ⟨a, b, ha, hb, ?_⟩
  obtain ⟨ma, ea, ha1, ha2⟩ := countLoop_run g _ _ p _ _ _ _ a ha
  obtain ⟨mb, eb, hb1, hb2⟩ := countLoop_run g _ _ p _ _ _ _ b hb
  rw [ea, eb]
  simp only [zero_add]
  apply window_iff (fun t => HoldsAt g (row + t * d.1) (col + t * d.2) p) ma mb
  · simpa using hcell
  · intro t ht1 ht2
    have := ha1 (t - 1) (by omega) (by omega)
    have e1 : row + d.1 + (t - 1) * d.1 = row + t * d.1 := by ring
    have e2 : col + d.2 + (t - 1) * d.2 = col + t * d.2 := by ring
    rwa [e1, e2] at this
  · have e1 : row + d.1 + (ma : Int) * d.1 = row + ((ma : Int) + 1) * d.1 := by ring
    have e2 : col + d.2 + (ma : Int) * d.2 = col + ((ma : Int) + 1) * d.2 := by ring
    rwa [e1, e2] at ha2
  · intro t ht1 ht2
    have := hb1 (t - 1) (by omega) (by omega)
    have e1 : row + -d.1 + (t - 1) * -d.1 = row + -t * d.1 := by ring
    have e2 : col + -d.2 + (t - 1) * -d.2 = col + -t * d.2 := by ring
    rwa [e1, e2] at this
  · have e1 : row + -d.1 + (mb : Int) * -d.1 = row + -((mb : Int) + 1) * d.1 := by ring
    have e2 : col + -d.2 + (mb : Int) * -d.2 = col + -((mb : Int) + 1) * d.2 := by ring
    rwa [e1, e2] at hb2

theorem checkWinLoop_iff {g : Game} (hwf : WellFormed g) {row col : Int} {p : String}
    (hcell : HoldsAt g row col p) :
    ∀ dirs : List (Int × Int), (∀ d ∈ dirs, d.1 ≠ 0 ∨ d.2 ≠ 0) →
      ∃ w, checkWinLoop g row col p dirs = .ok w ∧
        (w = true ↔ ∃ d ∈ dirs, ∃ k : Int, 0 ≤ k ∧ k ≤ 3 ∧ ∀ j : Int, 0 ≤ j → j ≤ 3 →
          HoldsAt g (row + (j - k) * d.1) (col + (j - k) * d.2) p)
  | [], _ => ⟨false, rfl, by simp⟩
  | d :: rest, hd => by
    obtain ⟨a, b, ha, hb, hiff⟩ := direction_iff hwf hcell d (hd d (List.mem_cons_self _ _))
    obtain ⟨w, hw, hwiff⟩ := checkWinLoop_iff hwf hcell rest
      (fun d' hd' => hd d' (List.mem_cons_of_mem _ hd'))
    rw [checkWinLoop, ha, hb]
    by_cases hc : 1 + a + b ≥ 4
    · refine ⟨true, by simp only [hc, if_true], ?_⟩
      simp only [true_iff]
      exact ⟨d, List.mem_cons_self _ _, hiff.1 hc⟩
    · refine ⟨w, by simp only [hc, if_false]; exact hw, ?_⟩
      rw [hwiff]
      constructor
      · rintro ⟨d', hd', h⟩
        exact ⟨d', List.mem_cons_of_mem _ hd', h⟩
      · rintro ⟨d', hd', h⟩
        rcases List.mem_cons.1 hd' with rfl | hmem
        · exact absurd (hiff.2 h) hc
        · exact ⟨d', hmem, h⟩

theorem mem_directions_iff (d : Int × Int) :
    d ∈ directions ↔ d = (0, 1) ∨ d = (1, 0) ∨ d = (1, 1) ∨ d = (1, -1) := by
  simp [directions]

theorem fourThrough_iff_directions (g : Game) (row col : Int) (p : String) :
    FourThrough g row col p ↔
      ∃ d ∈ directions, ∃ k : Int, 0 ≤ k ∧ k ≤ 3 ∧ ∀ j : Int, 0 ≤ j → j ≤ 3 →
        HoldsAt g (row + (j - k) * d.1) (col + (j - k) * d.2) p := by
  unfold FourThrough
  constructor
  · rintro ⟨d, hd, h⟩
    exact ⟨d, (mem_directions_iff d).2 hd, h⟩
  · rintro ⟨d, hd, h⟩
    exact ⟨d, (mem_directions_iff d).1 hd, h⟩

/-- C13: on a board of `Rows × Cols` cells and for a cell `(row, col)` of the
grid holding `p`, `checkWin(row, col)` returns, and it returns true if and only
if four consecutive cells of the grid along a row, a column or one of the two
diagonals (steps `(0, 1)`, `(1, 0)`, `(1, 1)` and `(1, -1)`, written out in
`FourThrough`), one of them `(row, col)`, all hold `p`. -/
theorem C13_checkWin_iff_four (g : Game) (hwf : WellFormed g) (row col : Int) (p : String)
    (hcell : HoldsAt g row col p) :
    ∃ w, checkWin g row col = .ok w ∧ (w = true ↔ FourThrough g row col p) := by
  obtain ⟨w, hw, hiff⟩ := checkWinLoop_iff hwf hcell directions directions_nonzero
  refine ⟨w, ?_, hiff.trans (fourThrough_iff_directions g row col p).symm⟩
  rw [checkWin, hcell.2.2.2.2]
  exact hw

theorem C13_checkWin_iff_four_witness :
    (WellFormed sampleWon ∧ HoldsAt sampleWon 0 0 "player1" ∧
      checkWin sampleWon 0 0 = .ok true ∧ FourThrough sampleWon 0 0 "player1" ∧
      checkWinLoop sampleWon 0 0 "player1" [(0, 1), (1, 1), (1, -1)] = .ok false) ∧
    (WellFormed sampleDraw ∧ HoldsAt sampleDraw 2 1 "player2" ∧
      checkWin sampleDraw 2 1 = .ok false ∧ ¬ FourThrough sampleDraw 2 1 "player2") ∧
    (playSeq sampleFresh [2, 2, 0, 3, 3, 0, 1, 1] =
        .ok (sampleDiagonalWon, List.replicate 8 none) ∧
      HoldsAt sampleDiagonalWon 1 1 "player2" ∧
      checkWin sampleDiagonalWon 1 1 = .ok true ∧
      FourThrough sampleDiagonalWon 1 1 "player2" ∧
      checkWinLoop sampleDiagonalWon 1 1 "player2" [(0, 1), (1, 0), (1, -1)] = .ok false) ∧
    (playSeq sampleFresh [3, 0, 1, 1, 0, 3, 2, 2] =
        .ok (sampleAntiDiagonalWon, List.replicate 8 none) ∧
      HoldsAt sampleAntiDiagonalWon 1 2 "player2" ∧
      checkWin sampleAntiDiagonalWon 1 2 = .ok true ∧
      FourThrough sampleAntiDiagonalWon 1 2 "player2" ∧
      checkWinLoop sampleAntiDiagonalWon 1 2 "player2" [(0, 1), (1, 0), (1, 1)] = .ok false) ∧
    (HoldsAt samplePrefilledFour 5 0 "player1" ∧
      checkWin samplePrefilledFour 5 0 = .ok true ∧
      FourThrough samplePrefilledFour 5 0 "player1" ∧
      checkWinLoop samplePrefilledFour 5 0 "player1" [(1, 0), (1, 1), (1, -1)] = .ok false) := by
  have key : ∀ (g : Game) (row col : Int) (p : String), WellFormed g → HoldsAt g row col p →
      checkWin g row col = .ok true → FourThrough g row col p := by
    intro g row col p hwf hcell hwin
    obtain ⟨w, hw, hiff⟩ := C13_checkWin_iff_four g hwf row col p hcell
    rw [hwin] at hw
    exact hiff.1 (Except.ok.inj hw).symm
  obtain ⟨w', hw', hiff'⟩ :=
    C13_checkWin_iff_four sampleDraw (by decide) 2 1 "player2" (by decide)
  have h2 : checkWin sampleDraw 2 1 = .ok false := by decide
  rw [h2] at hw'
  refine ⟨⟨by decide, by decide, by decide, key _ _ _ _ (by decide) (by decide) (by decide),
      by decide⟩,
    ⟨by decide, by decide, h2, fun hfour => ?_⟩,
    ⟨by decide, by decide, by decide, key _ _ _ _ (by decide) (by decide) (by decide),
      by decide⟩,
    ⟨by decide, by decide, by decide, key _ _ _ _ (by decide) (by decide) (by decide),
      by decide⟩,
    ⟨by decide, by decide, key _ _ _ _ (by decide) (by decide) (by decide), by decide⟩⟩
  have := hiff'.2 hfour
  rw [← Except.ok.inj hw'] at this
  cases this

/-! ## Counting non-empty cells -/

theorem countP_filled_set : ∀ (cells : List String) (c : Nat) (v : String),
    cells[c]? = some "" → v ≠ "" →
      (cells.set c v).countP (fun s => decide (s ≠ "")) =
        cells.countP (fun s => decide (s ≠ "")) + 1
  | [], c, v, h, _ => by simp at h
  | x :: xs, 0, v, h, hv => by
    simp only [List.getElem?_cons_zero, Option.some.injEq] at h
    subst h
    simp [List.countP_cons, hv]
  | x :: xs, c + 1, v, h, hv => by
    simp only [List.getElem?_cons_succ] at h
    have ih := countP_filled_set xs c v h hv
    simp only [List.set_cons_succ, List.countP_cons, ih]
    omega

theorem filledCount_set_row : ∀ (b : Board) (r : Nat) (cells cells' : List String),
    b[r]? = some cells →
    cells'.countP (fun s => decide (s ≠ "")) = cells.countP (fun s => decide (s ≠ "")) + 1 →
      filledCount (b.set r cells') = filledCount b + 1
  | [], r, _, _, h, _ => by simp at h
  | x :: xs, 0, cells, cells', h, hc => by
    simp only [List.getElem?_cons_zero, Option.some.injEq] at h
    subst h
    simp only [filledCount, List.set_cons_zero, List.map_cons, List.sum_cons]
    omega
  | x :: xs, r + 1, cells, cells', h, hc => by
    simp only [List.getElem?_cons_succ] at h
    have ih := filledCount_set_row xs r cells cells' h hc
    simp only [filledCount, List.set_cons_succ, List.map_cons, List.sum_cons] at ih ⊢
    omega

theorem filledCount_boardSet {b b' : Board} {r c : Int} {v : String}
    (hg : boardGet b r c = .ok "") (hs : boardSet b r c v = .ok b') (hv : v ≠ "") :
    filledCount b' = filledCount b + 1 := by
  obtain ⟨-, -, cells, hb, -, rfl⟩ := (boardSet_eq_ok_iff b r c v b').1 hs
  obtain ⟨-, -, cells', hb', hc⟩ := (boardGet_eq_ok_iff b r c "").1 hg
  rw [hb] at hb'
  cases hb'
  exact filledCount_set_row b r.toNat cells _ hb (countP_filled_set cells c.toNat v hc hv)

theorem filledCount_replicate (n m : Nat) :
    filledCount (List.replicate n (List.replicate m "")) = 0 := by
  induction n with
  | zero => rfl
  | succ n ih =>
    simp only [filledCount, List.replicate_succ, List.map_cons, List.sum_cons] at ih ⊢
    rw [ih]
    simp [List.countP_eq_zero]

theorem length_le_filledCount : ∀ b : Board, (∀ cells ∈ b, ∃ s ∈ cells, s ≠ "") →
    b.length ≤ filledCount b
  | [], _ => by simp
  | x :: xs, h => by
    have ih := length_le_filledCount xs (fun cells hc => h cells (List.mem_cons_of_mem _ hc))
    obtain ⟨s, hs, hne⟩ := h x (List.mem_cons_self _ _)
    have hpos : 0 < x.countP (fun s => decide (s ≠ "")) :=
      List.countP_pos_iff.2 ⟨s, hs, by simpa using hne⟩
    simp only [filledCount, List.map_cons, List.sum_cons, List.length_cons] at ih ⊢
    omega

theorem rows_le_filledCount {b : Board} {rows cols : Int} (hshape : BoardShape b rows cols)
    {c : Int} (hc0 : 0 ≤ c) (hc : c < cols)
    (hfull : ∀ i : Int, 0 ≤ i → i < rows → boardGet b i c ≠ .ok "") :
    rows ≤ filledCount b := by
  have hlen := hshape.1
  rw [← hlen]
  have : b.length ≤ filledCount b := by
    apply length_le_filledCount
    intro cells hmem
    obtain ⟨i, hi, rfl⟩ := List.getElem_of_mem hmem
    obtain ⟨s, hs⟩ := @boardGet_ok_of_shape _ _ _ hshape (i : Int) c (by omega) (by omega) hc0 hc
    have hne : s ≠ "" := by
      intro he
      subst he
      exact hfull i (by omega) (by omega) hs
    obtain ⟨-, -, cells', h1, h2⟩ := (boardGet_eq_ok_iff b i c s).1 hs
    simp only [Int.toNat_ofNat] at h1
    rw [List.getElem?_eq_getElem hi] at h1
    cases h1
    exact ⟨s, List.getElem?_mem h2, hne⟩
  exact_mod_cast this

/-! ## One iteration of the seeding loop -/

theorem players_lookup (n : Nat) :
    ∃ p, players[n % 2]? = some p ∧ (p = "player1" ∨ p = "player2") := by
  rcases Nat.mod_two_eq_zero_or_one n with h | h
  · exact ⟨"player1", by rw [h]; rfl, Or.inl rfl⟩
  · exact ⟨"player2", by rw [h]; rfl, Or.inr rfl⟩

theorem addPrefilledLoop_done {rng : Nat → Nat} {count : Int} {placed : Int}
    (h : ¬ placed < count) (fuel k : Nat) (g : Game) :
    addPrefilledLoop rng count fuel k g placed = .ok g := by
  cases fuel with
  | zero => rw [addPrefilledLoop, if_neg h]
  | succ fuel => rw [addPrefilledLoop, if_neg h]

theorem addPrefilledLoop_panic {rng : Nat → Nat} {count : Int} {placed : Int}
    (h : placed < count) (fuel k : Nat) {g : Game} (hcols : g.Cols ≤ 0) :
    addPrefilledLoop rng count (fuel + 1) k g placed = .error .panic := by
  rw [addPrefilledLoop, if_pos h, if_pos hcols]

theorem addPrefilledLoop_iter (rng : Nat → Nat) (count : Int) (k : Nat) {g : Game}
    (hwf : WellFormed g) (hcols : 0 < g.Cols) {placed : Int} (hlt : placed < count) :
    ∃ col : Int, 0 ≤ col ∧ col < g.Cols ∧
      (((∀ fuel : Nat, addPrefilledLoop rng count (fuel + 1) k g placed =
            addPrefilledLoop rng count fuel (k + 1) g placed) ∧
          ∀ i : Int, 0 ≤ i → i < g.Rows → boardGet g.Board i col ≠ .ok "") ∨
        ∃ (row : Int) (p : String) (b : Board),
          0 ≤ row ∧ row < g.Rows ∧ (p = "player1" ∨ p = "player2") ∧
          boardGet g.Board row col = .ok "" ∧
          (∀ i : Int, row < i → i < g.Rows → boardGet g.Board i col ≠ .ok "") ∧
          boardSet g.Board row col p = .ok b ∧
          ∀ fuel : Nat, addPrefilledLoop rng count (fuel + 1) k g placed =
            addPrefilledLoop rng count fuel (k + 2) { g with Board := b } (placed + 1)) := by
  have hmod : rng k % g.Cols.toNat < g.Cols.toNat := Nat.mod_lt _ (by omega)
  refine ⟨((rng k % g.Cols.toNat : Nat) : Int), by omega, by omega, ?_⟩
  obtain ⟨row, hrow⟩ := scanFromBottom_total g.Board ((rng k % g.Cols.toNat : Nat) : Int)
    g.Rows.toNat (fun i h0 h1 => boardGet_ok_of_shape hwf h0 (by omega) (by omega) (by omega))
  obtain ⟨s1, s2, s3, s4⟩ := scanFromBottom_spec _ _ _ _ hrow
  by_cases hneg : row = -1
  · left
    subst hneg
    refine ⟨fun fuel => ?_, fun i h0 h1 => s4 i (by omega) (by omega) h0⟩
    rw [addPrefilledLoop, if_pos hlt, if_neg (by omega)]
    dsimp only
    rw [hrow]
    simp
  · right
    obtain ⟨p, hp, hp'⟩ := players_lookup (rng (k + 1))
    have hempty := s3 (by omega)
    obtain ⟨b, hb⟩ := boardSet_ok_of_get hempty p
    refine ⟨row, p, b, by omega, by omega, hp', hempty,
      fun i h0 h1 => s4 i h0 (by omega) (by omega), hb, fun fuel => ?_⟩
    rw [addPrefilledLoop, if_pos hlt, if_neg (by omega)]
    dsimp only
    rw [hrow]
    dsimp only
    rw [if_pos hneg, hp]
    dsimp only
    rw [hb]

/-! ## The seeding loop as a whole -/

theorem addPrefilledLoop_places (rng : Nat → Nat) (count : Int) :
    ∀ (n k : Nat) (g : Game) (placed : Int), WellFormed g → 0 < g.Cols →
      count - placed = n → (filledCount g.Board : Int) + n ≤ g.Rows →
      ∃ b, (∀ extra : Nat,
          addPrefilledLoop rng count (n + extra) k g placed = .ok { g with Board := b }) ∧
        BoardShape b g.Rows g.Cols ∧ filledCount b = filledCount g.Board + n
  | 0, k, g, placed, hwf, _, hn, _ => by
    refine ⟨g.Board, fun extra => ?_, hwf, rfl⟩
    rw [addPrefilledLoop_done (by simp at hn; omega)]
  | n + 1, k, g, placed, hwf, hcols, hn, hroom => by
    push_cast at hn hroom
    obtain ⟨col, hc0, hc1, hiter⟩ :=
      addPrefilledLoop_iter rng count k hwf hcols (show placed < count by omega)
    rcases hiter with ⟨-, hfull⟩ | ⟨row, p, b, -, -, hp, hempty, -, hb, hrec⟩
    · have := rows_le_filledCount hwf hc0 hc1 hfull
      omega
    · have hpne : p ≠ "" := by rcases hp with rfl | rfl <;> decide
      have hcount := filledCount_boardSet hempty hb hpne
      have hwf' : WellFormed { g with Board := b } := boardSet_shape hb hwf
      obtain ⟨b2, h1, h2, h3⟩ := addPrefilledLoop_places rng count n (k + 2)
        { g with Board := b } (placed + 1) hwf' hcols (by omega)
        (by simp only [hcount]; push_cast; omega)
      refine ⟨b2, fun extra => ?_, h2, ?_⟩
      · rw [show n + 1 + extra = (n + extra) + 1 by omega, hrec, h1]
      · rw [h3]
        simp only [hcount]
        omega

theorem stacked_place {g : Game} (hwf : WellFormed g) (hst : StackedFromBottom g)
    {row col : Int} {p : String} {b : Board} (hr0 : 0 ≤ row) (hc0 : 0 ≤ col)
    (hc1 : col < g.Cols) (hp : p = "player1" ∨ p = "player2")
    (hbelow : ∀ i : Int, row < i → i < g.Rows → boardGet g.Board i col ≠ .ok "")
    (hb : boardSet g.Board row col p = .ok b) : StackedFromBottom { g with Board := b } := by
  have hpne : p ≠ "" := by rcases hp with rfl | rfl <;> decide
  intro r c s hs hne
  dsimp only at hs ⊢
  by_cases hrc : r = row ∧ c = col
  · obtain ⟨rfl, rfl⟩ := hrc
    rw [boardGet_set_same hb] at hs
    refine ⟨by rw [← Except.ok.inj hs]; exact hp, fun i hi0 hi1 => ?_⟩
    obtain ⟨t, ht⟩ := @boardGet_ok_of_shape _ _ _ hwf i c (by omega) hi1 hc0 hc1
    refine ⟨t, by rw [boardGet_set_other hb i c (by omega)]; exact ht, fun he => ?_⟩
    subst he
    exact hbelow i hi0 hi1 ht
  · rw [boardGet_set_other hb r c (by omega)] at hs
    obtain ⟨h1, h2⟩ := hst r c s hs hne
    refine ⟨h1, fun i hi0 hi1 => ?_⟩
    by_cases hic : i = row ∧ c = col
    · obtain ⟨rfl, rfl⟩ := hic
      exact ⟨p, boardGet_set_same hb, hpne⟩
    · unfold IsFilledAt
      rw [boardGet_set_other hb i c (by omega)]
      exact h2 i hi0 hi1

theorem addPrefilledLoop_stacked (rng : Nat → Nat) (count : Int) :
    ∀ (fuel k : Nat) (g : Game) (placed : Int) (g' : Game), WellFormed g →
      StackedFromBottom g → addPrefilledLoop rng count fuel k g placed = .ok g' →
      StackedFromBottom g'
  | 0, k, g, placed, g', _, hst, h => by
    rw [addPrefilledLoop] at h
    split at h
    · cases h
    · cases h; exact hst
  | fuel + 1, k, g, placed, g', hwf, hst, h => by
    by_cases hlt : placed < count
    · by_cases hcols : 0 < g.Cols
      · obtain ⟨col, hc0, hc1, hiter⟩ := addPrefilledLoop_iter rng count k hwf hcols hlt
        rcases hiter with ⟨hrec, -⟩ | ⟨row, p, b, hr0, -, hp, -, hbelow, hb, hrec⟩
        · rw [hrec fuel] at h
          exact addPrefilledLoop_stacked rng count fuel _ g placed g' hwf hst h
        · rw [hrec fuel] at h
          have hwf' : WellFormed { g with Board := b } := boardSet_shape hb hwf
          exact addPrefilledLoop_stacked rng count fuel _ { g with Board := b } _ g' hwf'
            (stacked_place hwf hst hr0 hc0 hc1 hp hbelow hb) h
      · rw [addPrefilledLoop_panic hlt fuel k (by omega)] at h
        cases h
    · rw [addPrefilledLoop_done hlt] at h
      cases h
      exact hst

theorem addPrefilledLoop_starves (rng : Nat → Nat) (count : Int) :
    ∀ (fuel k : Nat) (g : Game) (placed : Int), WellFormed g → 0 < g.Cols →
      (emptyCount g.Board : Int) < count - placed →
      addPrefilledLoop rng count fuel k g placed = .error .outOfFuel
  | 0, k, g, placed, _, _, h => by
    rw [addPrefilledLoop, if_pos (by omega)]
  | fuel + 1, k, g, placed, hwf, hcols, h => by
    obtain ⟨col, -, -, hiter⟩ :=
      addPrefilledLoop_iter rng count k hwf hcols (show placed < count by omega)
    rcases hiter with ⟨hrec, -⟩ | ⟨row, p, b, -, -, hp, hempty, -, hb, hrec⟩
    · rw [hrec fuel]
      exact addPrefilledLoop_starves rng count fuel _ g placed hwf hcols h
    · have hpne : p ≠ "" := by rcases hp with rfl | rfl <;> decide
      have hcount := emptyCount_boardSet hempty hb hpne
      have hwf' : WellFormed { g with Board := b } := boardSet_shape hb hwf
      rw [hrec fuel]
      exact addPrefilledLoop_starves rng count fuel _ { g with Board := b } _ hwf' hcols
        (by dsimp only; omega)

theorem addPrefilledLoop_exact (rng : Nat → Nat) (count : Int) :
    ∀ (fuel k : Nat) (g : Game) (placed : Int) (g' : Game), WellFormed g → placed ≤ count →
      addPrefilledLoop rng count fuel k g placed = .ok g' →
      (filledCount g'.Board : Int) = filledCount g.Board + (count - placed)
  | 0, k, g, placed, g', _, hle, h => by
    rw [addPrefilledLoop] at h
    split at h
    · cases h
    · cases h; omega
  | fuel + 1, k, g, placed, g', hwf, hle, h => by
    by_cases hlt : placed < count
    · by_cases hcols : 0 < g.Cols
      · obtain ⟨col, -, -, hiter⟩ := addPrefilledLoop_iter rng count k hwf hcols hlt
        rcases hiter with ⟨hrec, -⟩ | ⟨row, p, b, -, -, hp, hempty, -, hb, hrec⟩
        · rw [hrec fuel] at h
          exact addPrefilledLoop_exact rng count fuel _ g placed g' hwf hle h
        · rw [hrec fuel] at h
          have hpne : p ≠ "" := by rcases hp with rfl | rfl <;> decide
          have hcount := filledCount_boardSet hempty hb hpne
          have hwf' : WellFormed { g with Board := b } := boardSet_shape hb hwf
          have := addPrefilledLoop_exact rng count fuel _ { g with Board := b } _ g' hwf'
            (by omega) h
          rw [this]
          simp only [hcount]
          push_cast
          omega
      · rw [addPrefilledLoop_panic hlt fuel k (by omega)] at h
        cases h
    · rw [addPrefilledLoop_done hlt] at h
      cases h
      omega

/-! ## The state returned by `NewGame`, for every stream of draws -/

/-- C15: for all dimensions `rows, cols ≥ 0` and every stream of random draws,
`NewGame(rows, cols, ...)` returns: the same state `g` comes out for every fuel
of at least `N` loop iterations, where `N` is 3 for (6, 7), 5 for (6, 9), 7 for
(7, 8) and 0 for every other pair, so the seeding loop runs exactly `N` times
and never retries.  The board of `g` is a `rows × cols` grid with exactly `N`
non-empty cells, and the other fields are `CurrentPlayer = "player1"`,
`GameOver = false`, `Winner = ""`, `LastMove` absent, `TurnCount = 0`,
`InverseGravity = false`. -/
theorem C15_newGame_state (rows cols : Int) (hr : 0 ≤ rows) (hc : 0 ≤ cols)
    (player1 player2 : String) (rng : Nat → Nat) :
    ∃ g, (∀ fuel : Nat, getPrefilledBlocksCount rows cols ≤ fuel →
          NewGame rows cols player1 player2 rng fuel = .ok g) ∧
      BoardShape g.Board rows cols ∧
      (filledCount g.Board : Int) = getPrefilledBlocksCount rows cols ∧
      (rows = 6 ∧ cols = 7 → filledCount g.Board = 3) ∧
      (rows = 6 ∧ cols = 9 → filledCount g.Board = 5) ∧
      (rows = 7 ∧ cols = 8 → filledCount g.Board = 7) ∧
      (¬ (rows = 6 ∧ cols = 7) → ¬ (rows = 6 ∧ cols = 9) → ¬ (rows = 7 ∧ cols = 8) →
        filledCount g.Board = 0) ∧
      g.Rows = rows ∧ g.Cols = cols ∧ g.CurrentPlayer = "player1" ∧ g.Player1 = player1 ∧
      g.Player2 = player2 ∧ g.GameOver = false ∧ g.Winner = "" ∧ g.LastMove = none ∧
      g.TurnCount = 0 ∧ g.InverseGravity = false := by
  have hshape := @replicate_shape rows cols hr (fun _ => hc)
  have key : ∃ b, (∀ fuel : Nat, getPrefilledBlocksCount rows cols ≤ fuel →
        NewGame rows cols player1 player2 rng fuel =
          .ok { Rows := rows, Cols := cols, Board := b, CurrentPlayer := "player1",
                Player1 := player1, Player2 := player2, GameOver := false, Winner := "",
                LastMove := none, TurnCount := 0, InverseGravity := false }) ∧
      BoardShape b rows cols ∧
      (filledCount b : Int) = getPrefilledBlocksCount rows cols := by
    by_cases h0 : getPrefilledBlocksCount rows cols = 0
    · refine ⟨_, fun fuel _ => ?_, hshape, ?_⟩
      · simp only [NewGame, if_neg (not_lt.2 hr), show ¬ (0 < rows ∧ cols < 0) by omega,
          if_false, addPrefilledBlocks, h0, if_true]
      · rw [filledCount_replicate, h0]
        rfl
    · have hcases : (rows = 6 ∧ cols = 7 ∧ getPrefilledBlocksCount rows cols = 3) ∨
          (rows = 6 ∧ cols = 9 ∧ getPrefilledBlocksCount rows cols = 5) ∨
          (rows = 7 ∧ cols = 8 ∧ getPrefilledBlocksCount rows cols = 7) := by
        unfold getPrefilledBlocksCount at h0 ⊢
        split_ifs at h0 ⊢ with a1 a2 a3
        · exact Or.inl ⟨a1.1, a1.2, rfl⟩
        · exact Or.inr (Or.inl ⟨a2.1, a2.2, rfl⟩)
        · exact Or.inr (Or.inr ⟨a3.1, a3.2, rfl⟩)
        · exact absurd rfl h0
      have hplaces := addPrefilledLoop_places rng (getPrefilledBlocksCount rows cols)
        (getPrefilledBlocksCount rows cols).toNat 0
        { Rows := rows, Cols := cols,
          Board := List.replicate rows.toNat (List.replicate cols.toNat ""),
          CurrentPlayer := "player1", Player1 := player1, Player2 := player2,
          GameOver := false, Winner := "", LastMove := none, TurnCount := 0,
          InverseGravity := false } 0 hshape
        (by dsimp only; rcases hcases with h | h | h <;> omega)
        (by rcases hcases with h | h | h <;> omega)
        (by
          dsimp only
          rw [filledCount_replicate]
          rcases hcases with h | h | h <;> omega)
      obtain ⟨b, h1, h2, h3⟩ := hplaces
      refine ⟨b, fun fuel hfuel => ?_, h2, ?_⟩
      · have hf : fuel = (getPrefilledBlocksCount rows cols).toNat +
            (fuel - (getPrefilledBlocksCount rows cols).toNat) := by omega
        simp only [NewGame, if_neg (not_lt.2 hr), show ¬ (0 < rows ∧ cols < 0) by omega,
          if_false, addPrefilledBlocks, h0]
        rw [hf, h1]
      · dsimp only at h3
        rw [h3, filledCount_replicate]
        rcases hcases with h | h | h <;> omega
  obtain ⟨b, h1, h2, h3⟩ := key
  refine ⟨_, h1, h2, h3, ?_, ?_, ?_, ?_, rfl, rfl, rfl, rfl, rfl, rfl, rfl, rfl, rfl, rfl⟩
  · rintro ⟨rfl, rfl⟩
    have : getPrefilledBlocksCount 6 7 = 3 := by decide
    dsimp only at h3 ⊢
    omega
  · rintro ⟨rfl, rfl⟩
    have : getPrefilledBlocksCount 6 9 = 5 := by decide
    dsimp only at h3 ⊢
    omega
  · rintro ⟨rfl, rfl⟩
    have : getPrefilledBlocksCount 7 8 = 7 := by decide
    dsimp only at h3 ⊢
    omega
  · intro a1 a2 a3
    have : getPrefilledBlocksCount rows cols = 0 := by
      simp only [getPrefilledBlocksCount, a1, a2, a3, if_false]
    dsimp only at h3 ⊢
    omega

theorem C15_newGame_state_witness :
    (0 : Int) ≤ 6 ∧ (0 : Int) ≤ 7 ∧
      NewGame 6 7 "Ann" "Bob" (fun n => n / 2 + n) 3 = .ok samplePrefilled ∧
      BoardShape samplePrefilled.Board 6 7 ∧ filledCount samplePrefilled.Board = 3 := by
  obtain ⟨g, h1, h2, -, h3, -⟩ :=
    C15_newGame_state 6 7 (by decide) (by decide) "Ann" "Bob" (fun n => n / 2 + n)
  have hnew : NewGame 6 7 "Ann" "Bob" (fun n => n / 2 + n) 3 = .ok samplePrefilled := by
    decide
  have := h1 3 (by decide)
  rw [hnew] at this
  obtain rfl := Except.ok.inj this
  exact ⟨by decide, by decide, hnew, h2, h3 ⟨rfl, rfl⟩⟩

/-- C16: for every stream of random draws, in the board returned by `NewGame`
every non-empty cell holds `"player1"` or `"player2"`, and every cell below it
in the same column (larger row index) is non-empty: each pre-filled piece went
to the lowest empty row of its column. -/
theorem C16_prefill_stacked (rows cols : Int) (player1 player2 : String) (rng : Nat → Nat)
    (fuel : Nat) (g : Game) (hnew : NewGame rows cols player1 player2 rng fuel = .ok g) :
    StackedFromBottom g ∧
      ∀ (r c : Int) (s : String), boardGet g.Board r c = .ok s → s ≠ "" →
        (s = "player1" ∨ s = "player2") ∧
          ∀ i : Int, r < i → i < g.Rows → IsFilledAt g.Board i c := by
  have hst : StackedFromBottom g := by
    unfold NewGame at hnew
    split at hnew
    · cases hnew
    · split at hnew
      · cases hnew
      · rename_i h1 h2
        have hshape := @replicate_shape rows cols (by omega) (by omega)
        have hst0 : StackedFromBottom
            { Rows := rows, Cols := cols,
              Board := List.replicate rows.toNat (List.replicate cols.toNat ""),
              CurrentPlayer := "player1", Player1 := player1, Player2 := player2,
              GameOver := false, Winner := "", LastMove := none, TurnCount := 0,
              InverseGravity := false } := by
          intro r c s hs hne
          exact absurd (boardGet_replicate_empty hs) hne
        dsimp only at hnew
        unfold addPrefilledBlocks at hnew
        split at hnew
        · cases hnew
          exact hst0
        · exact addPrefilledLoop_stacked rng _ fuel 0 _ 0 g (by exact hshape) (by exact hst0) hnew
  exact ⟨hst, hst⟩

theorem C16_prefill_stacked_witness :
    NewGame 6 7 "Ann" "Bob" (fun n => n / 2 + n) 3 = .ok samplePrefilled ∧
      StackedFromBottom samplePrefilled ∧
      boardGet samplePrefilled.Board 5 3 = .ok "player1" :=
  ⟨by decide,
    (C16_prefill_stacked 6 7 "Ann" "Bob" (fun n => n / 2 + n) 3 samplePrefilled
      (by decide)).1,
    by decide⟩

/-! ## The seeding loop has no capacity guard -/

/-- C17 (as amended): `addPrefilledBlocks` does not cap its count.  On a board
of `Rows × Cols` cells with at least one column, for every requested count
greater than the number of cells (more generally, than the number of empty
cells) and every stream of random draws the loop never ends: every fuel is
spent.  Whenever `addPrefilledBlocks` does return, for a count `≥ 0`, it has
placed exactly `count` markers, and `count` is at most the number of empty
cells, hence at most `Rows * Cols`. -/
theorem C17_seeding_has_no_cap (g : Game) (hwf : WellFormed g) (hcols : 0 < g.Cols)
    (count : Int) (rng : Nat → Nat) :
    (g.Rows * g.Cols < count →
        ∀ fuel : Nat, addPrefilledBlocks g count rng fuel = .error .outOfFuel) ∧
      ((emptyCount g.Board : Int) < count →
        ∀ fuel : Nat, addPrefilledBlocks g count rng fuel = .error .outOfFuel) ∧
      (∀ (fuel : Nat) (g' : Game), 0 ≤ count →
        addPrefilledBlocks g count rng fuel = .ok g' →
        (filledCount g'.Board : Int) = filledCount g.Board + count ∧
          count ≤ emptyCount g.Board ∧ count ≤ g.Rows * g.Cols) := by
  have hle := emptyCount_le_of_shape hwf
  have hstarve : (emptyCount g.Board : Int) < count →
      ∀ fuel : Nat, addPrefilledBlocks g count rng fuel = .error .outOfFuel := by
    intro h fuel
    have hne : count ≠ 0 := by omega
    rw [addPrefilledBlocks, if_neg hne]
    exact addPrefilledLoop_starves rng count fuel 0 g 0 hwf hcols (by omega)
  refine ⟨fun h => hstarve (by omega), hstarve, fun fuel g' h0 h => ?_⟩
  have hcap : count ≤ emptyCount g.Board := by
    by_contra hc
    rw [hstarve (by omega) fuel] at h
    cases h
  refine ⟨?_, hcap, by omega⟩
  rw [addPrefilledBlocks] at h
  split at h
  · rename_i hz
    cases h
    omega
  · have := addPrefilledLoop_exact rng count fuel 0 g 0 g' hwf h0 h
    omega

theorem C17_seeding_has_no_cap_witness :
    WellFormed sampleFresh ∧ 0 < sampleFresh.Cols ∧
      sampleFresh.Rows * sampleFresh.Cols < 17 ∧
      (∀ fuel : Nat, addPrefilledBlocks sampleFresh 17 (fun k => k) fuel = .error .outOfFuel) ∧
      ∀ (fuel : Nat) (g' : Game),
        addPrefilledBlocks sampleFresh 3 (fun k => k) fuel = .ok g' →
        (filledCount g'.Board : Int) = filledCount sampleFresh.Board + 3 :=
  ⟨by decide, by decide, by decide,
    (C17_seeding_has_no_cap sampleFresh (by decide) (by decide) 17 (fun k => k)).1 (by decide),
    fun fuel g' h =>
      ((C17_seeding_has_no_cap sampleFresh (by decide) (by decide) 3 (fun k => k)).2.2
        fuel g' (by decide) h).1⟩

theorem C17_cap_counterexample :
    ¬ ∃ (fuel : Nat) (g' : Game),
      addPrefilledBlocks sampleFresh 17 (fun k => k) fuel = .ok g' := by
  rintro ⟨fuel, g', h⟩
  have hwf : WellFormed sampleFresh := by decide
  rw [addPrefilledBlocks, if_neg (by decide),
    addPrefilledLoop_starves (fun k => k) 17 fuel 0 sampleFresh 0 hwf (by decide)
      (by decide)] at h
  cases h

/-! ## The display names play no part in a move -/

theorem checkDrawRows_congr {g1 g2 : Game} (hC : g1.Cols = g2.Cols)
    (hB : g1.Board = g2.Board) :
    ∀ (k row : Nat), checkDrawRows g1 row k = checkDrawRows g2 row k
  | 0, _ => rfl
  | k + 1, row => by
    rw [checkDrawRows, checkDrawRows, hC, hB]
    simp only [checkDrawRows_congr hC hB k]

theorem checkDraw_congr {g1 g2 : Game} (hR : g1.Rows = g2.Rows) (hC : g1.Cols = g2.Cols)
    (hB : g1.Board = g2.Board) : checkDraw g1 = checkDraw g2 := by
  unfold checkDraw
  rw [hR]
  exact checkDrawRows_congr hC hB _ _

theorem finishMove_withNames {g g' : Game} {row col : Int} (a b : String)
    (h : finishMove g row col = .ok g') :
    finishMove (withNames g a b) row col = .ok (withNames g' a b) := by
  have hw : checkWin (withNames g a b) row col = checkWin g row col :=
    @checkWin_congr (withNames g a b) g rfl rfl rfl row col
  have hd : checkDraw (withNames g a b) = checkDraw g :=
    @checkDraw_congr (withNames g a b) g rfl rfl rfl
  unfold finishMove
  rw [hw, hd]
  rcases finishMove_cases h with ⟨h1, rfl⟩ | ⟨h1, h2, rfl⟩ | ⟨h1, h2, rfl⟩
  · rw [h1]
    rfl
  · rw [h1, h2]
    rfl
  · rw [h1, h2]
    dsimp only
    show (if g.CurrentPlayer = "player1" then _ else _) = _
    split <;> rfl

theorem afterPlacement_withNames (g : Game) (bd : Board) (row col : Int) (a b : String) :
    afterPlacement (withNames g a b) bd row col = withNames (afterPlacement g bd row col) a b := by
  unfold afterPlacement withNames
  dsimp only
  split <;> rfl

theorem DropPiece_withNames {g g' : Game} {col : Int} {e : Option DropError} (a b : String)
    (h : DropPiece g col = .ok (g', e)) :
    DropPiece (withNames g a b) col = .ok (withNames g' a b, e) := by
  cases e with
  | some e =>
    obtain ⟨rfl, hcase⟩ := DropPiece_failure h
    rcases hcase with ⟨rfl, hgo⟩ | ⟨rfl, hgo, hc⟩ | ⟨rfl, hgo, hc0, hc1, hl⟩
    · exact @DropPiece_gameOver (withNames g' a b) hgo col
    · exact @DropPiece_invalid (withNames g' a b) hgo col hc
    · rw [@DropPiece_search (withNames g' a b) hgo col hc0 hc1]
      have : landingRow (withNames g' a b) col = landingRow g' col := rfl
      rw [this, hl]
      rfl
  | none =>
    obtain ⟨hgo, hc0, hc1, row, bd, hl, hrow, hb, hf⟩ := DropPiece_success h
    rw [@DropPiece_search (withNames g a b) hgo col hc0 hc1]
    have : landingRow (withNames g a b) col = landingRow g col := rfl
    rw [this, hl]
    dsimp only
    rw [if_neg hrow]
    have hb' : boardSet (withNames g a b).Board row col (withNames g a b).CurrentPlayer =
        .ok bd := hb
    rw [hb']
    dsimp only
    rw [afterPlacement_withNames, finishMove_withNames a b hf]

theorem playSeq_withNames (a b : String) :
    ∀ (calls : List Int) (g g' : Game) (es : List (Option DropError)),
      playSeq g calls = .ok (g', es) →
      playSeq (withNames g a b) calls = .ok (withNames g' a b, es)
  | [], g, g', es, h => by
    simp only [playSeq, Except.ok.injEq, Prod.mk.injEq] at h
    obtain ⟨rfl, rfl⟩ := h
    rfl
  | c :: rest, g, g', es, h => by
    obtain ⟨g1, e, es', hd, hp, rfl⟩ := playSeq_cons h
    rw [playSeq, DropPiece_withNames a b hd]
    dsimp only
    rw [playSeq_withNames a b rest g1 g' es' hp]

theorem NewGame_emptyGame {rows cols : Int} {player1 player2 : String} {rng : Nat → Nat}
    {fuel : Nat} {g : Game} (h : NewGame rows cols player1 player2 rng fuel = .ok g)
    (h0 : getPrefilledBlocksCount rows cols = 0) :
    g = withNames (emptyGame rows cols "Ann" "Bob") player1 player2 := by
  have hb := NewGame_no_prefill h h0
  obtain ⟨b, -, rfl⟩ := NewGame_state h
  dsimp only at hb
  rw [hb]
  rfl

/-! ## A draw recorded on a board that holds four aligned markers -/

/-- C12 (evaluation of the code at the failing input): `NewGame(6, 9, "Ann",
"Bob")` on the draws `seedFour` pre-fills the bottom row with four aligned
`"player1"` markers; the 49 calls `drawCalls` then all succeed, fill the board
and record `Winner = "draw"`, although the cells (5, 0), (5, 1), (5, 2), (5, 3)
still hold four contiguous `"player1"` markers. -/
theorem C12_draw_despite_four :
    NewGame 6 9 "Ann" "Bob" seedFour 5 = .ok samplePrefilledFour ∧
      FourThrough samplePrefilledFour 5 0 "player1" ∧
      playSeq samplePrefilledFour drawCalls =
        .ok (sampleDrawWithFour, List.replicate 49 none) ∧
      sampleDrawWithFour.GameOver = true ∧ sampleDrawWithFour.Winner = "draw" ∧
      checkDraw sampleDrawWithFour = .ok true ∧
      FourThrough sampleDrawWithFour 5 0 "player1" := by
  refine ⟨by decide, ?_, by decide, rfl, rfl, by decide, ?_⟩
  · exact ⟨(0, 1), by decide, 0, le_refl _, by decide,
      fun j h0 h3 => by interval_cases j <;> decide⟩
  · exact ⟨(0, 1), by decide, 0, le_refl _, by decide,
      fun j h0 h3 => by interval_cases j <;> decide⟩

/-! ## Filling one column of a board of six rows -/

set_option maxRecDepth 100000 in
theorem six_drops_check :
    ∀ cols ∈ ([4, 5, 6, 8, 10] : List Int), ∀ c ∈ ([0, 1, 2, 3, 4, 5, 6, 7, 8, 9] : List Int),
      c < cols →
      playSeq (emptyGame 6 cols "Ann" "Bob") [c, c, c, c] =
          .ok (stateAfter (emptyGame 6 cols "Ann" "Bob") [c, c, c, c], List.replicate 4 none) ∧
        IsEmptyAt (stateAfter (emptyGame 6 cols "Ann" "Bob") [c, c, c, c]).Board 0 c ∧
        IsEmptyAt (stateAfter (emptyGame 6 cols "Ann" "Bob") [c, c, c, c]).Board 1 c ∧
        DropPiece (stateAfter (emptyGame 6 cols "Ann" "Bob") [c, c, c, c]) c =
          .ok (stateAfter (emptyGame 6 cols "Ann" "Bob") [c, c, c, c, c], none) ∧
        playSeq (emptyGame 6 cols "Ann" "Bob") [c, c, c, c, c, c] =
          .ok (stateAfter (emptyGame 6 cols "Ann" "Bob") [c, c, c, c, c, c],
            List.replicate 6 none) ∧
        (∀ r ∈ ([0, 1, 2, 3, 4, 5] : List Int),
          ¬ IsEmptyAt (stateAfter (emptyGame 6 cols "Ann" "Bob") [c, c, c, c, c, c]).Board r c) ∧
        (stateAfter (emptyGame 6 cols "Ann" "Bob") [c, c, c, c, c, c]).GameOver = false ∧
        (stateAfter (emptyGame 6 cols "Ann" "Bob") [c, c, c, c, c, c]).Winner = "" ∧
        DropPiece (stateAfter (emptyGame 6 cols "Ann" "Bob") [c, c, c, c, c, c]) c =
          .ok (stateAfter (emptyGame 6 cols "Ann" "Bob") [c, c, c, c, c, c],
            some DropError.columnFull) := by
  decide

/-- C19 (as amended): on a fresh game with 6 rows and no pre-fill (`cols` is 4,
5, 6, 8 or 10, the sizes a caller can ask for), four consecutive successful
`DropPiece` calls into one column do not fill it: rows 0 and 1 are still empty
and the fifth call succeeds.  After six consecutive successful calls the column is full
and no win is recorded (`GameOver = false`, `Winner = ""`); a seventh call into
the same column returns the column-full error and leaves the state unchanged. -/
theorem C19_six_drops_fill_column (cols : Int)
    (hcols : cols = 4 ∨ cols = 5 ∨ cols = 6 ∨ cols = 8 ∨ cols = 10)
    (player1 player2 : String) (rng : Nat → Nat) (fuel : Nat) (g0 : Game)
    (hnew : NewGame 6 cols player1 player2 rng fuel = .ok g0)
    (c : Int) (hc0 : 0 ≤ c) (hc : c < cols) :
    ∃ g4 g5 g6, playSeq g0 [c, c, c, c] = .ok (g4, List.replicate 4 none) ∧
      IsEmptyAt g4.Board 0 c ∧ IsEmptyAt g4.Board 1 c ∧ DropPiece g4 c = .ok (g5, none) ∧
      playSeq g0 [c, c, c, c, c, c] = .ok (g6, List.replicate 6 none) ∧
      (∀ r : Int, 0 ≤ r → r < 6 → ¬ IsEmptyAt g6.Board r c) ∧
      g6.GameOver = false ∧ g6.Winner = "" ∧
      DropPiece g6 c = .ok (g6, some DropError.columnFull) := by
  have hpre : getPrefilledBlocksCount 6 cols = 0 := by
    rcases hcols with rfl | rfl | rfl | rfl | rfl <;> decide
  have hmemc : cols ∈ ([4, 5, 6, 8, 10] : List Int) := by
    simp only [List.mem_cons, List.mem_singleton]
    tauto
  have hmem : c ∈ ([0, 1, 2, 3, 4, 5, 6, 7, 8, 9] : List Int) := by
    simp only [List.mem_cons, List.mem_singleton]
    rcases hcols with rfl | rfl | rfl | rfl | rfl <;> omega
  obtain ⟨k1, k0, k2, k3, k4, k5, k6, k7, k8⟩ := six_drops_check cols hmemc c hmem hc
  rw [NewGame_emptyGame hnew hpre]
  refine ⟨_, _, _, playSeq_withNames player1 player2 _ _ _ _ k1, k0, k2,
    DropPiece_withNames player1 player2 k3, playSeq_withNames player1 player2 _ _ _ _ k4,
    fun r hr0 hr => ?_, k6, k7, DropPiece_withNames player1 player2 k8⟩
  apply k5 r
  simp only [List.mem_cons, List.mem_singleton]
  omega

theorem C19_six_drops_fill_column_witness :
    NewGame 6 8 "Ann" "Bob" (fun _ => 0) 0 = .ok sampleWide ∧
      ∃ g6, playSeq sampleWide [0, 0, 0, 0, 0, 0] = .ok (g6, List.replicate 6 none) ∧
        g6.GameOver = false ∧ DropPiece g6 0 = .ok (g6, some DropError.columnFull) := by
  obtain ⟨g4, g5, g6, -, -, -, -, h4, -, h6, -, h8⟩ :=
    C19_six_drops_fill_column 8 (by decide) "Ann" "Bob" (fun _ => 0) 0 sampleWide (by decide)
      0 (by decide) (by decide)
  exact ⟨by decide, g6, h4, h6, h8⟩

theorem C19_fifth_drop_counterexample :
    NewGame 6 8 "Ann" "Bob" (fun _ => 0) 0 = .ok sampleWide ∧
      playSeq sampleWide [0, 0, 0, 0] = .ok (sampleWideFourSame, [none, none, none, none]) ∧
      IsEmptyAt sampleWideFourSame.Board 0 0 ∧ IsEmptyAt sampleWideFourSame.Board 1 0 ∧
      DropPiece sampleWideFourSame 0 = .ok (sampleWideFiveSame, none) := by
  decide

/-! ## The scenario 0, 1, 1, 2, 2, 3, 3 -/

set_option maxRecDepth 100000 in
theorem seven_calls_check :
    ∀ rows ∈ ([4, 5, 6, 7, 8, 9, 10] : List Int), ∀ cols ∈ ([4, 5, 6, 7, 8, 9, 10] : List Int),
      getPrefilledBlocksCount rows cols = 0 →
      playSeq (emptyGame rows cols "Ann" "Bob") [0, 1, 1, 2, 2, 3, 3] =
          .ok (stateAfter (emptyGame rows cols "Ann" "Bob") [0, 1, 1, 2, 2, 3, 3],
            List.replicate 7 none) ∧
        (stateAfter (emptyGame rows cols "Ann" "Bob") [0, 1, 1, 2, 2, 3, 3]).GameOver = false ∧
        (stateAfter (emptyGame rows cols "Ann" "Bob") [0, 1, 1, 2, 2, 3, 3]).Winner = "" ∧
        (stateAfter (emptyGame rows cols "Ann" "Bob") [0, 1, 1, 2, 2, 3, 3]).CurrentPlayer =
          "player2" ∧
        (stateAfter (emptyGame rows cols "Ann" "Bob") [0, 1, 1, 2, 2, 3, 3]).InverseGravity =
          true ∧
        (stateAfter (emptyGame rows cols "Ann" "Bob") [0, 1, 1, 2, 2, 3, 3]).LastMove =
          some { Row := 1, Col := 3 } ∧
        boardGet (stateAfter (emptyGame rows cols "Ann" "Bob") [0, 1, 1, 2, 2, 3, 3]).Board
          (rows - 1) 0 = .ok "player1" ∧
        boardGet (stateAfter (emptyGame rows cols "Ann" "Bob") [0, 1, 1, 2, 2, 3, 3]).Board
          (rows - 2) 1 = .ok "player1" ∧
        boardGet (stateAfter (emptyGame rows cols "Ann" "Bob") [0, 1, 1, 2, 2, 3, 3]).Board
          (rows - 2) 2 = .ok "player1" ∧
        boardGet (stateAfter (emptyGame rows cols "Ann" "Bob") [0, 1, 1, 2, 2, 3, 3]).Board
          1 3 = .ok "player1" ∧
        boardGet (stateAfter (emptyGame rows cols "Ann" "Bob") [0, 1, 1, 2, 2, 3, 3]).Board
          0 3 = .ok "player2" ∧
        IsEmptyAt (stateAfter (emptyGame rows cols "Ann" "Bob") [0, 1, 1, 2, 2, 3, 3]).Board
          (rows - 1) 3 := by
  decide

/-- C20 (as amended): on a fresh game without pre-fill (every size from 4 × 4 to
10 × 10 other than the three presets), the calls `DropPiece` on columns 0, 1, 1,
2, 2, 3, 3 succeed at every step but do not end the game: the gravity is
inverted after the fifth move, so the sixth and seventh pieces land in rows 0
and 1 of column 3, whose bottom cell stays empty.  The pieces of `"player1"` are
at `(rows-1, 0)`, `(rows-2, 1)`, `(rows-2, 2)` and `(1, 3)`, not aligned; the
final state has `GameOver = false`, `Winner = ""` and `"player2"` to move. -/
theorem C20_scenario_outcome (rows cols : Int) (hrows : 4 ≤ rows ∧ rows ≤ 10)
    (hcols : 4 ≤ cols ∧ cols ≤ 10) (hpre : getPrefilledBlocksCount rows cols = 0)
    (player1 player2 : String) (rng : Nat → Nat) (fuel : Nat) (g0 : Game)
    (hnew : NewGame rows cols player1 player2 rng fuel = .ok g0) :
    ∃ g, playSeq g0 [0, 1, 1, 2, 2, 3, 3] = .ok (g, List.replicate 7 none) ∧
      g.GameOver = false ∧ g.Winner = "" ∧ g.CurrentPlayer = "player2" ∧
      g.InverseGravity = true ∧ g.LastMove = some { Row := 1, Col := 3 } ∧
      boardGet g.Board (rows - 1) 0 = .ok "player1" ∧
      boardGet g.Board (rows - 2) 1 = .ok "player1" ∧
      boardGet g.Board (rows - 2) 2 = .ok "player1" ∧
      boardGet g.Board 1 3 = .ok "player1" ∧ boardGet g.Board 0 3 = .ok "player2" ∧
      IsEmptyAt g.Board (rows - 1) 3 := by
  have hr : rows ∈ ([4, 5, 6, 7, 8, 9, 10] : List Int) := by
    simp only [List.mem_cons, List.mem_singleton]
    omega
  have hc : cols ∈ ([4, 5, 6, 7, 8, 9, 10] : List Int) := by
    simp only [List.mem_cons, List.mem_singleton]
    omega
  obtain ⟨k1, k2, k3, k4, k5, k6, k7, k8, k9, k10, k11, k12⟩ :=
    seven_calls_check rows hr cols hc hpre
  rw [NewGame_emptyGame hnew hpre]
  exact ⟨_, playSeq_withNames player1 player2 _ _ _ _ k1, k2, k3, k4, k5, k6, k7, k8, k9,
    k10, k11, k12⟩

theorem C20_scenario_outcome_witness :
    NewGame 6 8 "Ann" "Bob" (fun _ => 0) 0 = .ok sampleWide ∧
      ∃ g, playSeq sampleWide [0, 1, 1, 2, 2, 3, 3] = .ok (g, List.replicate 7 none) ∧
        g.GameOver = false ∧ g.Winner = "" := by
  obtain ⟨g, h1, h2, h3, -⟩ :=
    C20_scenario_outcome 6 8 (by decide) (by decide) (by decide) "Ann" "Bob" (fun _ => 0) 0
      sampleWide (by decide)
  exact ⟨by decide, g, h1, h2, h3⟩

theorem C20_no_win_counterexample :
    NewGame 6 8 "Ann" "Bob" (fun _ => 0) 0 = .ok sampleWide ∧
      playSeq sampleWide [0, 1, 1, 2, 2, 3, 3] =
        .ok (sampleWideSeven, [none, none, none, none, none, none, none]) ∧
      sampleWideSeven.GameOver = false ∧ sampleWideSeven.Winner = "" ∧
      checkWin sampleWideSeven 1 3 = .ok false := by
  decide

/-! ## A scan counts the run it walks -/

theorem countLoop_eq_of_run {g : Game} {dRow dCol : Int} {p : String} {fuel : Nat}
    {r c count n : Int} (h : countLoop g dRow dCol p fuel r c count = .ok n) (len : Int)
    (hlen : 0 ≤ len)
    (hrun : ∀ j : Int, 0 ≤ j → j < len → HoldsAt g (r + j * dRow) (c + j * dCol) p)
    (hstop : ¬ HoldsAt g (r + len * dRow) (c + len * dCol) p) : n = count + len := by
  obtain ⟨m, hn, h1, h2⟩ := countLoop_run g dRow dCol p fuel r c count n h
  rcases lt_trichotomy (m : Int) len with hlt | heq | hgt
  · exact absurd (hrun m (by omega) hlt) h2
  · rw [hn, heq]
  · exact absurd (h1 len hlen hgt) hstop

theorem run_counts {g : Game} (hwf : WellFormed g) {p : String} {d : Int × Int}
    (hd : d.1 ≠ 0 ∨ d.2 ≠ 0) {r0 c0 len : Int} (hrun : MaximalRun g p d r0 c0 len)
    {i : Int} (hi0 : 0 ≤ i) (hi : i < len) :
    countDirection g (r0 + i * d.1) (c0 + i * d.2) d.1 d.2 p = .ok (len - 1 - i) ∧
      countDirection g (r0 + i * d.1) (c0 + i * d.2) (-d.1) (-d.2) p = .ok i := by
  obtain ⟨h1, h2, h3⟩ := hrun
  obtain ⟨a, ha⟩ := countDirection_total hwf (r0 + i * d.1) (c0 + i * d.2) d.1 d.2 p hd
  obtain ⟨b, hb⟩ := countDirection_total hwf (r0 + i * d.1) (c0 + i * d.2) (-d.1) (-d.2) p
    (by omega)
  have ea : a = 0 + (len - 1 - i) := by
    apply countLoop_eq_of_run ha (len - 1 - i) (by omega)
    · intro j hj0 hj1
      have := h1 (i + 1 + j) (by omega) (by omega)
      have e1 : r0 + i * d.1 + d.1 + j * d.1 = r0 + (i + 1 + j) * d.1 := by ring
      have e2 : c0 + i * d.2 + d.2 + j * d.2 = c0 + (i + 1 + j) * d.2 := by ring
      rwa [e1, e2]
    · have e1 : r0 + i * d.1 + d.1 + (len - 1 - i) * d.1 = r0 + len * d.1 := by ring
      have e2 : c0 + i * d.2 + d.2 + (len - 1 - i) * d.2 = c0 + len * d.2 := by ring
      rwa [e1, e2]
  have eb : b = 0 + i := by
    apply countLoop_eq_of_run hb i hi0
    · intro j hj0 hj1
      have := h1 (i - 1 - j) (by omega) (by omega)
      have e1 : r0 + i * d.1 + -d.1 + j * -d.1 = r0 + (i - 1 - j) * d.1 := by ring
      have e2 : c0 + i * d.2 + -d.2 + j * -d.2 = c0 + (i - 1 - j) * d.2 := by ring
      rwa [e1, e2]
    · have e1 : r0 + i * d.1 + -d.1 + i * -d.1 = r0 - d.1 := by ring
      have e2 : c0 + i * d.2 + -d.2 + i * -d.2 = c0 - d.2 := by ring
      rwa [e1, e2]
  rw [ha, hb, ea, eb]
  simp

theorem checkWinLoop_opposite {g : Game} (hwf : WellFormed g) (row col : Int) (p : String) :
    ∀ dirs : List (Int × Int), (∀ d ∈ dirs, d.1 ≠ 0 ∨ d.2 ≠ 0) →
      checkWinLoop g row col p (dirs.map (fun d => (-d.1, -d.2))) =
        checkWinLoop g row col p dirs
  | [], _ => rfl
  | d :: rest, hd => by
    have hd1 := hd d (List.mem_cons_self _ _)
    obtain ⟨a, ha⟩ := countDirection_total hwf row col d.1 d.2 p hd1
    obtain ⟨b, hb⟩ := countDirection_total hwf row col (-d.1) (-d.2) p (by omega)
    have ih := checkWinLoop_opposite hwf row col p rest
      (fun d' hd' => hd d' (List.mem_cons_of_mem _ hd'))
    simp only [List.map_cons, checkWinLoop, neg_neg, ha, hb, ih]
    have : 1 + b + a = 1 + a + b := by ring
    rw [this]

theorem checkWin_of_long_run {g : Game} (hwf : WellFormed g) {p : String} {d : Int × Int}
    (hd : d ∈ directions) {r0 c0 len : Int} (hrun : MaximalRun g p d r0 c0 len)
    (hlen : 4 ≤ len) {i : Int} (hi0 : 0 ≤ i) (hi : i < len) :
    checkWin g (r0 + i * d.1) (c0 + i * d.2) = .ok true := by
  have hcell := hrun.1 i hi0 hi
  obtain ⟨w, hw, hiff⟩ := checkWinLoop_iff hwf hcell directions directions_nonzero
  rw [checkWin, hcell.2.2.2.2]
  dsimp only
  rw [hw]
  congr 1
  rw [hiff]
  refine ⟨d, hd, min 3 i, by omega, by omega, fun j hj0 hj3 => ?_⟩
  have := hrun.1 (i + (j - min 3 i)) (by omega) (by omega)
  have e1 : r0 + i * d.1 + (j - min 3 i) * d.1 = r0 + (i + (j - min 3 i)) * d.1 := by ring
  have e2 : c0 + i * d.2 + (j - min 3 i) * d.2 = c0 + (i + (j - min 3 i)) * d.2 := by ring
  rwa [e1, e2]

/-- C21 (as amended): on a board of `Rows × Cols` cells, for each of the four
direction vectors `d` of `checkWin` (`(0, 1)`, `(1, 0)`, `(1, 1)`, `(1, -1)`) and
two cells (indices `i` and `i'`) of the same maximal contiguous
run of `p` along `d`, of length `len`: the scan along `d` counts the
`len - 1 - i` cells after the cell and the scan along `-d` the `i` cells before
it, so the total `1 + countDirection(cell, d) + countDirection(cell, -d)` is
`len` at both cells, whichever sub-scan contributes; the test `total ≥ 4` of
that direction therefore has the same answer at both cells, and `checkWin` is
true at every cell of a run of at least four markers.  Swapping `d` with `-d`
changes neither the total nor the result of `checkWin`. -/
theorem C21_run_total (g : Game) (hwf : WellFormed g) (p : String) (d : Int × Int)
    (hd : d = (0, 1) ∨ d = (1, 0) ∨ d = (1, 1) ∨ d = (1, -1)) (r0 c0 len : Int)
    (hrun : MaximalRun g p d r0 c0 len)
    (i i' : Int) (hi0 : 0 ≤ i) (hi : i < len) (hi0' : 0 ≤ i') (hi' : i' < len) :
    ∃ a b a' b' : Int,
      countDirection g (r0 + i * d.1) (c0 + i * d.2) d.1 d.2 p = .ok a ∧
      countDirection g (r0 + i * d.1) (c0 + i * d.2) (-d.1) (-d.2) p = .ok b ∧
      countDirection g (r0 + i' * d.1) (c0 + i' * d.2) d.1 d.2 p = .ok a' ∧
      countDirection g (r0 + i' * d.1) (c0 + i' * d.2) (-d.1) (-d.2) p = .ok b' ∧
      a = len - 1 - i ∧ b = i ∧ 1 + a + b = len ∧ 1 + a' + b' = 1 + a + b ∧
      (1 + a + b ≥ 4 ↔ 1 + a' + b' ≥ 4) ∧
      (4 ≤ len → checkWin g (r0 + i * d.1) (c0 + i * d.2) = .ok true ∧
        checkWin g (r0 + i' * d.1) (c0 + i' * d.2) = .ok true) ∧
      1 + b + a = 1 + a + b ∧
      checkWinLoop g (r0 + i * d.1) (c0 + i * d.2) p oppositeDirections =
        checkWinLoop g (r0 + i * d.1) (c0 + i * d.2) p directions := by
  have hd := (mem_directions_iff d).2 hd
  have hnz := directions_nonzero d hd
  obtain ⟨h1, h2⟩ := run_counts hwf hnz hrun hi0 hi
  obtain ⟨h1', h2'⟩ := run_counts hwf hnz hrun hi0' hi'
  refine ⟨_, _, _, _, h1, h2, h1', h2', rfl, rfl, by ring, by ring, ?_,
    fun hlen => ⟨checkWin_of_long_run hwf hd hrun hlen hi0 hi,
      checkWin_of_long_run hwf hd hrun hlen hi0' hi'⟩, by ring,
    checkWinLoop_opposite hwf _ _ p directions directions_nonzero⟩
  constructor <;> intro h <;> omega

theorem sampleTenthWon_run : MaximalRun sampleTenthWon "player2" (0, 1) 0 2 2 := by
  refine ⟨fun j h0 h1 => ?_, by decide, by decide⟩
  interval_cases j <;> decide

theorem C21_run_total_witness :
    WellFormed sampleTenthWon ∧ MaximalRun sampleTenthWon "player2" (0, 1) 0 2 2 ∧
      countDirection sampleTenthWon 0 2 0 1 "player2" = .ok 1 ∧
      countDirection sampleTenthWon 0 2 0 (-1) "player2" = .ok 0 ∧
      countDirection sampleTenthWon 0 3 0 1 "player2" = .ok 0 ∧
      countDirection sampleTenthWon 0 3 0 (-1) "player2" = .ok 1 := by
  obtain ⟨a, b, a', b', h1, h2, h3, h4, rfl, rfl, -⟩ :=
    C21_run_total sampleTenthWon (by decide) "player2" (0, 1) (by decide) 0 2 2
      sampleTenthWon_run 0 1 (by decide) (by decide) (by decide) (by decide)
  refine ⟨by decide, sampleTenthWon_run, ?_, ?_, by decide, by decide⟩
  · simpa using h1
  · simpa using h2

/-- The answer of `checkWin` is not the same at every cell of a run: after the
calls 1, 3, 2, 3, 1, 3, 0, 2, 0, 3 on a fresh 4 × 4 game the cells (0, 2) and
(0, 3) are a maximal horizontal run of `"player2"`, yet `checkWin` is false at
(0, 2) and true at (0, 3), where column 3 holds four markers of `"player2"`. -/
theorem C21_checkWin_differs_counterexample :
    playSeq sampleFresh [1, 3, 2, 3, 1, 3, 0, 2, 0, 3] =
        .ok (sampleTenthWon, List.replicate 10 none) ∧
      MaximalRun sampleTenthWon "player2" (0, 1) 0 2 2 ∧
      checkWin sampleTenthWon 0 2 = .ok false ∧ checkWin sampleTenthWon 0 3 = .ok true :=
  ⟨by decide, sampleTenthWon_run, by decide, by decide⟩

/-! ## No four aligned markers while the game goes on -/

theorem holdsAt_congr {g1 g2 : Game} (hR : g1.Rows = g2.Rows) (hC : g1.Cols = g2.Cols)
    (hB : g1.Board = g2.Board) (r c : Int) (p : String) :
    HoldsAt g1 r c p ↔ HoldsAt g2 r c p := by
  unfold HoldsAt
  rw [hR, hC, hB]

theorem fourThrough_congr {g1 g2 : Game} (hR : g1.Rows = g2.Rows) (hC : g1.Cols = g2.Cols)
    (hB : g1.Board = g2.Board) (row col : Int) (p : String) :
    FourThrough g1 row col p ↔ FourThrough g2 row col p := by
  unfold FourThrough
  simp only [holdsAt_congr hR hC hB]

theorem noFour_congr {g1 g2 : Game} (hR : g1.Rows = g2.Rows) (hC : g1.Cols = g2.Cols)
    (hB : g1.Board = g2.Board) : NoFour g1 ↔ NoFour g2 := by
  unfold NoFour FourLine
  simp only [holdsAt_congr hR hC hB]

theorem checkWin_fourThrough {g : Game} (hwf : WellFormed g) {row col : Int} {p : String}
    (hcell : HoldsAt g row col p) :
    (checkWin g row col = .ok true → FourThrough g row col p) ∧
      (checkWin g row col = .ok false → ¬ FourThrough g row col p) := by
  obtain ⟨w, hw, hiff⟩ := checkWinLoop_iff hwf hcell directions directions_nonzero
  rw [← fourThrough_iff_directions] at hiff
  have hcw : checkWin g row col = .ok w := by
    rw [checkWin, hcell.2.2.2.2]
    exact hw
  rw [hcw]
  constructor
  · intro h
    exact hiff.1 (Except.ok.inj h)
  · intro h hfour
    have := hiff.2 hfour
    rw [Except.ok.inj h] at this
    cases this

theorem noFour_after_move {g g' : Game} (hno : NoFour g) {row col : Int} {p : String}
    (hR : g'.Rows = g.Rows) (hC : g'.Cols = g.Cols)
    (hb : boardSet g.Board row col p = .ok g'.Board)
    (hnot : ¬ FourThrough g' row col p) : NoFour g' := by
  intro r c d hd q hq hline
  by_cases hex : ∃ j : Int, 0 ≤ j ∧ j ≤ 3 ∧ r + j * d.1 = row ∧ c + j * d.2 = col
  · obtain ⟨j, hj0, hj3, hr, hc⟩ := hex
    have hcell := hline j hj0 hj3
    rw [hr, hc] at hcell
    have hq' : q = p := by
      have h1 := hcell.2.2.2.2
      rw [boardGet_set_same hb] at h1
      exact (Except.ok.inj h1).symm
    subst hq'
    apply hnot
    refine ⟨d, hd, j, hj0, hj3, fun j' h0 h3 => ?_⟩
    have := hline j' h0 h3
    have e1 : row + (j' - j) * d.1 = r + j' * d.1 := by rw [← hr]; ring
    have e2 : col + (j' - j) * d.2 = c + j' * d.2 := by rw [← hc]; ring
    rwa [e1, e2]
  · apply hno r c d hd q hq
    intro j hj0 hj3
    obtain ⟨a1, a2, a3, a4, a5⟩ := hline j hj0 hj3
    have hne : r + j * d.1 ≠ row ∨ c + j * d.2 ≠ col := by
      by_contra hc
      exact hex ⟨j, hj0, hj3, by omega, by omega⟩
    rw [boardGet_set_other hb _ _ hne] at a5
    exact ⟨a1, by omega, a3, by omega, a5⟩

theorem NewGame_winInv {rows cols : Int} {player1 player2 : String} {rng : Nat → Nat}
    {fuel : Nat} {g : Game} (h : NewGame rows cols player1 player2 rng fuel = .ok g)
    (h0 : getPrefilledBlocksCount rows cols = 0) : WinInv g := by
  have hb := NewGame_no_prefill h h0
  refine ⟨NewGame_outcomeInv h, fun _ r c d _ q hq hline => ?_, fun hw => ?_⟩
  · have := (hline 0 (le_refl _) (by decide)).2.2.2.2
    rw [hb] at this
    exact hq (boardGet_replicate_empty this)
  · obtain ⟨b, -, rfl⟩ := NewGame_state h
    rcases hw with hw | hw <;> simp at hw

theorem WinInv_step {g g' : Game} {col : Int} {e : Option DropError} (hinv : WinInv g)
    (h : DropPiece g col = .ok (g', e)) : WinInv g' := by
  cases e with
  | some e =>
    obtain ⟨rfl, -⟩ := DropPiece_failure h
    exact hinv
  | none =>
    obtain ⟨hout, hno, -⟩ := hinv
    have hout' := (OutcomeInv_step hout h).1
    obtain ⟨hwf, hp, hiff, -⟩ := hout
    obtain ⟨hgo, hc0, hc1, row, b, hl, hrow, hb, hf⟩ := DropPiece_success h
    obtain ⟨-, h2, h3, -⟩ := landingRow_spec hl
    obtain ⟨h3a, -⟩ := h3 hrow
    obtain ⟨f1, f2, f3, f4, -, -, f7, f8, f9, -⟩ := afterPlacement_fields g b row col
    obtain ⟨e1, e2, e3, -, -, e6, -⟩ := finishMove_fields hf
    have hwfa : WellFormed (afterPlacement g b row col) := afterPlacement_wellFormed hwf hb
    have hcell : HoldsAt (afterPlacement g b row col) row col g.CurrentPlayer := by
      refine ⟨h3a, by rw [f1]; omega, hc0, by rw [f2]; exact hc1, ?_⟩
      rw [f3]
      exact boardGet_set_same hb
    obtain ⟨hwin, hnowin⟩ := checkWin_fourThrough hwfa hcell
    have hw0 : g.Winner = "" := by
      by_contra hne
      have := hiff.2 hne
      rw [hgo] at this
      cases this
    have hcongr := @fourThrough_congr g' (afterPlacement g b row col) e1 e2 e3 row col
      g.CurrentPlayer
    refine ⟨hout', ?_, ?_⟩
    · intro hgo'
      have hnot : ¬ FourThrough g' row col g.CurrentPlayer := by
        rw [hcongr]
        rcases finishMove_cases hf with ⟨-, rfl⟩ | ⟨-, -, rfl⟩ | ⟨hw, -, -⟩
        · cases hgo'
        · cases hgo'
        · exact hnowin hw
      exact noFour_after_move (hno hgo) (by rw [e1, f1]) (by rw [e2, f2])
        (by rw [e3, f3]; exact hb) hnot
    · intro hw
      rcases finishMove_cases hf with ⟨hw1, hg'⟩ | ⟨-, -, hg'⟩ | ⟨-, -, hg'⟩
      · have hwinner : g'.Winner = g.CurrentPlayer := by rw [hg']; exact f4
        refine ⟨row, col, by rw [e6, f9], ?_⟩
        rw [hwinner, hcongr]
        exact hwin hw1
      · have : g'.Winner = "draw" := by rw [hg']
        rw [this] at hw
        rcases hw with hw | hw <;> exact absurd hw (by decide)
      · have : g'.Winner = "" := by rw [hg']; exact f8.trans hw0
        rw [this] at hw
        rcases hw with hw | hw <;> exact absurd hw (by decide)

/-- C22: for a game started from an empty board (`NewGame` with a size without
pre-fill) and every sequence of `DropPiece` calls: as long as `GameOver` is
false the board holds no four contiguous cells with the same marker along a
row, a column or a diagonal; and when `Winner` is `"player1"` or `"player2"`,
the board holds four contiguous markers of that player on a line through
`LastMove`. -/
theorem C22_four_iff_won (rows cols : Int) (player1 player2 : String) (rng : Nat → Nat)
    (fuel : Nat) (g0 : Game) (hpre : getPrefilledBlocksCount rows cols = 0)
    (hnew : NewGame rows cols player1 player2 rng fuel = .ok g0) (calls : List Int) :
    ∃ g es, playSeq g0 calls = .ok (g, es) ∧
      (g.GameOver = false → NoFour g) ∧
      ((g.Winner = "player1" ∨ g.Winner = "player2") →
        ∃ row col : Int, g.LastMove = some { Row := row, Col := col } ∧
          FourThrough g row col g.Winner) := by
  obtain ⟨g, es, hplay, hinv, -⟩ := playSeq_invariant WinInv (fun _ h => h.1.1)
    (fun _ _ _ _ hi hd => WinInv_step hi hd) calls g0 (NewGame_winInv hnew hpre)
  exact ⟨g, es, hplay, hinv.2.1, hinv.2.2⟩

theorem C22_four_iff_won_witness :
    getPrefilledBlocksCount 4 4 = 0 ∧
      NewGame 4 4 "Ann" "Bob" (fun _ => 0) 0 = .ok sampleFresh ∧
      playSeq sampleFresh [0, 1, 0, 1, 0, 1] =
        .ok (sampleBeforeWin, [none, none, none, none, none, none]) ∧
      NoFour sampleBeforeWin ∧
      playSeq sampleFresh [0, 1, 0, 1, 0, 1, 0] =
        .ok (sampleWon, [none, none, none, none, none, none, none]) ∧
      FourThrough sampleWon 0 0 "player1" := by
  have hp1 : playSeq sampleFresh [0, 1, 0, 1, 0, 1] =
      .ok (sampleBeforeWin, [none, none, none, none, none, none]) := by decide
  have hp2 : playSeq sampleFresh [0, 1, 0, 1, 0, 1, 0] =
      .ok (sampleWon, [none, none, none, none, none, none, none]) := by decide
  obtain ⟨g, es, h1, h2, -⟩ := C22_four_iff_won 4 4 "Ann" "Bob" (fun _ => 0) 0 sampleFresh
    (by decide) (by decide) [0, 1, 0, 1, 0, 1]
  obtain ⟨g', es', h1', -, h3'⟩ := C22_four_iff_won 4 4 "Ann" "Bob" (fun _ => 0) 0
    sampleFresh (by decide) (by decide) [0, 1, 0, 1, 0, 1, 0]
  rw [hp1] at h1
  rw [hp2] at h1'
  simp only [Except.ok.injEq, Prod.mk.injEq] at h1 h1'
  obtain ⟨rfl, rfl⟩ := h1
  obtain ⟨rfl, rfl⟩ := h1'
  obtain ⟨row, col, hlast, hfour⟩ := h3' (Or.inl rfl)
  have hrc : row = 0 ∧ col = 0 := by
    have : sampleWon.LastMove = some { Row := 0, Col := 0 } := rfl
    rw [this] at hlast
    simp only [Option.some.injEq, Move.mk.injEq] at hlast
    exact ⟨hlast.1.symm, hlast.2.symm⟩
  rw [hrc.1, hrc.2] at hfour
  exact ⟨by decide, by decide, hp1, h2 rfl, hp2, hfour⟩

/-! ## The empty cells of a column stay in one piece -/

theorem boardGet_ok_range {b : Board} {rows cols : Int} (h : BoardShape b rows cols)
    {r c : Int} {s : String} (hs : boardGet b r c = .ok s) :
    0 ≤ r ∧ r < rows ∧ 0 ≤ c ∧ c < cols := by
  obtain ⟨hlen, hlines⟩ := h
  obtain ⟨hr0, hc0, cells, h1, h2⟩ := (boardGet_eq_ok_iff b r c s).1 hs
  have hr : r.toNat < b.length := by
    by_contra hn
    rw [List.getElem?_eq_none (by omega)] at h1
    cases h1
  have hmem : cells ∈ b := List.getElem?_mem h1
  have hc : c.toNat < cells.length := by
    by_contra hn
    rw [List.getElem?_eq_none (by omega)] at h2
    cases h2
  have := hlines cells hmem
  exact ⟨hr0, by omega, hc0, by omega⟩

theorem NewGame_stacked {rows cols : Int} {player1 player2 : String} {rng : Nat → Nat}
    {fuel : Nat} {g : Game} (hnew : NewGame rows cols player1 player2 rng fuel = .ok g) :
    StackedFromBottom g := by
  unfold NewGame at hnew
  split at hnew
  · cases hnew
  · split at hnew
    · cases hnew
    · rename_i h1 h2
      have hshape := @replicate_shape rows cols (by omega) (by omega)
      have hst0 : StackedFromBottom
          { Rows := rows, Cols := cols,
            Board := List.replicate rows.toNat (List.replicate cols.toNat ""),
            CurrentPlayer := "player1", Player1 := player1, Player2 := player2,
            GameOver := false, Winner := "", LastMove := none, TurnCount := 0,
            InverseGravity := false } := by
        intro r c s hs hne
        exact absurd (boardGet_replicate_empty hs) hne
      dsimp only at hnew
      unfold addPrefilledBlocks at hnew
      split at hnew
      · cases hnew
        exact hst0
      · exact addPrefilledLoop_stacked rng _ fuel 0 _ 0 g (by exact hshape) (by exact hst0) hnew

theorem stacked_contiguous {g : Game} (hwf : WellFormed g) (hst : StackedFromBottom g) :
    EmptiesContiguous g.Board := by
  intro c i j k hij hjk hi hk
  obtain ⟨hi0, -, hc0, hc1⟩ := boardGet_ok_range hwf hi
  obtain ⟨-, hk1, -, -⟩ := boardGet_ok_range hwf hk
  obtain ⟨s, hs⟩ := @boardGet_ok_of_shape _ _ _ hwf j c (by omega) (by omega) hc0 hc1
  by_cases hne : s = ""
  · rw [hne] at hs
    exact hs
  · rcases eq_or_lt_of_le hjk with rfl | hlt
    · exact hk
    · obtain ⟨t, ht, htne⟩ := (hst j c s hs hne).2 k hlt hk1
      unfold IsEmptyAt at hk
      rw [hk] at ht
      exact absurd (Except.ok.inj ht).symm htne

theorem contiguous_place {b b' : Board} {row col : Int} {p : String}
    (hcont : EmptiesContiguous b) (hempty : boardGet b row col = .ok "")
    (hb : boardSet b row col p = .ok b')
    (hext : (∀ i : Int, IsEmptyAt b i col → i ≤ row) ∨ (∀ i : Int, IsEmptyAt b i col → row ≤ i)) :
    EmptiesContiguous b' := by
  have hback : ∀ x c : Int, IsEmptyAt b' x c → IsEmptyAt b x c := by
    intro x c hx
    by_cases hrc : x = row ∧ c = col
    · rw [hrc.1, hrc.2]
      exact hempty
    · unfold IsEmptyAt at hx ⊢
      rwa [boardGet_set_other hb x c (by omega)] at hx
  intro c i j k hij hjk hi hk
  rcases eq_or_lt_of_le hij with rfl | hlt1
  · exact hi
  rcases eq_or_lt_of_le hjk with rfl | hlt2
  · exact hk
  have hj := hcont c i j k hij hjk (hback i c hi) (hback k c hk)
  have hne : j ≠ row ∨ c ≠ col := by
    by_cases hc : c = col
    · subst hc
      rcases hext with hext | hext
      · have := hext k (hback k c hk)
        omega
      · have := hext i (hback i c hi)
        omega
    · exact Or.inr hc
  unfold IsEmptyAt
  rw [boardGet_set_other hb j c hne]
  exact hj

theorem drop_lands {g g' : Game} {col : Int} (hwf : WellFormed g)
    (h : DropPiece g col = .ok (g', none)) :
    ∃ row : Int, g'.LastMove = some { Row := row, Col := col } ∧
      boardGet g.Board row col = .ok "" ∧
      boardSet g.Board row col g.CurrentPlayer = .ok g'.Board ∧
      (g.InverseGravity = false →
        ∀ i : Int, row < i → i < g.Rows → IsFilledAt g.Board i col) ∧
      (g.InverseGravity = true →
        ∀ i : Int, 0 ≤ i → i < row → IsFilledAt g.Board i col) := by
  obtain ⟨-, hc0, hc1, row, b, hl, hrow, hb, hf⟩ := DropPiece_success h
  obtain ⟨-, h2, h3, h4, h5⟩ := landingRow_spec hl
  obtain ⟨h3a, h3b⟩ := h3 hrow
  obtain ⟨-, -, f3, -, -, -, -, -, f9, -⟩ := afterPlacement_fields g b row col
  obtain ⟨-, -, e3, -, -, e6, -⟩ := finishMove_fields hf
  refine ⟨row, by rw [e6, f9], h3b, by rw [e3, f3]; exact hb, fun hinv i hi0 hi1 => ?_,
    fun hinv i hi0 hi1 => ?_⟩
  · rw [isFilledAt_iff_not_empty hwf (by omega) hi1 hc0 hc1]
    exact h4 hinv i hi0 hi1 (by omega)
  · rw [isFilledAt_iff_not_empty hwf hi0 (by omega) hc0 hc1]
    exact h5 hinv i hi0 (by omega) (Or.inr hi1)

theorem contiguous_step {g g' : Game} {col : Int} {e : Option DropError}
    (hwf : WellFormed g) (hcont : EmptiesContiguous g.Board)
    (h : DropPiece g col = .ok (g', e)) : EmptiesContiguous g'.Board := by
  cases e with
  | some e =>
    obtain ⟨rfl, -⟩ := DropPiece_failure h
    exact hcont
  | none =>
    obtain ⟨row, -, hempty, hb, hn, hi⟩ := drop_lands hwf h
    obtain ⟨hr0, hr1, hc0, hc1⟩ := boardGet_ok_range hwf hempty
    refine contiguous_place hcont hempty hb ?_
    cases hinv : g.InverseGravity with
    | false =>
      refine Or.inl fun i hiE => ?_
      by_contra hlt
      obtain ⟨-, hi1, -, -⟩ := boardGet_ok_range hwf hiE
      obtain ⟨t, ht, htne⟩ := hn hinv i (by omega) hi1
      unfold IsEmptyAt at hiE
      rw [hiE] at ht
      exact htne (Except.ok.inj ht).symm
    | true =>
      refine Or.inr fun i hiE => ?_
      by_contra hlt
      obtain ⟨hi0, -, -, -⟩ := boardGet_ok_range hwf hiE
      obtain ⟨t, ht, htne⟩ := hi hinv i hi0 (by omega)
      unfold IsEmptyAt at hiE
      rw [hiE] at ht
      exact htne (Except.ok.inj ht).symm

/-- C23: for every game created by `NewGame` (any size, any stream of random
draws for the pre-fill) and every sequence of `DropPiece` calls, the calls all
return and in the state reached the empty cells of each column form one
contiguous range of rows. Moreover every further successful `DropPiece` puts
the mover's marker into an empty cell of the chosen column such that, in the
resulting board, the piece rests against the edge it fell towards or against a
filled cell (row `Rows - 1` or a filled cell below under normal gravity, row
`0` or a filled cell above under inverted gravity), every cell between the
landing cell and that edge is filled, and the empty cells of each column are
still contiguous. -/
theorem C23_empties_contiguous (rows cols : Int) (player1 player2 : String)
    (rng : Nat → Nat) (fuel : Nat) (g0 : Game)
    (hnew : NewGame rows cols player1 player2 rng fuel = .ok g0) (calls : List Int) :
    ∃ g es, playSeq g0 calls = .ok (g, es) ∧ EmptiesContiguous g.Board ∧
      ∀ (col : Int) (g' : Game), DropPiece g col = .ok (g', none) →
        ∃ row : Int, g'.LastMove = some { Row := row, Col := col } ∧
          IsEmptyAt g.Board row col ∧
          boardGet g'.Board row col = .ok g.CurrentPlayer ∧
          EmptiesContiguous g'.Board ∧
          (g.InverseGravity = false →
            (row = g.Rows - 1 ∨ IsFilledAt g'.Board (row + 1) col) ∧
              ∀ i : Int, row < i → i < g.Rows → IsFilledAt g'.Board i col) ∧
          (g.InverseGravity = true →
            (row = 0 ∨ IsFilledAt g'.Board (row - 1) col) ∧
              ∀ i : Int, 0 ≤ i → i < row → IsFilledAt g'.Board i col) := by
  have hwf0 : WellFormed g0 := (NewGame_outcomeInv hnew).1
  obtain ⟨g, es, hplay, ⟨hwf, hcont⟩, -⟩ := playSeq_invariant
    (fun g => WellFormed g ∧ EmptiesContiguous g.Board) (fun _ h => h.1)
    (fun _ _ _ _ hi hd => ⟨DropPiece_wellFormed hi.1 hd, contiguous_step hi.1 hi.2 hd⟩)
    calls g0 ⟨hwf0, stacked_contiguous hwf0 (NewGame_stacked hnew)⟩
  refine ⟨g, es, hplay, hcont, fun col g' hdrop => ?_⟩
  obtain ⟨row, hlast, hempty, hb, hn, hi⟩ := drop_lands hwf hdrop
  obtain ⟨hr0, hr1, -, -⟩ := boardGet_ok_range hwf hempty
  have hsame : ∀ i : Int, i ≠ row → (IsFilledAt g'.Board i col ↔ IsFilledAt g.Board i col) := by
    intro i hne
    unfold IsFilledAt
    rw [boardGet_set_other hb i col (Or.inl hne)]
  refine ⟨row, hlast, hempty, boardGet_set_same hb, contiguous_step hwf hcont hdrop,
    fun hinv => ⟨?_, fun i h1 h2 => ?_⟩, fun hinv => ⟨?_, fun i h1 h2 => ?_⟩⟩
  · by_cases hlastRow : row = g.Rows - 1
    · exact Or.inl hlastRow
    · right
      rw [hsame _ (by omega)]
      exact hn hinv _ (by omega) (by omega)
  · rw [hsame _ (by omega)]
    exact hn hinv i h1 h2
  · by_cases hfirst : row = 0
    · exact Or.inl hfirst
    · right
      rw [hsame _ (by omega)]
      exact hi hinv _ (by omega) (by omega)
  · rw [hsame _ (by omega)]
    exact hi hinv i h1 h2

theorem C23_empties_contiguous_witness :
    NewGame 4 4 "Ann" "Bob" (fun _ => 0) 0 = .ok sampleFresh ∧
      playSeq sampleFresh [0, 1, 0, 1, 0, 1] =
        .ok (sampleBeforeWin, [none, none, none, none, none, none]) ∧
      EmptiesContiguous sampleBeforeWin.Board ∧
      DropPiece sampleBeforeWin 0 = .ok (sampleWon, none) ∧
      EmptiesContiguous sampleWon.Board := by
  have hp : playSeq sampleFresh [0, 1, 0, 1, 0, 1] =
      .ok (sampleBeforeWin, [none, none, none, none, none, none]) := by decide
  have hd : DropPiece sampleBeforeWin 0 = .ok (sampleWon, none) := by decide
  obtain ⟨g, es, h1, h2, h3⟩ := C23_empties_contiguous 4 4 "Ann" "Bob" (fun _ => 0) 0
    sampleFresh (by decide) [0, 1, 0, 1, 0, 1]
  rw [hp] at h1
  simp only [Except.ok.injEq, Prod.mk.injEq] at h1
  obtain ⟨rfl, rfl⟩ := h1
  obtain ⟨row, -, -, -, h4, -⟩ := h3 0 sampleWon hd
  exact ⟨by decide, hp, h2, hd, h4⟩

/-! ## The fixed-size variant: the top row decides the draw -/

namespace Easy

theorem easy_cellAt_eq (b : Grid) {row col : Int} (i : Fin 6) (j : Fin 7)
    (hi : (i.val : Int) = row) (hj : (j.val : Int) = col) :
    cellAt b row col = .ok (b i j) := by
  subst hi hj
  unfold cellAt
  have h : 0 ≤ (i.val : Int) ∧ (i.val : Int) < 6 ∧ 0 ≤ (j.val : Int) ∧ (j.val : Int) < 7 := by
    omega
  rw [dif_pos h]
  simp

theorem easy_cellAt_total (b : Grid) {row col : Int} (hr0 : 0 ≤ row) (hr : row < 6)
    (hc0 : 0 ≤ col) (hc : col < 7) : ∃ v, cellAt b row col = .ok v :=
  ⟨_, easy_cellAt_eq b ⟨row.toNat, by omega⟩ ⟨col.toNat, by omega⟩
    (Int.toNat_of_nonneg hr0) (Int.toNat_of_nonneg hc0)⟩

theorem easy_countLoop_total (g : GameEasy) (dr dc player : Int) (m : Int → Int → Int)
    (hm : ∀ r c : Int, 0 ≤ r → r < 6 → 0 ≤ c → c < 7 →
      0 < m r c ∧ m (r + dr) (c + dc) < m r c) :
    ∀ (fuel : Nat) (row col count : Int), 1 ≤ fuel →
      (0 ≤ row + dr → row + dr < 6 → 0 ≤ col + dc → col + dc < 7 →
        m (row + dr) (col + dc) < fuel) →
      ∃ n, countLoop g dr dc player fuel row col count = .ok n
  | 0, _, _, _, h1, _ => by omega
  | fuel + 1, row, col, count, _, hf => by
    rw [countLoop]
    by_cases hout : row + dr < 0 ∨ row + dr ≥ 6 ∨ col + dc < 0 ∨ col + dc ≥ 7
    · simp only [hout, if_true]
      exact ⟨count, rfl⟩
    · simp only [hout, if_false]
      have a1 : 0 ≤ row + dr := by omega
      have a2 : row + dr < 6 := by omega
      have a3 : 0 ≤ col + dc := by omega
      have a4 : col + dc < 7 := by omega
      obtain ⟨v, hv⟩ := easy_cellAt_total g.Board a1 a2 a3 a4
      rw [hv]
      dsimp only
      by_cases hp : v = player
      · simp only [hp, if_true]
        have h1 := hf a1 a2 a3 a4
        have h2 := hm _ _ a1 a2 a3 a4
        push_cast at h1
        apply easy_countLoop_total g dr dc player m hm fuel
        · omega
        · intro _ _ _ _
          omega
      · simp only [hp, if_false]
        exact ⟨count, rfl⟩

theorem easy_countDirection_total (g : GameEasy) (row col dr dc player : Int)
    (hd : dr ≠ 0 ∨ dc ≠ 0) : ∃ n, countDirection g row col dr dc player = .ok n := by
  unfold countDirection
  rcases lt_trichotomy dr 0 with h | h | h
  · apply easy_countLoop_total g dr dc player (fun r _ => r + 1)
    · intro r c a1 a2 a3 a4; constructor <;> omega
    · omega
    · intro a1 a2 a3 a4; push_cast; omega
  · rcases lt_trichotomy dc 0 with h' | h' | h'
    · apply easy_countLoop_total g dr dc player (fun _ c => c + 1)
      · intro r c a1 a2 a3 a4; constructor <;> omega
      · omega
      · intro a1 a2 a3 a4; push_cast; omega
    · omega
    · apply easy_countLoop_total g dr dc player (fun _ c => 7 - c)
      · intro r c a1 a2 a3 a4; constructor <;> omega
      · omega
      · intro a1 a2 a3 a4; push_cast; omega
  · apply easy_countLoop_total g dr dc player (fun r _ => 6 - r)
    · intro r c a1 a2 a3 a4; constructor <;> omega
    · omega
    · intro a1 a2 a3 a4; push_cast; omega

theorem easy_checkWinnerLoop_total (g : GameEasy) (row col player : Int) :
    ∀ dirs : List (Int × Int), (∀ d ∈ dirs, d.1 ≠ 0 ∨ d.2 ≠ 0) →
      ∃ w, checkWinnerLoop g row col player dirs = .ok w
  | [], _ => ⟨false, rfl⟩
  | d :: rest, hd => by
    have hd1 := hd d (List.mem_cons_self _ _)
    obtain ⟨a, ha⟩ := easy_countDirection_total g row col d.1 d.2 player hd1
    obtain ⟨c, hc⟩ := easy_countDirection_total g row col (-d.1) (-d.2) player (by omega)
    rw [checkWinnerLoop, ha, hc]
    dsimp only
    by_cases h4 : 1 + a + c ≥ 4
    · exact ⟨true, by simp only [h4, if_true]⟩
    · simp only [h4, if_false]
      exact easy_checkWinnerLoop_total g row col player rest
        (fun d' hd' => hd d' (List.mem_cons_of_mem _ hd'))

theorem easy_checkWinner_total (g : GameEasy) {row col : Int} (hr0 : 0 ≤ row) (hr : row < 6)
    (hc0 : 0 ≤ col) (hc : col < 7) : ∃ w, checkWinner g row col = .ok w := by
  obtain ⟨v, hv⟩ := easy_cellAt_total g.Board hr0 hr hc0 hc
  rw [checkWinner, hv]
  exact easy_checkWinnerLoop_total g row col v directions (by decide)

theorem easy_checkDrawLoop_spec (g : GameEasy) :
    ∀ (n col : Nat), col + n = 7 →
      ∃ w, checkDrawLoop g n (col : Int) = .ok w ∧
        (w = true ↔ ∀ j : Fin 7, col ≤ j.val → g.Board 0 j ≠ 0)
  | 0, col, h => by
    refine ⟨true, rfl, fun _ j hj => ?_, fun _ => rfl⟩
    have := j.isLt
    omega
  | n + 1, col, h => by
    have hcol : col < 7 := by omega
    have hv : cellAt g.Board 0 (col : Int) = .ok (g.Board 0 ⟨col, hcol⟩) :=
      easy_cellAt_eq g.Board (0 : Fin 6) (⟨col, hcol⟩ : Fin 7) rfl rfl
    rw [checkDrawLoop, hv]
    dsimp only
    by_cases h0 : g.Board 0 ⟨col, hcol⟩ = 0
    · simp only [h0, if_true]
      refine ⟨false, rfl, ⟨fun hc => Bool.noConfusion hc, fun hall => ?_⟩⟩
      exact absurd h0 (hall ⟨col, hcol⟩ (le_refl _))
    · simp only [h0, if_false]
      obtain ⟨w, hw, hiff⟩ := easy_checkDrawLoop_spec g n (col + 1) (by omega)
      refine ⟨w, by push_cast at hw; exact hw, ?_⟩
      rw [hiff]
      constructor
      · intro hall j hj
        by_cases hjc : j.val = col
        · have : j = ⟨col, hcol⟩ := Fin.ext hjc
          rw [this]
          exact h0
        · exact hall j (by omega)
      · intro hall j hj
        exact hall j (by omega)

theorem easy_checkDraw_spec (g : GameEasy) :
    ∃ w, checkDraw g = .ok w ∧ (w = true ↔ ∀ j : Fin 7, g.Board 0 j ≠ 0) := by
  obtain ⟨w, hw, hiff⟩ := easy_checkDrawLoop_spec g 7 0 rfl
  refine ⟨w, hw, ?_⟩
  rw [hiff]
  exact ⟨fun h j => h j (Nat.zero_le _), fun h j _ => h j⟩

theorem easy_top_row_full {b : Grid} (hst : Stacked b) :
    (∀ j : Fin 7, b 0 j ≠ 0) ↔ BoardFull b := by
  constructor
  · intro h i j
    by_cases hi : i = 0
    · rw [hi]
      exact h j
    · exact hst 0 i j (h j) (Fin.pos_iff_ne_zero.2 hi)
  · intro h j
    exact h 0 j

theorem easy_settle_inv (g : GameEasy) {row col : Int} (hr0 : 0 ≤ row) (hr : row < 6)
    (hc0 : 0 ≤ col) (hc : col < 7) (hinv : EasyInv g) :
    ∃ g', settle g row col = .ok g' ∧ EasyInv g' := by
  obtain ⟨w, hw⟩ := easy_checkWinner_total g hr0 hr hc0 hc
  obtain ⟨d, hd, -⟩ := easy_checkDraw_spec g
  unfold settle
  rw [hw]
  cases w with
  | true => exact ⟨_, rfl, hinv⟩
  | false =>
    dsimp only
    rw [hd]
    cases d with
    | true => exact ⟨_, rfl, hinv⟩
    | false =>
      refine ⟨_, rfl, ?_⟩
      unfold switchTurn
      split
      · exact ⟨Or.inr rfl, hinv.2⟩
      · exact ⟨Or.inl rfl, hinv.2⟩

theorem easy_place_stacked {b b' : Grid} {row col v : Int} (hst : Stacked b) (hv : v ≠ 0)
    (hb : cellPut b row col v = .ok b')
    (hbelow : ∀ i : Fin 6, row < (i.val : Int) → ∀ j : Fin 7, (j.val : Int) = col → b i j ≠ 0) :
    Stacked b' := by
  unfold cellPut at hb
  split at hb
  · obtain rfl := Except.ok.inj hb
    intro i i' j hij hlt
    dsimp only at hij ⊢
    by_cases h' : (i'.val : Int) = row ∧ (j.val : Int) = col
    · simp only [h', and_self, if_true]
      exact hv
    · simp only [h', if_false]
      by_cases h : (i.val : Int) = row ∧ (j.val : Int) = col
      · refine hbelow i' ?_ j h.2
        have : i.val < i'.val := hlt
        omega
      · simp only [h, if_false] at hij
        exact hst i i' j hij hlt
  · cases hb

theorem easy_dropLoop_inv (g : GameEasy) (hinv : EasyInv g) (j : Fin 7) :
    ∀ n : Nat, n ≤ 6 → (∀ i : Fin 6, n ≤ i.val → g.Board i j ≠ 0) →
      ∃ g' r, dropLoop g (j.val : Int) n = .ok (g', r) ∧ EasyInv g'
  | 0, _, _ => ⟨g, false, rfl, hinv⟩
  | n + 1, hn, hfilled => by
    have hn6 : n < 6 := by omega
    have hv : cellAt g.Board (n : Int) (j.val : Int) = .ok (g.Board ⟨n, hn6⟩ j) :=
      easy_cellAt_eq g.Board (⟨n, hn6⟩ : Fin 6) j rfl rfl
    rw [dropLoop, hv]
    dsimp only
    by_cases h0 : g.Board ⟨n, hn6⟩ j = 0
    · simp only [h0, if_true]
      have hrange : 0 ≤ (n : Int) ∧ (n : Int) < 6 ∧ 0 ≤ (j.val : Int) ∧ (j.val : Int) < 7 := by
        omega
      have hput : ∃ b, cellPut g.Board (n : Int) (j.val : Int) g.Turn = .ok b := by
        unfold cellPut
        rw [if_pos hrange]
        exact ⟨_, rfl⟩
      obtain ⟨b, hb⟩ := hput
      rw [hb]
      dsimp only
      have hturn : g.Turn ≠ 0 := by
        rcases hinv.1 with h | h <;> rw [h] <;> decide
      have hst : Stacked b := by
        refine easy_place_stacked hinv.2 hturn hb (fun i hi j' hj' => ?_)
        have : j' = j := Fin.ext (by omega)
        rw [this]
        exact hfilled i (by omega)
      obtain ⟨g', hg', hinv'⟩ := @easy_settle_inv { g with Board := b } (n : Int) (j.val : Int)
        hrange.1 hrange.2.1 hrange.2.2.1 hrange.2.2.2 ⟨hinv.1, hst⟩
      rw [hg']
      exact ⟨g', true, rfl, hinv'⟩
    · simp only [h0, if_false]
      apply easy_dropLoop_inv g hinv j n (by omega)
      intro i hi
      by_cases hin : i.val = n
      · have : i = ⟨n, hn6⟩ := Fin.ext hin
        rw [this]
        exact h0
      · exact hfilled i (by omega)

theorem easy_DropPiece_inv (g : GameEasy) (hinv : EasyInv g) (column : Int) :
    ∃ g' r, DropPiece g column = .ok (g', r) ∧ EasyInv g' := by
  unfold DropPiece
  by_cases hgo : g.GameOver = true
  · simp only [hgo, if_true]
    exact ⟨g, false, rfl, hinv⟩
  · simp only [hgo, Bool.false_eq_true, if_false]
    by_cases hc : column < 0 ∨ column ≥ 7
    · simp only [hc, if_true]
      exact ⟨g, false, rfl, hinv⟩
    · simp only [hc, if_false]
      have hj : ((⟨column.toNat, by omega⟩ : Fin 7).val : Int) = column := by
        simp only
        omega
      rw [← hj]
      exact easy_dropLoop_inv g hinv _ 6 (le_refl _) (fun i hi => absurd i.isLt (by omega))

theorem easy_playSeq_inv : ∀ (calls : List Int) (g0 : GameEasy), EasyInv g0 →
    ∃ g rs, playSeq g0 calls = .ok (g, rs) ∧ EasyInv g
  | [], g0, h => ⟨g0, [], rfl, h⟩
  | c :: rest, g0, h => by
    obtain ⟨g1, r, h1, hinv1⟩ := easy_DropPiece_inv g0 h c
    obtain ⟨g, rs, h2, hinv⟩ := easy_playSeq_inv rest g1 hinv1
    refine ⟨g, r :: rs, ?_, hinv⟩
    rw [playSeq, h1]
    dsimp only
    rw [h2]

theorem easy_NewGame_inv : EasyInv NewGame :=
  ⟨Or.inl rfl, fun _ _ _ h _ => absurd rfl h⟩

/-- Without the stacking invariant the top row does not decide: on the board
`topRowOnly`, which no game reaches, `checkDraw` returns true although 35 cells
are zero. -/
theorem easy_topRowOnly_draw :
    checkDraw topRowOnly = .ok true ∧ ¬ BoardFull topRowOnly.Board ∧
      ¬ Stacked topRowOnly.Board := by
  refine ⟨by decide, fun h => h 1 0 rfl, fun h => h 0 1 0 (by decide) (by decide) rfl⟩

set_option maxRecDepth 100000 in
/-- The draw is reached: the 42 calls of `easyDrawCalls` are all accepted, fill
the board without a win, and the last one records the draw. -/
theorem easy_draw_game :
    outcomeOf easyDrawCalls = some (true, true, 0, .ok true, List.replicate 42 true) := by
  decide

/-- C24: in the fixed-size 6x7 variant, for every sequence of `DropPiece`
calls on the game returned by `NewGame()`, all the calls return, and in the
state reached every non-zero cell has only non-zero cells below it in its
column, and `checkDraw` (which reads only the top row) returns true if and only
if all 42 cells of the board are non-zero. -/
theorem C24_top_row_decides_draw (calls : List Int) :
    ∃ g rs, playSeq NewGame calls = .ok (g, rs) ∧ Stacked g.Board ∧
      ∃ w, checkDraw g = .ok w ∧ (w = true ↔ BoardFull g.Board) := by
  obtain ⟨g, rs, hplay, hinv⟩ := easy_playSeq_inv calls NewGame easy_NewGame_inv
  obtain ⟨w, hw, hiff⟩ := easy_checkDraw_spec g
  exact ⟨g, rs, hplay, hinv.2, w, hw, hiff.trans (easy_top_row_full hinv.2)⟩

end Easy

end Power4
